import Mathlib

/-!
# Password hasher: the encoded-hash format and its verification

A shallow embedding of the Go package `hasher` (`hasher.go`).

Go values are rendered as follows.

* A `string` and a `[]byte` are lists of bytes, a byte being a natural number below 256
  (`isBytes`); a `nil` slice is the empty list.
* `uint32`, `uint8` and `int` values are natural numbers / integers (an `int` has 64 bits);
  a conversion such as `uint32(len(salt))` is written with an explicit `% 2 ^ 32`.
* A function returning `(T, error)` returns a pair whose second component is an
  `Option Error`, `none` being the `nil` error.
* The key-derivation function `argon2.IDKey` and the random source `crypto/rand` are
  external to the package; they are parameters of the embedding.
* The standard-library functions the package calls (`strings.Split`, `fmt.Sprintf`,
  `fmt.Sscanf`, `base64.RawStdEncoding`, `subtle.ConstantTimeCompare`) are embedded from
  their Go definitions, restricted to the arguments the package passes to them.
-/

namespace hasher

/-! ## Go values -/

/-- Every element of the list is a byte. -/
def isBytes (s : List Nat) : Prop := ∀ b ∈ s, b < 256

instance (s : List Nat) : Decidable (isBytes s) := by
  unfold isBytes; infer_instance

/-- The bytes (UTF-8) of a string literal. -/
def str (s : String) : List Nat :=
  s.data.flatMap fun c => (String.utf8EncodeChar c).map UInt8.toNat

/-- The error values the package can return. `ErrInvalidHash` and `ErrInvalidArgonVersion`
are the two sentinels declared in `hasher.go`; the others are the errors of `fmt.Sscanf`
(with `io` and `strconv`), of `base64` and of the random source, which `decodeHash` and
`Hash` return as they receive them. -/
inductive Error where
  /-- The sentinel `errors.New("password hash is invalid")`. -/
  | ErrInvalidHash
  /-- The sentinel `errors.New("argon2 version is incompatible with hash version")`. -/
  | ErrInvalidArgonVersion
  /-- The value `io.ErrUnexpectedEOF`: the input ended inside literal text of the format. -/
  | ErrUnexpectedEOF
  /-- The value `io.EOF`: the input ended where an operand was expected. -/
  | EOF
  /-- Scan error "input does not match format". -/
  | inputDoesNotMatchFormat
  /-- Scan error "unexpected newline". -/
  | unexpectedNewline
  /-- Scan error "expected integer". -/
  | expectedInteger
  /-- Scan error "integer overflow on token " followed by the token. -/
  | integerOverflow (tok : List Nat)
  /-- Scan error "unsigned integer overflow on token " followed by the token. -/
  | unsignedIntegerOverflow (tok : List Nat)
  /-- A `*strconv.NumError` wrapping `strconv.ErrSyntax`. -/
  | ErrSyntax (tok : List Nat)
  /-- A `*strconv.NumError` wrapping `strconv.ErrRange`. -/
  | ErrRange (tok : List Nat)
  /-- The error `base64.CorruptInputError(offset)`. -/
  | CorruptInputError (offset : Nat)
  /-- An error of the random source. -/
  | entropy (code : Nat)
  deriving DecidableEq, Repr

/-! ## `strings.Split` -/

/-- The constant `sep = "&"` of `hasher.go`, as its single byte. -/
def sep : Nat := 38

/-- The call `strings.Split(s, sep)` for a separator of one byte: the substrings between the
occurrences of the separator, one more than there are occurrences. -/
def Split (sep : Nat) : List Nat → List (List Nat)
  | [] => [[]]
  | c :: cs =>
    if c = sep then [] :: Split sep cs
    else
      match Split sep cs with
      | [] => [[c]]
      | f :: fs => (c :: f) :: fs

/-! ## `fmt.Sprintf`, verb `%d` -/

/-- The digit loop of `fmtInteger` in base 10: `for u >= 10 { next := u / 10;
buf[i] = '0' + u - next*10; u = next }; buf[i] = '0' + u`, writing from the right. -/
def fmtIntegerLoop : Nat → Nat → List Nat → List Nat
  | 0, _, buf => buf
  | fuel + 1, u, buf =>
    if u ≥ 10 then fmtIntegerLoop fuel (u / 10) ((48 + (u - (u / 10) * 10)) :: buf)
    else (48 + u) :: buf

/-- Verb `%d` on an unsigned operand. -/
def fmtUint (u : Nat) : List Nat := fmtIntegerLoop (u + 1) u []

/-- Verb `%d` on a signed operand: a `-` in front of the digits of a negative value. -/
def fmtInt (i : Int) : List Nat :=
  if i < 0 then 45 :: fmtUint i.natAbs else fmtUint i.natAbs

/-! ## `encoding/base64`, `RawStdEncoding` -/

/-- The alphabet `encodeStd`. -/
def encodeStd : List Nat :=
  str "ABCDEFGHIJKLMNOPQRSTUVWXYZabcdefghijklmnopqrstuvwxyz0123456789+/"

/-- The table `enc.encode`. -/
def b64encode (i : Nat) : Nat := encodeStd.getD i 0

/-- The table `enc.decodeMap`: the index of a byte in the alphabet, `0xff` for a byte that
is not in it. -/
def decodeMap (c : Nat) : Nat :=
  match encodeStd.indexOf? c with
  | some i => i
  | none => 0xff

/-- The method `Encode` of `RawStdEncoding` (no padding): four characters for every three
bytes, then two characters for one remaining byte or three for two. -/
def EncodeToString : List Nat → List Nat
  | [] => []
  | [s0] =>
    let val := s0 <<< 16
    [b64encode (val >>> 18 &&& 0x3F), b64encode (val >>> 12 &&& 0x3F)]
  | [s0, s1] =>
    let val := s0 <<< 16 ||| s1 <<< 8
    [b64encode (val >>> 18 &&& 0x3F), b64encode (val >>> 12 &&& 0x3F),
      b64encode (val >>> 6 &&& 0x3F)]
  | s0 :: s1 :: s2 :: rest =>
    let val := s0 <<< 16 ||| s1 <<< 8 ||| s2
    b64encode (val >>> 18 &&& 0x3F) :: b64encode (val >>> 12 &&& 0x3F) ::
      b64encode (val >>> 6 &&& 0x3F) :: b64encode (val &&& 0x3F) :: EncodeToString rest

/-- The end of `decodeQuantum`: the `dlen - 1` bytes of a quantum of `dlen` decoded
characters `dbuf` (missing ones are zero). -/
def quantumBytes (dbuf : List Nat) : List Nat :=
  let val := dbuf.getD 0 0 <<< 18 ||| dbuf.getD 1 0 <<< 12 ||| dbuf.getD 2 0 <<< 6 |||
    dbuf.getD 3 0
  ([val >>> 16 % 256, val >>> 8 % 256, val >>> 0 % 256]).take (dbuf.length - 1)

/-- The loop of `Decode` over `decodeQuantum` for `RawStdEncoding` (no padding character,
not strict). `si` is the offset of the next byte of the source, `dbuf` the characters of the
current quantum decoded so far, `out` the bytes of the quanta already completed. The bytes
`\r` and `\n` are skipped; any other byte outside the alphabet is a `CorruptInputError` at
its offset, and so is a last quantum of a single character. -/
def decodeLoop : List Nat → Nat → List Nat → List Nat → List Nat × Option Error
  | [], si, dbuf, out =>
    match dbuf.length with
    | 0 => (out, none)
    | 1 => (out, some (Error.CorruptInputError (si - 1)))
    | _ => (out ++ quantumBytes dbuf, none)
  | c :: src, si, dbuf, out =>
    if decodeMap c ≠ 0xff then
      if dbuf.length + 1 = 4 then
        decodeLoop src (si + 1) [] (out ++ quantumBytes (dbuf ++ [decodeMap c]))
      else decodeLoop src (si + 1) (dbuf ++ [decodeMap c]) out
    else if c = 10 ∨ c = 13 then decodeLoop src (si + 1) dbuf out
    else (out, some (Error.CorruptInputError si))

/-- The method `DecodeString` of `RawStdEncoding`: the decoded bytes (those of the complete
quanta when there is an error) and the error. -/
def DecodeString (s : List Nat) : List Nat × Option Error := decodeLoop s 0 [] []

/-! ## `unicode/utf8` and the runes of a string -/

/-- The rune `utf8.RuneError`. -/
def RuneError : Nat := 0xFFFD

/-- The function `utf8.DecodeRune`: the first rune of `p` and its width in bytes. A byte
that does not start a well-formed encoding gives `(RuneError, 1)`. The tables `first` and
`acceptRanges` are written as comparisons on the first byte. -/
def DecodeRune (p : List Nat) : Nat × Nat :=
  match p with
  | [] => (RuneError, 0)
  | p0 :: tl =>
    if p0 < 0x80 then (p0, 1)
    else if p0 < 0xC2 ∨ 0xF4 < p0 then (RuneError, 1)
    else
      let sz := if p0 < 0xE0 then 2 else if p0 < 0xF0 then 3 else 4
      let lo := if p0 = 0xE0 then 0xA0 else if p0 = 0xF0 then 0x90 else 0x80
      let hi := if p0 = 0xED then 0x9F else if p0 = 0xF4 then 0x8F else 0xBF
      if p.length < sz then (RuneError, 1)
      else
        let b1 := tl.getD 0 0
        if b1 < lo ∨ hi < b1 then (RuneError, 1)
        else if sz ≤ 2 then ((p0 &&& 0x1F) <<< 6 ||| (b1 &&& 0x3F), 2)
        else
          let b2 := tl.getD 1 0
          if b2 < 0x80 ∨ 0xBF < b2 then (RuneError, 1)
          else if sz ≤ 3 then
            ((p0 &&& 0x0F) <<< 12 ||| (b1 &&& 0x3F) <<< 6 ||| (b2 &&& 0x3F), 3)
          else
            let b3 := tl.getD 2 0
            if b3 < 0x80 ∨ 0xBF < b3 then (RuneError, 1)
            else
              ((p0 &&& 0x07) <<< 18 ||| (b1 &&& 0x3F) <<< 12 ||| (b2 &&& 0x3F) <<< 6 |||
                (b3 &&& 0x3F), 4)

/-- The runes a scanner reads from a string, one `DecodeRune` after the other (the reader
`readRune` of `fmt`). The first argument bounds the number of runes; the length of the
string is enough, every rune taking at least one byte. -/
def runesLoop : Nat → List Nat → List Nat
  | 0, _ => []
  | fuel + 1, p =>
    match p with
    | [] => []
    | _ :: _ => (DecodeRune p).1 :: runesLoop fuel (p.drop (DecodeRune p).2)

/-- The runes of a string. -/
def runes (s : List Nat) : List Nat := runesLoop s.length s

/-! ## `strconv.ParseUint`, `strconv.ParseInt` in base 10 -/

/-- The loop of `ParseUint(s, 10, 64)` over the bytes of `s`, `n` being the value so far;
`s0` is the whole token, for the error. The cutoff is `maxUint64/10 + 1`. -/
def parseUintLoop (s0 : List Nat) : List Nat → Nat → Nat × Option Error
  | [], n => (n, none)
  | c :: cs, n =>
    if 48 ≤ c ∧ c ≤ 57 then
      if n ≥ (2 ^ 64 - 1) / 10 + 1 then (2 ^ 64 - 1, some (Error.ErrRange s0))
      else
        let n1 := (n * 10 + (c - 48)) % 2 ^ 64
        if n1 < n * 10 then (2 ^ 64 - 1, some (Error.ErrRange s0))
        else parseUintLoop s0 cs n1
    else (0, some (Error.ErrSyntax s0))

/-- The call `strconv.ParseUint(s, 10, 64)`. -/
def ParseUint (s : List Nat) : Nat × Option Error :=
  if s = [] then (0, some (Error.ErrSyntax s)) else parseUintLoop s s 0

/-- The call `strconv.ParseInt(s, 10, 64)`. -/
def ParseInt (s : List Nat) : Int × Option Error :=
  if s = [] then (0, some (Error.ErrSyntax s))
  else
    let neg := s.head? = some 45
    let s1 := if s.head? = some 43 ∨ s.head? = some 45 then s.tail else s
    match ParseUint s1 with
    | (_, some (Error.ErrSyntax _)) => (0, some (Error.ErrSyntax s))
    | (un, _) =>
      if ¬ neg ∧ un ≥ 2 ^ 63 then (2 ^ 63 - 1, some (Error.ErrRange s))
      else if neg ∧ un > 2 ^ 63 then (-(2 ^ 63), some (Error.ErrRange s))
      else (if neg then -(un : Int) else (un : Int), none)

/-! ## `fmt.Sscanf` -/

/-- The table `space` of `fmt`: the ranges of the space runes. -/
def space : List (Nat × Nat) :=
  [(0x0009, 0x000d), (0x0020, 0x0020), (0x0085, 0x0085), (0x00a0, 0x00a0),
   (0x1680, 0x1680), (0x2000, 0x200a), (0x2028, 0x2029), (0x202f, 0x202f),
   (0x205f, 0x205f), (0x3000, 0x3000)]

/-- The loop of `isSpace` over the table. -/
def isSpaceLoop (rx : Nat) : List (Nat × Nat) → Bool
  | [] => false
  | rng :: rest =>
    if rx < rng.1 then false
    else if rx ≤ rng.2 then true
    else isSpaceLoop rx rest

/-- The function `isSpace` of `fmt`. -/
def isSpace (r : Nat) : Bool :=
  if r ≥ 2 ^ 16 then false else isSpaceLoop r space

/-- The method `SkipSpace` of the scanner on the runes left to read, for `Sscanf` (a newline
is neither a space nor the end of the input): spaces are skipped and a newline is the error
"unexpected newline". -/
def SkipSpace : List Nat → List Nat × Option Error
  | [] => ([], none)
  | r :: rest =>
    if r = 13 ∧ rest.head? = some 10 then SkipSpace rest
    else if r = 10 then (rest, some Error.unexpectedNewline)
    else if ¬ isSpace r then (r :: rest, none)
    else SkipSpace rest

/-- The loop `for s.accept(digits) {}` of `scanNumber`: the digits read go to the token
buffer `buf`. -/
def acceptLoop (digits : List Nat) : List Nat → List Nat → List Nat × List Nat
  | [], buf => ([], buf)
  | r :: rest, buf =>
    if r ∈ digits then acceptLoop digits rest (buf ++ [r]) else (r :: rest, buf)

/-- The digits accepted by verb `%d`. -/
def decimalDigits : List Nat := str "0123456789"

/-- The method `scanNumber(decimalDigits, false)`: the runes left and the token, or the
error `io.EOF` at the end of the input and "expected integer" when no digit is there. -/
def scanNumber (inp buf : List Nat) : List Nat × List Nat × Option Error :=
  match inp with
  | [] => ([], buf, some Error.EOF)
  | r :: rest =>
    if r ∈ decimalDigits then
      let (inp1, tok) := acceptLoop decimalDigits rest (buf ++ [r])
      (inp1, tok, none)
    else (r :: rest, buf, some Error.expectedInteger)

/-- The method `scanInt('d', bitSize)`: the runes left and the value read. An optional
sign is accepted before the digits. -/
def scanInt (bitSize : Nat) (inp : List Nat) : List Nat × Int × Option Error :=
  match SkipSpace inp with
  | (inp1, some e) => (inp1, 0, some e)
  | ([], none) => ([], 0, some Error.EOF)
  | (r :: rest, none) =>
    let (inp2, buf) := if r = 43 ∨ r = 45 then (rest, [r]) else (r :: rest, [])
    match scanNumber inp2 buf with
    | (inp3, _, some e) => (inp3, 0, some e)
    | (inp3, tok, none) =>
      match ParseInt tok with
      | (_, some e) => (inp3, 0, some e)
      | (i, none) =>
        if i < -(2 ^ (bitSize - 1)) ∨ 2 ^ (bitSize - 1) ≤ i then
          (inp3, 0, some (Error.integerOverflow tok))
        else (inp3, i, none)

/-- The method `scanUint('d', bitSize)`: the runes left and the value read. No sign is
accepted. -/
def scanUint (bitSize : Nat) (inp : List Nat) : List Nat × Nat × Option Error :=
  match SkipSpace inp with
  | (inp1, some e) => (inp1, 0, some e)
  | ([], none) => ([], 0, some Error.EOF)
  | (r :: rest, none) =>
    match scanNumber (r :: rest) [] with
    | (inp3, _, some e) => (inp3, 0, some e)
    | (inp3, tok, none) =>
      match ParseUint tok with
      | (_, some e) => (inp3, 0, some e)
      | (i, none) =>
        if 2 ^ bitSize ≤ i then (inp3, 0, some (Error.unsignedIntegerOverflow tok))
        else (inp3, i, none)

/-- The operand of a verb: a pointer to an `int` or to an unsigned integer of the given
size. -/
inductive Operand where
  | int (bitSize : Nat)
  | uint (bitSize : Nat)
  deriving DecidableEq, Repr

/-- An item of a format string without spaces and without `%%`: a literal rune or the verb
`%d` with its operand. -/
inductive FmtItem where
  | lit (c : Nat)
  | d (arg : Operand)
  deriving DecidableEq, Repr

/-- The method `doScanf` on the runes of the input: the values stored through the operands,
in order, and the error. A literal rune of the format must be the next rune of the input
(`io.ErrUnexpectedEOF` when the input has ended, "input does not match format" when the
rune differs); a verb skips spaces and scans one operand. What is left of the input after
the last item is not looked at. When an operand fails, the operands before it have been
stored. -/
def doScanf : List FmtItem → List Nat → List Int → List Int × Option Error
  | [], _, vals => (vals, none)
  | FmtItem.lit c :: fmt, inp, vals =>
    match inp with
    | [] => (vals, some Error.ErrUnexpectedEOF)
    | r :: rest =>
      if c ≠ r then (vals, some Error.inputDoesNotMatchFormat)
      else doScanf fmt rest vals
  | FmtItem.d arg :: fmt, inp, vals =>
    match SkipSpace inp with
    | (_, some e) => (vals, some e)
    | (inp1, none) =>
      match arg with
      | Operand.int bitSize =>
        match scanInt bitSize inp1 with
        | (_, _, some e) => (vals, some e)
        | (inp2, i, none) => doScanf fmt inp2 (vals ++ [i])
      | Operand.uint bitSize =>
        match scanUint bitSize inp1 with
        | (_, _, some e) => (vals, some e)
        | (inp2, u, none) => doScanf fmt inp2 (vals ++ [(u : Int)])

/-- The function `fmt.Sscanf` on a string and a format. The scanner reads the runes of the
string one at a time; it is given all of them here (its limit of 2^30 runes for one call is
left out). -/
def Sscanf (s : List Nat) (fmt : List FmtItem) : List Int × Option Error :=
  doScanf fmt (runes s) []

/-! ## `crypto/subtle` -/

/-- The function `subtle.ConstantTimeByteEq`: `int((uint32(x^y) - 1) >> 31)`, the subtraction
being that of `uint32`. -/
def ConstantTimeByteEq (x y : Nat) : Nat :=
  (((x ^^^ y) % 2 ^ 32 + 2 ^ 32 - 1) % 2 ^ 32) >>> 31

/-- The loop `for i := 0; i < len(x); i++ { v |= x[i] ^ y[i] }` of `ConstantTimeCompare`, on
two slices of the same length. -/
def xorLoop : List Nat → List Nat → Nat → Nat
  | a :: x, b :: y, v => xorLoop x y (v ||| (a ^^^ b))
  | _, _, v => v

/-- The function `subtle.ConstantTimeCompare`: 0 when the lengths differ, otherwise 1 or 0
as the accumulated difference is zero or not. -/
def ConstantTimeCompare (x y : List Nat) : Nat :=
  if x.length ≠ y.length then 0 else ConstantTimeByteEq (xorLoop x y 0) 0

/-! ## The package `hasher` -/

/-- Modelled from the spec: the declaration of the type `Params` is not among the source
files. Its fields are the ones `hasher.go` uses; their types are those of the spec (section 3)
and of the parameters they are passed to (`argon2.IDKey`, `generateSalt`): `Memory`,
`Iterations`, `SaltLength` and `KeyLength` are `uint32`, `Parallelism` is `uint8`. -/
structure Params where
  Memory : Nat
  Iterations : Nat
  Parallelism : Nat
  SaltLength : Nat
  KeyLength : Nat
  deriving DecidableEq, Repr

/-- The fields of a `Params` are values of their Go types. -/
def Params.wellTyped (p : Params) : Prop :=
  p.Memory < 2 ^ 32 ∧ p.Iterations < 2 ^ 32 ∧ p.Parallelism < 2 ^ 8 ∧
    p.SaltLength < 2 ^ 32 ∧ p.KeyLength < 2 ^ 32

instance (p : Params) : Decidable p.wellTyped := by
  unfold Params.wellTyped; infer_instance

/-- The type `Hasher`. -/
structure Hasher where
  Params : Params
  deriving DecidableEq, Repr

/-- The function `NewWithParams`. -/
def NewWithParams (p : Params) : Hasher := { Params := p }

/-- The function `New`. -/
def New : Hasher :=
  NewWithParams { Memory := 64 * 1024, Iterations := 3, Parallelism := 2, SaltLength := 16,
                  KeyLength := 32 }

/-- The key-derivation function `argon2.IDKey(password, salt, time, memory, threads,
keyLen)`, external to the package. -/
abbrev KDF := List Nat → List Nat → Nat → Nat → Nat → Nat → List Nat

/-- The key-derivation function returns a key of `keyLen` bytes. -/
def KDF.returnsKey (IDKey : KDF) : Prop :=
  ∀ password salt time memory threads keyLen,
    (IDKey password salt time memory threads keyLen).length = keyLen ∧
      isBytes (IDKey password salt time memory threads keyLen)

/-- The random source `rand.Read`, external to the package: for a buffer of `l` bytes, the
value written at each index of the buffer and the error returned. -/
abbrev RandRead := Nat → (Nat → Nat) × Option Error

/-- The constant `argon2.Version`. -/
def Version : Int := 0x13

/-- The function `generateSalt`: a buffer of `l` bytes filled by the random source, and the
error of the random source. -/
def generateSalt (Read : RandRead) (l : Nat) : List Nat × Option Error :=
  ((List.range l).map fun i => (Read l).1 i % 256, (Read l).2)

/-- The method `Hash`. The format string is
`"argon2%[1]sv=%[2]d%[1]sm=%[3]d,t=%[4]d,p=%[5]d%[1]s%[6]s%[1]s%[7]s"`. -/
def Hash (IDKey : KDF) (Read : RandRead) (h : Hasher) (password : List Nat) :
    List Nat × Option Error :=
  match generateSalt Read h.Params.SaltLength with
  | (_, some err) => ([], some err)
  | (salt, none) =>
    let hash := IDKey password salt h.Params.Iterations h.Params.Memory h.Params.Parallelism
      h.Params.KeyLength
    let b64Salt := EncodeToString salt
    let b64Hash := EncodeToString hash
    let encPassword := str "argon2" ++ [sep] ++ str "v=" ++ fmtInt Version ++ [sep] ++
      str "m=" ++ fmtUint h.Params.Memory ++ str ",t=" ++ fmtUint h.Params.Iterations ++
      str ",p=" ++ fmtUint h.Params.Parallelism ++ [sep] ++ b64Salt ++ [sep] ++ b64Hash
    (encPassword, none)

/-- The format `"v=%d"` with a `*int` operand (an `int` has 64 bits). -/
def fmtVersion : List FmtItem :=
  [FmtItem.lit 118, FmtItem.lit 61, FmtItem.d (Operand.int 64)]

/-- The format `"m=%d,t=%d,p=%d"` with the operands `&params.Memory`, `&params.Iterations`
and `&params.Parallelism`. -/
def fmtParams : List FmtItem :=
  [FmtItem.lit 109, FmtItem.lit 61, FmtItem.d (Operand.uint 32),
   FmtItem.lit 44, FmtItem.lit 116, FmtItem.lit 61, FmtItem.d (Operand.uint 32),
   FmtItem.lit 44, FmtItem.lit 112, FmtItem.lit 61, FmtItem.d (Operand.uint 8)]

/-- The function `decodeHash`: the parameters, the salt, the key and the error. -/
def decodeHash (encHash : List Nat) : Params × List Nat × List Nat × Option Error :=
  let params : Params :=
    { Memory := 0, Iterations := 0, Parallelism := 0, SaltLength := 0, KeyLength := 0 }
  let vals := Split sep encHash
  if vals.length ≠ 5 then (params, [], [], some Error.ErrInvalidHash)
  else
    match Sscanf (vals.getD 1 []) fmtVersion with
    | (_, some err) => (params, [], [], some err)
    | (scanned, none) =>
      let v := scanned.getD 0 0
      if v ≠ Version then (params, [], [], some Error.ErrInvalidArgonVersion)
      else
        match Sscanf (vals.getD 2 []) fmtParams with
        | (scanned, err) =>
          let params := { params with
            Memory := (scanned.getD 0 0).toNat
            Iterations := (scanned.getD 1 0).toNat
            Parallelism := (scanned.getD 2 0).toNat }
          match err with
          | some err => (params, [], [], some err)
          | none =>
            match DecodeString (vals.getD 3 []) with
            | (_, some err) => (params, [], [], some err)
            | (salt, none) =>
              let params := { params with SaltLength := salt.length % 2 ^ 32 }
              match DecodeString (vals.getD 4 []) with
              | (hash, err) =>
                let params := { params with KeyLength := hash.length % 2 ^ 32 }
                (params, salt, hash, err)

/-- The method `ComparePasswordAndHash`. -/
def ComparePasswordAndHash (IDKey : KDF) (_h : Hasher) (password encHash : List Nat) :
    Bool × Option Error :=
  match decodeHash encHash with
  | (_, _, _, some err) => (false, some err)
  | (params, salt, hash, none) =>
    let hashForCompare := IDKey password salt params.Iterations params.Memory
      params.Parallelism params.KeyLength
    (ConstantTimeCompare hash hashForCompare == 1, none)

/-- The method `MustHash`: the string of `Hash`, or a panic carrying the error (`Except.error`). -/
def MustHash (IDKey : KDF) (Read : RandRead) (h : Hasher) (password : List Nat) :
    Except Error (List Nat) :=
  match Hash IDKey Read h password with
  | (_, some err) => Except.error err
  | (encPassword, none) => Except.ok encPassword

/-- The method `MustComparePasswordAndHash`: the boolean of `ComparePasswordAndHash`, or a
panic carrying the error (`Except.error`). -/
def MustComparePasswordAndHash (IDKey : KDF) (h : Hasher) (password encHash : List Nat) :
    Except Error Bool :=
  match ComparePasswordAndHash IDKey h password encHash with
  | (_, some err) => Except.error err
  | (isMatch, none) => Except.ok isMatch

/-! ## Auxiliary definitions for the proofs -/

/-- Every element of the list is a decimal digit character. -/
def isDigits (l : List Nat) : Prop := ∀ c ∈ l, 48 ≤ c ∧ c ≤ 57

/-- The value of a run of decimal digit characters read after the value `n`. -/
def digitsVal (l : List Nat) (n : Nat) : Nat := l.foldl (fun n c => n * 10 + (c - 48)) n

/-- A key-derivation function for the examples: the key depends on the length of the
password. -/
def exampleKDF : KDF := fun password _ _ _ _ keyLen =>
  (List.range keyLen).map fun i => (password.length + i) % 256

/-- A random source for the examples, which never fails. -/
def exampleRead : RandRead := fun _ => (fun i => 37 * i + 5, none)

/-- The error is one of those `fmt.Sscanf` returns (its own, those of `io` and those of
`strconv`). -/
def Error.isScanError : Error → Bool
  | Error.ErrUnexpectedEOF => true
  | Error.EOF => true
  | Error.inputDoesNotMatchFormat => true
  | Error.unexpectedNewline => true
  | Error.expectedInteger => true
  | Error.integerOverflow _ => true
  | Error.unsignedIntegerOverflow _ => true
  | Error.ErrSyntax _ => true
  | Error.ErrRange _ => true
  | _ => false

/-- The error is a `base64.CorruptInputError`. -/
def Error.isCorruptInput : Error → Bool
  | Error.CorruptInputError _ => true
  | _ => false

/-! ## Predicates for the statements: the syntax of the fields `decodeHash` accepts -/

/-- The runes are spaces that the scanner skips in front of a number: space runes other than
the newline. -/
def isSpaces (sp : List Nat) : Prop := ∀ r ∈ sp, isSpace r = true ∧ r ≠ 10

/-- The text does not go on with a decimal digit. -/
def noDigitNext (rest : List Nat) : Prop := ∀ r ∈ rest.head?, ¬ (48 ≤ r ∧ r ≤ 57)

/-- The text `inp` is a number of value `u` followed by `rest`: spaces (none, one or more), a
run of decimal digits (leading zeros allowed) of value `u`, and `rest`, which does not start
with a digit. -/
def numberThen (inp : List Nat) (u : Nat) (rest : List Nat) : Prop :=
  ∃ sp ds, inp = sp ++ ds ++ rest ∧ isSpaces sp ∧ ds ≠ [] ∧ isDigits ds ∧
    digitsVal ds 0 = u ∧ noDigitNext rest

/-- The syntax of a version field, given as its runes: `v=`, spaces, an optional `+`, a run of
decimal digits whose value is the version of the key-derivation function, then any text that
does not start with a digit. -/
def versionForm (rs : List Nat) : Prop :=
  ∃ sp sg ds rest, rs = [118, 61] ++ sp ++ sg ++ ds ++ rest ∧ isSpaces sp ∧
    (sg = [] ∨ sg = [43]) ∧ ds ≠ [] ∧ isDigits ds ∧ (digitsVal ds 0 : Int) = Version ∧
    noDigitNext rest

/-- The syntax of a parameter field with the values `m`, `t` and `p`, given as its runes:
`m=`, a number, `,t=`, a number, `,p=`, a number, in this order, then any text that does not
start with a digit; `m` and `t` fit a `uint32` and `p` a `uint8`. -/
def paramsForm (rs : List Nat) (m t p : Nat) : Prop :=
  ∃ a b c rest, rs = [109, 61] ++ a ∧ numberThen a m ([44, 116, 61] ++ b) ∧
    numberThen b t ([44, 112, 61] ++ c) ∧ numberThen c p rest ∧
    m < 2 ^ 32 ∧ t < 2 ^ 32 ∧ p < 2 ^ 8

/-- A decimal numeral as verb `%d` prints it: a non-empty run of digits without a leading
zero, the numeral `0` apart. -/
def isDecimal (ds : List Nat) : Prop :=
  ds ≠ [] ∧ isDigits ds ∧ (ds.head? = some 48 → ds = [48])


/-! ## Lemmas: `Split` -/

theorem Split_ne_nil (c : Nat) (s : List Nat) : Split c s ≠ [] := by
  induction s with
  | nil => simp [Split]
  | cons a s ih =>
    unfold Split
    split
    · simp
    · split <;> simp

theorem Split_of_not_mem (c : Nat) (f : List Nat) (hf : c ∉ f) : Split c f = [f] := by
  induction f with
  | nil => simp [Split]
  | cons a f ih =>
    have ha : a ≠ c := fun h => hf (by simp [h])
    have hf2 : c ∉ f := fun h => hf (List.mem_cons_of_mem _ h)
    simp [Split, ha, ih hf2]

theorem Split_append_sep (c : Nat) (f rest : List Nat) (hf : c ∉ f) :
    Split c (f ++ c :: rest) = f :: Split c rest := by
  induction f with
  | nil => simp [Split]
  | cons a f ih =>
    have ha : a ≠ c := fun h => hf (by simp [h])
    have hf2 : c ∉ f := fun h => hf (List.mem_cons_of_mem _ h)
    simp [Split, ha, ih hf2]

/-- Five fields without the separator, joined by the separator, split into these fields. -/
theorem Split_five (c : Nat) (f1 f2 f3 f4 f5 : List Nat) (h1 : c ∉ f1) (h2 : c ∉ f2)
    (h3 : c ∉ f3) (h4 : c ∉ f4) (h5 : c ∉ f5) :
    Split c (f1 ++ c :: (f2 ++ c :: (f3 ++ c :: (f4 ++ c :: f5)))) = [f1, f2, f3, f4, f5] := by
  rw [Split_append_sep c f1 _ h1, Split_append_sep c f2 _ h2, Split_append_sep c f3 _ h3,
    Split_append_sep c f4 _ h4, Split_of_not_mem c f5 h5]

/-! ## Lemmas: bit operations as arithmetic -/

theorem shl_or_eq_add (a b k : Nat) (h : b < 2 ^ k) : a <<< k ||| b = a * 2 ^ k + b := by
  rw [Nat.shiftLeft_eq, Nat.mul_comm, ← Nat.mul_add_lt_is_or h]

theorem and_63 (x : Nat) : x &&& 0x3F = x % 64 := by
  have := Nat.and_pow_two_sub_one_eq_mod x 6
  simpa using this

theorem or_eq_zero_iff (a b : Nat) : a ||| b = 0 ↔ a = 0 ∧ b = 0 := by
  constructor
  · intro h
    have key : ∀ i, a.testBit i = false ∧ b.testBit i = false := by
      intro i
      have := congrArg (fun n => Nat.testBit n i) h
      simpa [Nat.testBit_or] using this
    constructor
    · apply Nat.eq_of_testBit_eq; intro i; simp [(key i).1]
    · apply Nat.eq_of_testBit_eq; intro i; simp [(key i).2]
  · rintro ⟨rfl, rfl⟩; simp

/-! ## Lemmas: base64 -/

theorem encodeStd_eq : encodeStd =
    [65, 66, 67, 68, 69, 70, 71, 72, 73, 74, 75, 76, 77, 78, 79, 80, 81, 82, 83, 84, 85, 86,
     87, 88, 89, 90, 97, 98, 99, 100, 101, 102, 103, 104, 105, 106, 107, 108, 109, 110, 111,
     112, 113, 114, 115, 116, 117, 118, 119, 120, 121, 122, 48, 49, 50, 51, 52, 53, 54, 55,
     56, 57, 43, 47] := by decide

theorem decodeMap_b64encode : ∀ i, i < 64 → decodeMap (b64encode i) = i := by decide

theorem b64encode_mem : ∀ i, i < 64 → b64encode i ∈ encodeStd := by decide

theorem or_eq_add_of_dvd (a b k : Nat) (hb : b < 2 ^ k) (ha : 2 ^ k ∣ a) : a ||| b = a + b := by
  obtain ⟨q, rfl⟩ := ha
  exact (Nat.mul_add_lt_is_or hb q).symm

theorem sextets_or (x0 x1 x2 x3 : Nat) (h1 : x1 < 64) (h2 : x2 < 64) (h3 : x3 < 64) :
    x0 <<< 18 ||| x1 <<< 12 ||| x2 <<< 6 ||| x3 = x0 * 262144 + x1 * 4096 + x2 * 64 + x3 := by
  simp only [Nat.shiftLeft_eq]
  rw [or_eq_add_of_dvd (x0 * 2 ^ 18) (x1 * 2 ^ 12) 18 (by omega) (Dvd.intro_left _ rfl)]
  rw [or_eq_add_of_dvd (x0 * 2 ^ 18 + x1 * 2 ^ 12) (x2 * 2 ^ 6) 12 (by omega)
    ⟨x0 * 2 ^ 6 + x1, by ring⟩]
  rw [or_eq_add_of_dvd (x0 * 2 ^ 18 + x1 * 2 ^ 12 + x2 * 2 ^ 6) x3 6 (by omega)
    ⟨x0 * 2 ^ 12 + x1 * 2 ^ 6 + x2, by ring⟩]
  norm_num

theorem bytes_or (s0 s1 s2 : Nat) (h1 : s1 < 256) (h2 : s2 < 256) :
    s0 <<< 16 ||| s1 <<< 8 ||| s2 = s0 * 65536 + s1 * 256 + s2 := by
  simp only [Nat.shiftLeft_eq]
  rw [or_eq_add_of_dvd (s0 * 2 ^ 16) (s1 * 2 ^ 8) 16 (by omega) (Dvd.intro_left _ rfl)]
  rw [or_eq_add_of_dvd (s0 * 2 ^ 16 + s1 * 2 ^ 8) s2 8 (by omega) ⟨s0 * 2 ^ 8 + s1, by ring⟩]
  norm_num

theorem bytes_or2 (s0 s1 : Nat) (h1 : s1 < 256) :
    s0 <<< 16 ||| s1 <<< 8 = s0 * 65536 + s1 * 256 := by
  simp only [Nat.shiftLeft_eq]
  rw [or_eq_add_of_dvd (s0 * 2 ^ 16) (s1 * 2 ^ 8) 16 (by omega) (Dvd.intro_left _ rfl)]
  norm_num

/-- The bytes of a quantum, in arithmetic. -/
theorem quantumBytes_eq (x0 x1 x2 x3 : Nat) (h1 : x1 < 64) (h2 : x2 < 64) (h3 : x3 < 64)
    (dbuf : List Nat) (hd : dbuf.getD 0 0 = x0 ∧ dbuf.getD 1 0 = x1 ∧ dbuf.getD 2 0 = x2 ∧
      dbuf.getD 3 0 = x3) :
    quantumBytes dbuf =
      ([(x0 * 262144 + x1 * 4096 + x2 * 64 + x3) / 65536 % 256,
        (x0 * 262144 + x1 * 4096 + x2 * 64 + x3) / 256 % 256,
        (x0 * 262144 + x1 * 4096 + x2 * 64 + x3) % 256]).take (dbuf.length - 1) := by
  unfold quantumBytes
  rw [hd.1, hd.2.1, hd.2.2.1, hd.2.2.2, sextets_or x0 x1 x2 x3 h1 h2 h3]
  simp [Nat.shiftRight_eq_div_pow]

theorem quantumBytes_three (s0 s1 s2 : Nat) (h0 : s0 < 256) (h1 : s1 < 256) (h2 : s2 < 256) :
    quantumBytes [(s0 <<< 16 ||| s1 <<< 8 ||| s2) >>> 18 &&& 0x3F,
      (s0 <<< 16 ||| s1 <<< 8 ||| s2) >>> 12 &&& 0x3F,
      (s0 <<< 16 ||| s1 <<< 8 ||| s2) >>> 6 &&& 0x3F,
      (s0 <<< 16 ||| s1 <<< 8 ||| s2) &&& 0x3F] = [s0, s1, s2] := by
  rw [bytes_or s0 s1 s2 h1 h2]
  generalize hv : s0 * 65536 + s1 * 256 + s2 = v
  simp only [and_63, Nat.shiftRight_eq_div_pow]
  rw [quantumBytes_eq (v / 2 ^ 18 % 64) (v / 2 ^ 12 % 64) (v / 2 ^ 6 % 64) (v % 64)
    (Nat.mod_lt _ (by norm_num)) (Nat.mod_lt _ (by norm_num))
    (Nat.mod_lt _ (by norm_num))
    [v / 2 ^ 18 % 64, v / 2 ^ 12 % 64, v / 2 ^ 6 % 64, v % 64] ⟨rfl, rfl, rfl, rfl⟩]
  simp only [List.length_cons, List.length_nil, Nat.reduceAdd, Nat.reduceSub,
    List.take_succ_cons, List.take_zero, Nat.reducePow]
  congr 1
  · omega
  congr 1
  · omega
  congr 1
  omega

theorem quantumBytes_two (s0 s1 : Nat) (h0 : s0 < 256) (h1 : s1 < 256) :
    quantumBytes [(s0 <<< 16 ||| s1 <<< 8) >>> 18 &&& 0x3F,
      (s0 <<< 16 ||| s1 <<< 8) >>> 12 &&& 0x3F,
      (s0 <<< 16 ||| s1 <<< 8) >>> 6 &&& 0x3F] = [s0, s1] := by
  rw [bytes_or2 s0 s1 h1]
  generalize hv : s0 * 65536 + s1 * 256 = v
  simp only [and_63, Nat.shiftRight_eq_div_pow]
  rw [quantumBytes_eq (v / 2 ^ 18 % 64) (v / 2 ^ 12 % 64) (v / 2 ^ 6 % 64) 0
    (Nat.mod_lt _ (by norm_num)) (Nat.mod_lt _ (by norm_num))
    (by omega) [v / 2 ^ 18 % 64, v / 2 ^ 12 % 64, v / 2 ^ 6 % 64] ⟨rfl, rfl, rfl, rfl⟩]
  simp only [List.length_cons, List.length_nil, Nat.reduceAdd, Nat.reduceSub,
    List.take_succ_cons, List.take_zero, Nat.reducePow]
  congr 1
  · omega
  congr 1
  omega

theorem quantumBytes_one (s0 : Nat) (h0 : s0 < 256) :
    quantumBytes [(s0 <<< 16) >>> 18 &&& 0x3F, (s0 <<< 16) >>> 12 &&& 0x3F] = [s0] := by
  rw [Nat.shiftLeft_eq]
  generalize hv : s0 * 2 ^ 16 = v
  simp only [and_63, Nat.shiftRight_eq_div_pow]
  rw [quantumBytes_eq (v / 2 ^ 18 % 64) (v / 2 ^ 12 % 64) 0 0
    (Nat.mod_lt _ (by norm_num)) (by omega)
    (by omega) [v / 2 ^ 18 % 64, v / 2 ^ 12 % 64] ⟨rfl, rfl, rfl, rfl⟩]
  simp only [List.length_cons, List.length_nil, Nat.reduceAdd, Nat.reduceSub,
    List.take_succ_cons, List.take_zero, Nat.reducePow]
  congr 1
  omega

theorem and_63_lt (x : Nat) : x &&& 0x3F < 64 := by
  rw [and_63]; exact Nat.mod_lt _ (by norm_num)

theorem decodeLoop_cons_b64encode (x : Nat) (hx : x < 64) (src : List Nat) (si : Nat)
    (dbuf out : List Nat) :
    decodeLoop (b64encode x :: src) si dbuf out =
      if dbuf.length + 1 = 4 then decodeLoop src (si + 1) [] (out ++ quantumBytes (dbuf ++ [x]))
      else decodeLoop src (si + 1) (dbuf ++ [x]) out := by
  have h : decodeMap (b64encode x) ≠ 0xff := by
    rw [decodeMap_b64encode x hx]; omega
  rw [decodeLoop, if_pos h, decodeMap_b64encode x hx]

/-- Decoding what `EncodeToString` wrote gives the bytes back. -/
theorem decodeLoop_EncodeToString (bs : List Nat) : ∀ (si : Nat) (out : List Nat),
    isBytes bs → decodeLoop (EncodeToString bs) si [] out = (out ++ bs, none) := by
  induction bs using EncodeToString.induct with
  | case1 => intro si out _; simp [EncodeToString, decodeLoop]
  | case2 s0 =>
    intro si out hb
    have h0 : s0 < 256 := hb s0 (by simp)
    simp only [EncodeToString]
    rw [decodeLoop_cons_b64encode _ (and_63_lt _), if_neg (by simp),
      decodeLoop_cons_b64encode _ (and_63_lt _), if_neg (by simp)]
    simp only [decodeLoop, List.nil_append, List.cons_append, List.length_cons,
      List.length_nil]
    rw [quantumBytes_one s0 h0]
  | case3 s0 s1 =>
    intro si out hb
    have h0 : s0 < 256 := hb s0 (by simp)
    have h1 : s1 < 256 := hb s1 (by simp)
    simp only [EncodeToString]
    rw [decodeLoop_cons_b64encode _ (and_63_lt _), if_neg (by simp),
      decodeLoop_cons_b64encode _ (and_63_lt _), if_neg (by simp),
      decodeLoop_cons_b64encode _ (and_63_lt _), if_neg (by simp)]
    simp only [decodeLoop, List.nil_append, List.cons_append, List.length_cons,
      List.length_nil]
    rw [quantumBytes_two s0 s1 h0 h1]
  | case4 s0 s1 s2 rest ih =>
    intro si out hb
    have h0 : s0 < 256 := hb s0 (by simp)
    have h1 : s1 < 256 := hb s1 (by simp)
    have h2 : s2 < 256 := hb s2 (by simp)
    have hr : isBytes rest := fun b hb2 => hb b (by simp [hb2])
    simp only [EncodeToString]
    rw [decodeLoop_cons_b64encode _ (and_63_lt _), if_neg (by simp),
      decodeLoop_cons_b64encode _ (and_63_lt _), if_neg (by simp),
      decodeLoop_cons_b64encode _ (and_63_lt _), if_neg (by simp),
      decodeLoop_cons_b64encode _ (and_63_lt _), if_pos (by simp)]
    simp only [List.nil_append, List.cons_append]
    rw [quantumBytes_three s0 s1 s2 h0 h1 h2, ih _ _ hr]
    simp

theorem DecodeString_EncodeToString (bs : List Nat) (hb : isBytes bs) :
    DecodeString (EncodeToString bs) = (bs, none) := by
  simpa [DecodeString] using decodeLoop_EncodeToString bs 0 [] hb

/-- Every character `EncodeToString` writes is in the alphabet. -/
theorem EncodeToString_mem (bs : List Nat) : ∀ c ∈ EncodeToString bs, c ∈ encodeStd := by
  induction bs using EncodeToString.induct with
  | case1 => simp [EncodeToString]
  | case2 s0 =>
    intro c hc
    simp only [EncodeToString, List.mem_cons, List.mem_singleton, List.not_mem_nil,
      or_false] at hc
    rcases hc with rfl | rfl <;> exact b64encode_mem _ (and_63_lt _)
  | case3 s0 s1 =>
    intro c hc
    simp only [EncodeToString, List.mem_cons, List.mem_singleton, List.not_mem_nil,
      or_false] at hc
    rcases hc with rfl | rfl | rfl <;> exact b64encode_mem _ (and_63_lt _)
  | case4 s0 s1 s2 rest ih =>
    intro c hc
    simp only [EncodeToString, List.mem_cons] at hc
    rcases hc with rfl | rfl | rfl | rfl | hc
    · exact b64encode_mem _ (and_63_lt _)
    · exact b64encode_mem _ (and_63_lt _)
    · exact b64encode_mem _ (and_63_lt _)
    · exact b64encode_mem _ (and_63_lt _)
    · exact ih c hc

theorem sep_not_mem_encodeStd : sep ∉ encodeStd := by decide

theorem sep_not_mem_EncodeToString (bs : List Nat) : sep ∉ EncodeToString bs :=
  fun h => sep_not_mem_encodeStd (EncodeToString_mem bs sep h)

/-! ## Lemmas: runes of an ASCII string -/

theorem runesLoop_ascii (s : List Nat) : ∀ fuel, s.length ≤ fuel → (∀ b ∈ s, b < 128) →
    runesLoop fuel s = s := by
  induction s with
  | nil => intro fuel _ _; cases fuel <;> simp [runesLoop]
  | cons a s ih =>
    intro fuel hl ha
    cases fuel with
    | zero => simp at hl
    | succ fuel =>
      have h1 : a < 128 := ha a (by simp)
      have hd : DecodeRune (a :: s) = (a, 1) := by simp [DecodeRune, h1]
      simp only [runesLoop, hd, List.drop_succ_cons, List.drop_zero]
      rw [ih fuel (by simpa using hl) (fun b hb => ha b (by simp [hb]))]

theorem DecodeRune_width_pos (a : Nat) (p : List Nat) : 1 ≤ (DecodeRune (a :: p)).2 := by
  unfold DecodeRune
  by_cases h1 : a < 0x80
  · simp only [h1, if_true]; exact Nat.le_refl _
  · simp only [h1, if_false]
    by_cases h2 : a < 0xC2 ∨ 0xF4 < a
    · simp only [h2, if_true]; exact Nat.le_refl _
    · simp only [h2, if_false]
      generalize (if a < 0xE0 then 2 else if a < 0xF0 then 3 else 4) = sz
      generalize (if a = 0xE0 then 0xA0 else if a = 0xF0 then 0x90 else 0x80) = lo
      generalize (if a = 0xED then 0x9F else if a = 0xF4 then 0x8F else 0xBF) = hi
      split_ifs <;> simp

/-- The bound `runes` gives to `runesLoop` is enough: a larger one gives the same runes. -/
theorem runesLoop_enough : ∀ (n fuel : Nat) (s : List Nat), s.length ≤ n → n ≤ fuel →
    runesLoop fuel s = runesLoop n s := by
  intro n
  induction n with
  | zero =>
    intro fuel s hs _
    have : s = [] := List.length_eq_zero.1 (Nat.le_zero.1 hs)
    subst this
    cases fuel <;> simp [runesLoop]
  | succ n ih =>
    intro fuel s hs hf
    cases fuel with
    | zero => omega
    | succ fuel =>
      cases s with
      | nil => simp [runesLoop]
      | cons a p =>
        have hw := DecodeRune_width_pos a p
        have hl : ((a :: p).drop (DecodeRune (a :: p)).2).length ≤ n := by
          simp only [List.length_drop, List.length_cons] at hs ⊢
          omega
        simp only [runesLoop]
        rw [ih fuel _ hl (by omega)]

theorem runes_ascii (s : List Nat) (h : ∀ b ∈ s, b < 128) : runes s = s :=
  runesLoop_ascii s s.length (Nat.le_refl _) h

/-! ## Lemmas: decimal digits -/

theorem decimalDigits_eq : decimalDigits = [48, 49, 50, 51, 52, 53, 54, 55, 56, 57] := by
  decide

theorem mem_decimalDigits (r : Nat) : r ∈ decimalDigits ↔ 48 ≤ r ∧ r ≤ 57 := by
  rw [decimalDigits_eq]
  simp only [List.mem_cons, List.mem_singleton, List.not_mem_nil, or_false]
  omega

theorem isSpace_digit (r : Nat) (h : 48 ≤ r ∧ r ≤ 57) : isSpace r = false := by
  obtain ⟨h1, h2⟩ := h
  interval_cases r <;> rfl

theorem digitsVal_append (l1 l2 : List Nat) (n : Nat) :
    digitsVal (l1 ++ l2) n = digitsVal l2 (digitsVal l1 n) := by
  simp [digitsVal, List.foldl_append]

theorem le_digitsVal (l : List Nat) : ∀ n, n ≤ digitsVal l n := by
  induction l with
  | nil => intro n; simp [digitsVal]
  | cons c l ih =>
    intro n
    have := ih (n * 10 + (c - 48))
    simp only [digitsVal, List.foldl_cons] at this ⊢
    omega

/-- The digit loop writes, in front of the buffer, a non-empty run of digit characters whose
value is the number printed. -/
theorem fmtIntegerLoop_spec : ∀ (fuel u : Nat) (buf : List Nat), u < fuel →
    ∃ ds, fmtIntegerLoop fuel u buf = ds ++ buf ∧ ds ≠ [] ∧ isDigits ds ∧ digitsVal ds 0 = u := by
  intro fuel
  induction fuel with
  | zero => intro u buf h; omega
  | succ fuel ih =>
    intro u buf hu
    by_cases h10 : u ≥ 10
    · obtain ⟨ds, e, _, hd, hv⟩ := ih (u / 10) ((48 + (u - (u / 10) * 10)) :: buf) (by omega)
      refine ⟨ds ++ [48 + (u - (u / 10) * 10)], ?_, by simp, ?_, ?_⟩
      · simp [fmtIntegerLoop, h10, e]
      · intro c hc
        rcases List.mem_append.1 hc with h | h
        · exact hd c h
        · simp only [List.mem_singleton] at h; omega
      · rw [digitsVal_append, hv]
        simp only [digitsVal, List.foldl_cons, List.foldl_nil]
        omega
    · refine ⟨[48 + u], ?_, by simp, ?_, ?_⟩
      · simp [fmtIntegerLoop, h10]
      · intro c hc
        simp only [List.mem_singleton] at hc; omega
      · simp [digitsVal]

theorem fmtUint_spec (u : Nat) :
    fmtUint u ≠ [] ∧ isDigits (fmtUint u) ∧ digitsVal (fmtUint u) 0 = u := by
  obtain ⟨ds, e, hne, hd, hv⟩ := fmtIntegerLoop_spec (u + 1) u [] (by omega)
  simp only [List.append_nil] at e
  rw [fmtUint, e]
  exact ⟨hne, hd, hv⟩

theorem parseUintLoop_digits (s0 : List Nat) (ds : List Nat) : ∀ n, isDigits ds →
    digitsVal ds n < 2 ^ 64 → parseUintLoop s0 ds n = (digitsVal ds n, none) := by
  induction ds with
  | nil => intro n _ _; simp [parseUintLoop, digitsVal]
  | cons c ds ih =>
    intro n hd hv
    have hc : 48 ≤ c ∧ c ≤ 57 := hd c (by simp)
    have hd2 : isDigits ds := fun x hx => hd x (by simp [hx])
    have hv2 : digitsVal ds (n * 10 + (c - 48)) < 2 ^ 64 := by
      simpa [digitsVal] using hv
    have hle := le_digitsVal ds (n * 10 + (c - 48))
    have hlt : n * 10 + (c - 48) < 2 ^ 64 := by omega
    have e1 : (n * 10 + (c - 48)) % 2 ^ 64 = n * 10 + (c - 48) := Nat.mod_eq_of_lt hlt
    have h1 : ¬ (n ≥ (2 ^ 64 - 1) / 10 + 1) := by norm_num at hlt ⊢; omega
    have h2 : ¬ (n * 10 + (c - 48) < n * 10) := by omega
    rw [parseUintLoop, if_pos hc, if_neg h1]
    simp only [e1, if_neg h2]
    rw [ih _ hd2 hv2]
    simp [digitsVal]

theorem ParseUint_digits (ds : List Nat) (hne : ds ≠ []) (hd : isDigits ds)
    (hv : digitsVal ds 0 < 2 ^ 64) : ParseUint ds = (digitsVal ds 0, none) := by
  rw [ParseUint, if_neg hne, parseUintLoop_digits ds ds 0 hd hv]

theorem ParseUint_fmtUint (u : Nat) (hu : u < 2 ^ 64) : ParseUint (fmtUint u) = (u, none) := by
  obtain ⟨hne, hd, hv⟩ := fmtUint_spec u
  rw [ParseUint_digits _ hne hd (by rw [hv]; exact hu), hv]

/-- The loop of `scanNumber` reads a run of digits up to the first rune that is not one. -/
theorem acceptLoop_digits (ds rest : List Nat) (hr : ∀ r ∈ rest.head?, ¬ (48 ≤ r ∧ r ≤ 57)) :
    ∀ buf, isDigits ds → acceptLoop decimalDigits (ds ++ rest) buf = (rest, buf ++ ds) := by
  induction ds with
  | nil =>
    intro buf _
    cases rest with
    | nil => simp [acceptLoop]
    | cons r rest =>
      have : r ∉ decimalDigits := by
        rw [mem_decimalDigits]; exact hr r (by simp)
      simp [acceptLoop, this]
  | cons c ds ih =>
    intro buf hd
    have hc : c ∈ decimalDigits := (mem_decimalDigits c).2 (hd c (by simp))
    have hd2 : isDigits ds := fun x hx => hd x (by simp [hx])
    have e : acceptLoop decimalDigits (c :: ds ++ rest) buf =
        acceptLoop decimalDigits (ds ++ rest) (buf ++ [c]) := by
      simp only [List.cons_append]
      rw [acceptLoop, if_pos hc]
    rw [e, ih _ hd2]
    simp

/-! ## Lemmas: scanning what `%d` printed -/

theorem SkipSpace_of_not_space (r : Nat) (rest : List Nat) (h10 : r ≠ 10) (h13 : r ≠ 13)
    (hs : isSpace r = false) : SkipSpace (r :: rest) = (r :: rest, none) := by
  simp [SkipSpace, h10, h13, hs]

theorem SkipSpace_digits (ds rest : List Nat) (hne : ds ≠ []) (hd : isDigits ds) :
    SkipSpace (ds ++ rest) = (ds ++ rest, none) := by
  cases ds with
  | nil => exact absurd rfl hne
  | cons c ds =>
    have hc : 48 ≤ c ∧ c ≤ 57 := hd c (by simp)
    exact SkipSpace_of_not_space c _ (by omega) (by omega) (isSpace_digit c hc)

theorem scanNumber_digits (ds rest buf : List Nat) (hne : ds ≠ []) (hd : isDigits ds)
    (hr : ∀ r ∈ rest.head?, ¬ (48 ≤ r ∧ r ≤ 57)) :
    scanNumber (ds ++ rest) buf = (rest, buf ++ ds, none) := by
  cases ds with
  | nil => exact absurd rfl hne
  | cons c ds =>
    have hc : c ∈ decimalDigits := (mem_decimalDigits c).2 (hd c (by simp))
    have hd2 : isDigits ds := fun x hx => hd x (by simp [hx])
    simp only [List.cons_append, scanNumber, if_pos hc]
    rw [acceptLoop_digits ds rest hr _ hd2]
    simp

/-- Scanning an unsigned operand reads back the number `%d` printed, when the number fits the
operand and the text that follows does not start with a digit. -/
theorem scanUint_fmtUint (bitSize u : Nat) (rest : List Nat) (hb : bitSize ≤ 64)
    (hu : u < 2 ^ bitSize) (hr : ∀ r ∈ rest.head?, ¬ (48 ≤ r ∧ r ≤ 57)) :
    scanUint bitSize (fmtUint u ++ rest) = (rest, u, none) := by
  obtain ⟨hne, hd, hv⟩ := fmtUint_spec u
  have h64 : u < 2 ^ 64 := lt_of_lt_of_le hu (Nat.pow_le_pow_right (by norm_num) hb)
  have hsk := SkipSpace_digits (fmtUint u) rest hne hd
  have hsn := scanNumber_digits (fmtUint u) rest [] hne hd hr
  have hp := ParseUint_fmtUint u h64
  obtain ⟨c, ds, hcd⟩ := List.exists_cons_of_ne_nil hne
  rw [hcd] at hsk hsn hp
  rw [hcd]
  simp only [List.cons_append, List.nil_append] at hsk hsn ⊢
  simp only [scanUint, hsk, hsn, hp, if_neg (Nat.not_le.2 hu)]

theorem fmtInt_nonneg (i : Int) (h : 0 ≤ i) : fmtInt i = fmtUint i.natAbs := by
  simp [fmtInt, Int.not_lt.2 h]

theorem fmtInt_neg (i : Int) (h : i < 0) : fmtInt i = 45 :: fmtUint i.natAbs := by
  simp [fmtInt, h]

theorem ParseInt_fmtInt (i : Int) (h1 : -(2 ^ 63) ≤ i) (h2 : i < 2 ^ 63) :
    ParseInt (fmtInt i) = (i, none) := by
  obtain ⟨hne, hd, hv⟩ := fmtUint_spec i.natAbs
  obtain ⟨c, ds, hcd⟩ := List.exists_cons_of_ne_nil hne
  have hc : 48 ≤ c ∧ c ≤ 57 := by
    have := hd c (by rw [hcd]; simp)
    exact this
  by_cases hi : i < 0
  · have hp := ParseUint_fmtUint i.natAbs (by omega)
    rw [fmtInt_neg i hi]
    have hgt : ¬ (i.natAbs > 2 ^ 63) := by omega
    have e : ParseInt (45 :: fmtUint i.natAbs) = (-(i.natAbs : Int), none) := by
      simp [ParseInt, hp]
      omega
    rw [e]
    simp only [Prod.mk.injEq, and_true]
    omega
  · have hp := ParseUint_fmtUint i.natAbs (by omega)
    rw [fmtInt_nonneg i (by omega)]
    rw [hcd] at hp ⊢
    have hge : ¬ (i.natAbs ≥ 2 ^ 63) := by omega
    have h43 : c ≠ 43 := by omega
    have h45 : c ≠ 45 := by omega
    have e : ParseInt (c :: ds) = ((i.natAbs : Int), none) := by
      simp [ParseInt, hp, h43, h45]
      omega
    rw [e]
    simp only [Prod.mk.injEq, and_true]
    omega

/-- Scanning an `int` operand reads back the number `%d` printed, when the text that follows
does not start with a digit. -/
theorem scanInt_fmtInt (i : Int) (rest : List Nat) (h1 : -(2 ^ 63) ≤ i) (h2 : i < 2 ^ 63)
    (hr : ∀ r ∈ rest.head?, ¬ (48 ≤ r ∧ r ≤ 57)) :
    scanInt 64 (fmtInt i ++ rest) = (rest, i, none) := by
  obtain ⟨hne, hd, hv⟩ := fmtUint_spec i.natAbs
  have hp := ParseInt_fmtInt i h1 h2
  have hov : ¬ (i < -(2 ^ (64 - 1)) ∨ 2 ^ (64 - 1) ≤ i) := by
    simp only [Nat.reduceSub]; omega
  by_cases hi : i < 0
  · rw [fmtInt_neg i hi] at hp ⊢
    have hsk : SkipSpace (45 :: (fmtUint i.natAbs ++ rest)) =
        (45 :: (fmtUint i.natAbs ++ rest), none) :=
      SkipSpace_of_not_space 45 _ (by omega) (by omega) rfl
    have hsn := scanNumber_digits (fmtUint i.natAbs) rest [45] hne hd hr
    simp only [List.cons_append, List.nil_append] at hsn ⊢
    simp only [scanInt, hsk, Nat.reduceEqDiff, or_true, if_true, hsn, hp, if_neg hov]
  · rw [fmtInt_nonneg i (by omega)] at hp ⊢
    have hsk := SkipSpace_digits (fmtUint i.natAbs) rest hne hd
    have hsn := scanNumber_digits (fmtUint i.natAbs) rest [] hne hd hr
    obtain ⟨c, ds, hcd⟩ := List.exists_cons_of_ne_nil hne
    have hc : 48 ≤ c ∧ c ≤ 57 := hd c (by rw [hcd]; simp)
    have h43 : ¬ (c = 43 ∨ c = 45) := by omega
    rw [hcd] at hsk hsn hp ⊢
    simp only [List.cons_append, List.nil_append] at hsk hsn ⊢
    simp only [scanInt, hsk, if_neg h43, hsn, hp, if_neg hov]

/-! ## Lemmas: the two formats of `decodeHash` on what `Hash` prints -/

theorem str_v : str "v=" = [118, 61] := by decide

theorem str_m : str "m=" = [109, 61] := by decide

theorem str_t : str ",t=" = [44, 116, 61] := by decide

theorem str_p : str ",p=" = [44, 112, 61] := by decide

theorem str_argon2 : str "argon2" = [97, 114, 103, 111, 110, 50] := by decide

theorem isDigits_lt (l : List Nat) (h : isDigits l) : ∀ b ∈ l, b < 128 := by
  intro b hb
  have := h b hb
  omega

theorem isDigits_sep (l : List Nat) (h : isDigits l) : sep ∉ l := by
  intro hs
  have := h sep hs
  simp [sep] at this

theorem fmtInt_lt (i : Int) : ∀ b ∈ fmtInt i, b < 128 := by
  intro b hb
  have hd := (fmtUint_spec i.natAbs).2.1
  unfold fmtInt at hb
  split at hb
  · rcases List.mem_cons.1 hb with h | h
    · omega
    · exact isDigits_lt _ hd b h
  · exact isDigits_lt _ hd b hb

theorem fmtInt_sep (i : Int) : sep ∉ fmtInt i := by
  intro hb
  have hd := (fmtUint_spec i.natAbs).2.1
  unfold fmtInt at hb
  split at hb
  · rcases List.mem_cons.1 hb with h | h
    · simp [sep] at h
    · exact isDigits_sep _ hd h
  · exact isDigits_sep _ hd hb

theorem SkipSpace_fmtInt (i : Int) (rest : List Nat) :
    SkipSpace (fmtInt i ++ rest) = (fmtInt i ++ rest, none) := by
  obtain ⟨hne, hd, _⟩ := fmtUint_spec i.natAbs
  unfold fmtInt
  split
  · exact SkipSpace_of_not_space 45 _ (by omega) (by omega) rfl
  · exact SkipSpace_digits _ rest hne hd

/-- The format `"v=%d"` reads back the version `Sprintf` printed after `v=`. -/
theorem Sscanf_fmtVersion (i : Int) (h1 : -(2 ^ 63) ≤ i) (h2 : i < 2 ^ 63) :
    Sscanf (str "v=" ++ fmtInt i) fmtVersion = ([i], none) := by
  have hr : runes (str "v=" ++ fmtInt i) = 118 :: 61 :: fmtInt i := by
    rw [runes_ascii]
    · simp [str_v]
    · intro b hb
      rw [str_v] at hb
      simp only [List.cons_append, List.nil_append, List.mem_cons] at hb
      rcases hb with h | h | h
      · omega
      · omega
      · exact fmtInt_lt i b h
  have hsk := SkipSpace_fmtInt i []
  have hsc := scanInt_fmtInt i [] h1 h2 (by simp)
  simp only [List.append_nil] at hsk hsc
  simp [Sscanf, hr, fmtVersion, doScanf, hsk, hsc]

/-- The format `"m=%d,t=%d,p=%d"` reads back the three parameters `Sprintf` printed. -/
theorem Sscanf_fmtParams (m t p : Nat) (hm : m < 2 ^ 32) (ht : t < 2 ^ 32) (hp : p < 2 ^ 8) :
    Sscanf (str "m=" ++ fmtUint m ++ str ",t=" ++ fmtUint t ++ str ",p=" ++ fmtUint p)
      fmtParams = ([(m : Int), (t : Int), (p : Int)], none) := by
  obtain ⟨hmne, hmd, _⟩ := fmtUint_spec m
  obtain ⟨htne, htd, _⟩ := fmtUint_spec t
  obtain ⟨hpne, hpd, _⟩ := fmtUint_spec p
  have hr : runes (str "m=" ++ fmtUint m ++ str ",t=" ++ fmtUint t ++ str ",p=" ++ fmtUint p)
      = 109 :: 61 :: (fmtUint m ++ 44 :: 116 :: 61 :: (fmtUint t ++ 44 :: 112 :: 61 ::
          (fmtUint p ++ []))) := by
    rw [runes_ascii]
    · simp [str_m, str_t, str_p]
    · intro b hb
      rw [str_m, str_t, str_p] at hb
      simp only [List.cons_append, List.nil_append, List.mem_cons, List.mem_append,
        List.append_assoc] at hb
      rcases hb with h | h | h | h | h | h | h | h | h | h | h
      · omega
      · omega
      · exact isDigits_lt _ hmd b h
      · omega
      · omega
      · omega
      · exact isDigits_lt _ htd b h
      · omega
      · omega
      · omega
      · exact isDigits_lt _ hpd b h
  have k1 := SkipSpace_digits (fmtUint m) (44 :: 116 :: 61 :: (fmtUint t ++ 44 :: 112 :: 61 ::
    (fmtUint p ++ []))) hmne hmd
  have s1 := scanUint_fmtUint 32 m (44 :: 116 :: 61 :: (fmtUint t ++ 44 :: 112 :: 61 ::
    (fmtUint p ++ []))) (by norm_num) hm (by simp)
  have k2 := SkipSpace_digits (fmtUint t) (44 :: 112 :: 61 :: (fmtUint p ++ [])) htne htd
  have s2 := scanUint_fmtUint 32 t (44 :: 112 :: 61 :: (fmtUint p ++ [])) (by norm_num) ht
    (by simp)
  have k3 := SkipSpace_digits (fmtUint p) [] hpne hpd
  have s3 := scanUint_fmtUint 8 p [] (by norm_num) hp (by simp)
  rw [Sscanf, hr]
  simp only [fmtParams, doScanf, ne_eq, not_true_eq_false, if_false, k1, s1, k2, s2, k3, s3,
    List.nil_append, List.cons_append]

/-! ## Lemmas: `ConstantTimeCompare` -/

theorem xorLoop_eq_zero (x : List Nat) : ∀ (y : List Nat) (v : Nat), x.length = y.length →
    (xorLoop x y v = 0 ↔ v = 0 ∧ x = y) := by
  induction x with
  | nil =>
    intro y v h
    cases y with
    | nil => simp [xorLoop]
    | cons b y => simp at h
  | cons a x ih =>
    intro y v h
    cases y with
    | nil => simp at h
    | cons b y =>
      have hl : x.length = y.length := by simpa using h
      rw [xorLoop, ih y _ hl, or_eq_zero_iff, Nat.xor_eq_zero]
      constructor
      · rintro ⟨⟨hv, hab⟩, hxy⟩; exact ⟨hv, by rw [hab, hxy]⟩
      · rintro ⟨hv, hxy⟩
        injection hxy with h1 h2
        exact ⟨⟨hv, h1⟩, h2⟩

theorem xorLoop_lt (x : List Nat) : ∀ (y : List Nat) (v : Nat), isBytes x → isBytes y →
    v < 2 ^ 8 → xorLoop x y v < 2 ^ 8 := by
  induction x with
  | nil => intro y v _ _ hv; simpa [xorLoop] using hv
  | cons a x ih =>
    intro y v hx hy hv
    cases y with
    | nil => simpa [xorLoop] using hv
    | cons b y =>
      rw [xorLoop]
      have ha : a < 2 ^ 8 := hx a (by simp)
      have hb : b < 2 ^ 8 := hy b (by simp)
      exact ih y _ (fun c hc => hx c (by simp [hc])) (fun c hc => hy c (by simp [hc]))
        (Nat.or_lt_two_pow hv (Nat.xor_lt_two_pow ha hb))

theorem ConstantTimeByteEq_zero (v : Nat) (hv : v < 2 ^ 8) :
    ConstantTimeByteEq v 0 = if v = 0 then 1 else 0 := by
  simp only [ConstantTimeByteEq, Nat.xor_zero, Nat.shiftRight_eq_div_pow]
  split <;> omega

/-- On two byte slices `ConstantTimeCompare` returns 1 exactly when they are equal, and 0
otherwise. -/
theorem ConstantTimeCompare_eq_one_iff (x y : List Nat) (hx : isBytes x) (hy : isBytes y) :
    ConstantTimeCompare x y = 1 ↔ x = y := by
  unfold ConstantTimeCompare
  by_cases hl : x.length = y.length
  · rw [if_neg (by simpa using hl),
      ConstantTimeByteEq_zero _ (xorLoop_lt x y 0 hx hy (by norm_num))]
    have := xorLoop_eq_zero x y 0 hl
    by_cases h0 : xorLoop x y 0 = 0
    · have hxy := (this.1 h0).2
      subst hxy
      simp [h0]
    · have hne : x ≠ y := fun e => h0 (this.2 ⟨rfl, e⟩)
      simp [h0, hne]
  · have hne : x ≠ y := fun e => hl (by rw [e])
    simp [hl, hne]

theorem ConstantTimeCompare_self (x : List Nat) : ConstantTimeCompare x x = 1 := by
  unfold ConstantTimeCompare
  have h0 : xorLoop x x 0 = 0 := (xorLoop_eq_zero x x 0 rfl).2 ⟨rfl, rfl⟩
  simp [h0, ConstantTimeByteEq]

/-! ## Lemmas: `decodeHash` on a well-formed string -/

/-- The function `decodeHash` on a string of five fields, in terms of the fields: the first
field is not looked at. -/
theorem decodeHash_five (enc f1 f2 f3 f4 f5 : List Nat)
    (h : Split sep enc = [f1, f2, f3, f4, f5]) :
    decodeHash enc =
      match Sscanf f2 fmtVersion with
      | (_, some err) =>
        ({ Memory := 0, Iterations := 0, Parallelism := 0, SaltLength := 0, KeyLength := 0 },
          [], [], some err)
      | (scanned, none) =>
        if scanned.getD 0 0 ≠ Version then
          ({ Memory := 0, Iterations := 0, Parallelism := 0, SaltLength := 0, KeyLength := 0 },
            [], [], some Error.ErrInvalidArgonVersion)
        else
          match (Sscanf f3 fmtParams).2 with
          | some err =>
            ({ Memory := ((Sscanf f3 fmtParams).1.getD 0 0).toNat,
               Iterations := ((Sscanf f3 fmtParams).1.getD 1 0).toNat,
               Parallelism := ((Sscanf f3 fmtParams).1.getD 2 0).toNat,
               SaltLength := 0, KeyLength := 0 },
              [], [], some err)
          | none =>
            match DecodeString f4 with
            | (_, some err) =>
              ({ Memory := ((Sscanf f3 fmtParams).1.getD 0 0).toNat,
                 Iterations := ((Sscanf f3 fmtParams).1.getD 1 0).toNat,
                 Parallelism := ((Sscanf f3 fmtParams).1.getD 2 0).toNat,
                 SaltLength := 0, KeyLength := 0 },
                [], [], some err)
            | (salt, none) =>
              ({ Memory := ((Sscanf f3 fmtParams).1.getD 0 0).toNat,
                 Iterations := ((Sscanf f3 fmtParams).1.getD 1 0).toNat,
                 Parallelism := ((Sscanf f3 fmtParams).1.getD 2 0).toNat,
                 SaltLength := salt.length % 2 ^ 32,
                 KeyLength := (DecodeString f5).1.length % 2 ^ 32 },
                salt, (DecodeString f5).1, (DecodeString f5).2) := by
  unfold decodeHash
  rw [h]
  simp only [List.length_cons, List.length_nil, List.getD_cons_zero, List.getD_cons_succ]
  rw [if_neg (by decide)]

/-- The string `Hash` prints, with any first field, splits into its five fields. -/
theorem Split_encoded (tag : List Nat) (v : Int) (m t p : Nat) (salt key : List Nat)
    (htag : sep ∉ tag) :
    Split sep (tag ++ [sep] ++ str "v=" ++ fmtInt v ++ [sep] ++
      str "m=" ++ fmtUint m ++ str ",t=" ++ fmtUint t ++ str ",p=" ++ fmtUint p ++ [sep] ++
      EncodeToString salt ++ [sep] ++ EncodeToString key) =
    [tag, str "v=" ++ fmtInt v,
      str "m=" ++ fmtUint m ++ str ",t=" ++ fmtUint t ++ str ",p=" ++ fmtUint p,
      EncodeToString salt, EncodeToString key] := by
  have e : tag ++ [sep] ++ str "v=" ++ fmtInt v ++ [sep] ++
      str "m=" ++ fmtUint m ++ str ",t=" ++ fmtUint t ++ str ",p=" ++ fmtUint p ++ [sep] ++
      EncodeToString salt ++ [sep] ++ EncodeToString key =
      tag ++ sep :: ((str "v=" ++ fmtInt v) ++ sep ::
        ((str "m=" ++ fmtUint m ++ str ",t=" ++ fmtUint t ++ str ",p=" ++ fmtUint p) ++ sep ::
          (EncodeToString salt ++ sep :: EncodeToString key))) := by
    simp only [List.append_assoc, List.singleton_append, List.cons_append, List.nil_append]
  rw [e]
  apply Split_five _ _ _ _ _ _ htag
  · intro h
    rcases List.mem_append.1 h with h | h
    · rw [str_v] at h; simp [sep] at h
    · exact fmtInt_sep v h
  · intro h
    simp only [List.mem_append, str_m, str_t, str_p] at h
    rcases h with ((((h | h) | h) | h) | h) | h
    · simp [sep] at h
    · exact isDigits_sep _ (fmtUint_spec m).2.1 h
    · simp [sep] at h
    · exact isDigits_sep _ (fmtUint_spec t).2.1 h
    · simp [sep] at h
    · exact isDigits_sep _ (fmtUint_spec p).2.1 h
  · exact sep_not_mem_EncodeToString salt
  · exact sep_not_mem_EncodeToString key

/-- Decoding a string of the shape `Hash` prints, with any first field and the version of the
key-derivation function: the parameters, the salt and the key printed come back. -/
theorem decodeHash_encoded (tag : List Nat) (m t p : Nat) (salt key : List Nat)
    (htag : sep ∉ tag) (hm : m < 2 ^ 32) (ht : t < 2 ^ 32) (hp : p < 2 ^ 8)
    (hs : isBytes salt) (hk : isBytes key) :
    decodeHash (tag ++ [sep] ++ str "v=" ++ fmtInt Version ++ [sep] ++
      str "m=" ++ fmtUint m ++ str ",t=" ++ fmtUint t ++ str ",p=" ++ fmtUint p ++ [sep] ++
      EncodeToString salt ++ [sep] ++ EncodeToString key) =
    ({ Memory := m, Iterations := t, Parallelism := p, SaltLength := salt.length % 2 ^ 32,
       KeyLength := key.length % 2 ^ 32 }, salt, key, none) := by
  have hv := Sscanf_fmtVersion Version (by decide) (by decide)
  have hpar := Sscanf_fmtParams m t p hm ht hp
  rw [decodeHash_five _ _ _ _ _ _ (Split_encoded tag Version m t p salt key htag)]
  simp only [hv]
  simp only [hpar]
  simp only [DecodeString_EncodeToString salt hs, DecodeString_EncodeToString key hk]
  simp


theorem exampleKDF_returnsKey : exampleKDF.returnsKey := by
  intro password salt time memory threads keyLen
  refine ⟨by simp [exampleKDF], ?_⟩
  intro b hb
  simp only [exampleKDF, List.mem_map] at hb
  obtain ⟨i, _, rfl⟩ := hb
  exact Nat.mod_lt _ (by norm_num)

theorem isBytes_generateSalt (Read : RandRead) (l : Nat) : isBytes (generateSalt Read l).1 := by
  intro b hb
  simp only [generateSalt, List.mem_map] at hb
  obtain ⟨i, _, rfl⟩ := hb
  exact Nat.mod_lt _ (by norm_num)

theorem length_generateSalt (Read : RandRead) (l : Nat) : (generateSalt Read l).1.length = l := by
  simp [generateSalt]

/-- The string `Hash` returns when the random source does not fail. -/
theorem Hash_ok (IDKey : KDF) (Read : RandRead) (h : Hasher) (password : List Nat)
    (hr : (Read h.Params.SaltLength).2 = none) :
    Hash IDKey Read h password =
      (str "argon2" ++ [sep] ++ str "v=" ++ fmtInt Version ++ [sep] ++
        str "m=" ++ fmtUint h.Params.Memory ++ str ",t=" ++ fmtUint h.Params.Iterations ++
        str ",p=" ++ fmtUint h.Params.Parallelism ++ [sep] ++
        EncodeToString (generateSalt Read h.Params.SaltLength).1 ++ [sep] ++
        EncodeToString (IDKey password (generateSalt Read h.Params.SaltLength).1
          h.Params.Iterations h.Params.Memory h.Params.Parallelism h.Params.KeyLength), none) := by
  have e : generateSalt Read h.Params.SaltLength =
      ((generateSalt Read h.Params.SaltLength).1, none) := by
    simp [generateSalt, hr]
  rw [Hash, e]

theorem sep_not_mem_argon2 : sep ∉ str "argon2" := by decide

/-- Decoding the string `Hash` returns. -/
theorem decodeHash_Hash (IDKey : KDF) (Read : RandRead) (h : Hasher) (password : List Nat)
    (hw : h.Params.wellTyped) (hr : (Read h.Params.SaltLength).2 = none)
    (hk : isBytes (IDKey password (generateSalt Read h.Params.SaltLength).1
      h.Params.Iterations h.Params.Memory h.Params.Parallelism h.Params.KeyLength)) :
    decodeHash (Hash IDKey Read h password).1 =
      ({ Memory := h.Params.Memory, Iterations := h.Params.Iterations,
         Parallelism := h.Params.Parallelism,
         SaltLength := (generateSalt Read h.Params.SaltLength).1.length % 2 ^ 32,
         KeyLength := (IDKey password (generateSalt Read h.Params.SaltLength).1
           h.Params.Iterations h.Params.Memory h.Params.Parallelism
           h.Params.KeyLength).length % 2 ^ 32 },
       (generateSalt Read h.Params.SaltLength).1,
       IDKey password (generateSalt Read h.Params.SaltLength).1
         h.Params.Iterations h.Params.Memory h.Params.Parallelism h.Params.KeyLength,
       none) := by
  obtain ⟨hm, ht, hp, _, _⟩ := hw
  rw [Hash_ok IDKey Read h password hr]
  exact decodeHash_encoded _ _ _ _ _ _ sep_not_mem_argon2 hm ht hp
    (isBytes_generateSalt Read _) hk


/-! ## Lemmas: the errors of `Sscanf` and of `DecodeString` -/

theorem SkipSpace_isScanError (inp : List Nat) :
    ∀ e, (SkipSpace inp).2 = some e → e.isScanError = true := by
  induction inp with
  | nil => intro e h; simp [SkipSpace] at h
  | cons r rest ih =>
    intro e h
    unfold SkipSpace at h
    split at h
    · exact ih e h
    · split at h
      · simp only [Option.some.injEq] at h; subst h; rfl
      · split at h
        · simp at h
        · exact ih e h

theorem scanNumber_isScanError (inp buf : List Nat) :
    ∀ e, (scanNumber inp buf).2.2 = some e → e.isScanError = true := by
  intro e h
  unfold scanNumber at h
  split at h
  · simp only [Option.some.injEq] at h; subst h; rfl
  · split at h
    · simp at h
    · simp only [Option.some.injEq] at h; subst h; rfl

theorem parseUintLoop_isScanError (s0 : List Nat) (s : List Nat) :
    ∀ n e, (parseUintLoop s0 s n).2 = some e → e.isScanError = true := by
  induction s with
  | nil => intro n e h; simp [parseUintLoop] at h
  | cons c cs ih =>
    intro n e h
    unfold parseUintLoop at h
    split at h
    · split at h
      · simp only [Option.some.injEq] at h; subst h; rfl
      · simp only at h
        split at h
        · simp only [Option.some.injEq] at h; subst h; rfl
        · exact ih _ e h
    · simp only [Option.some.injEq] at h; subst h; rfl

theorem ParseUint_isScanError (s : List Nat) :
    ∀ e, (ParseUint s).2 = some e → e.isScanError = true := by
  intro e h
  unfold ParseUint at h
  split at h
  · simp only [Option.some.injEq] at h; subst h; rfl
  · exact parseUintLoop_isScanError s s 0 e h

theorem ParseInt_isScanError (s : List Nat) :
    ∀ e, (ParseInt s).2 = some e → e.isScanError = true := by
  intro e h
  unfold ParseInt at h
  split at h
  · simp only [Option.some.injEq] at h; subst h; rfl
  · simp only at h
    split at h
    · simp only [Option.some.injEq] at h; subst h; rfl
    · split at h
      · simp only [Option.some.injEq] at h; subst h; rfl
      · split at h
        · simp only [Option.some.injEq] at h; subst h; rfl
        · simp at h

theorem scanInt_isScanError (bitSize : Nat) (inp : List Nat) :
    ∀ e, (scanInt bitSize inp).2.2 = some e → e.isScanError = true := by
  intro e h
  unfold scanInt at h
  split at h
  · next inp1 e1 hs =>
    simp only [Option.some.injEq] at h; subst h
    exact SkipSpace_isScanError inp e1 (by rw [hs])
  · simp only [Option.some.injEq] at h; subst h; rfl
  · simp only at h
    split at h
    · next inp3 tok e1 hs =>
      simp only [Option.some.injEq] at h; subst h
      exact scanNumber_isScanError _ _ e1 (by rw [hs])
    · split at h
      · next e1 hs =>
        simp only [Option.some.injEq] at h; subst h
        exact ParseInt_isScanError _ e1 (by rw [hs])
      · split at h
        · simp only [Option.some.injEq] at h; subst h; rfl
        · simp at h

theorem scanUint_isScanError (bitSize : Nat) (inp : List Nat) :
    ∀ e, (scanUint bitSize inp).2.2 = some e → e.isScanError = true := by
  intro e h
  unfold scanUint at h
  split at h
  · next inp1 e1 hs =>
    simp only [Option.some.injEq] at h; subst h
    exact SkipSpace_isScanError inp e1 (by rw [hs])
  · simp only [Option.some.injEq] at h; subst h; rfl
  · split at h
    · next inp3 tok e1 hs =>
      simp only [Option.some.injEq] at h; subst h
      exact scanNumber_isScanError _ _ e1 (by rw [hs])
    · split at h
      · next e1 hs =>
        simp only [Option.some.injEq] at h; subst h
        exact ParseUint_isScanError _ e1 (by rw [hs])
      · split at h
        · simp only [Option.some.injEq] at h; subst h; rfl
        · simp at h

theorem doScanf_isScanError (fmt : List FmtItem) :
    ∀ (inp : List Nat) (vals : List Int) (e : Error),
      (doScanf fmt inp vals).2 = some e → e.isScanError = true := by
  induction fmt with
  | nil => intro inp vals e h; simp [doScanf] at h
  | cons item fmt ih =>
    intro inp vals e h
    cases item with
    | lit c =>
      cases inp with
      | nil =>
        simp only [doScanf, Option.some.injEq] at h; subst h; rfl
      | cons r rest =>
        simp only [doScanf] at h
        split at h
        · simp only [Option.some.injEq] at h; subst h; rfl
        · exact ih _ _ e h
    | d arg =>
      simp only [doScanf] at h
      split at h
      · next inp1 e1 hs =>
        simp only [Option.some.injEq] at h; subst h
        exact SkipSpace_isScanError inp e1 (by rw [hs])
      · next inp1 hs =>
        cases arg with
        | int bitSize =>
          simp only at h
          split at h
          · next e1 hs2 =>
            simp only [Option.some.injEq] at h; subst h
            exact scanInt_isScanError bitSize inp1 e1 (by rw [hs2])
          · exact ih _ _ e h
        | uint bitSize =>
          simp only at h
          split at h
          · next e1 hs2 =>
            simp only [Option.some.injEq] at h; subst h
            exact scanUint_isScanError bitSize inp1 e1 (by rw [hs2])
          · exact ih _ _ e h

theorem Sscanf_isScanError (s : List Nat) (fmt : List FmtItem) (e : Error)
    (h : (Sscanf s fmt).2 = some e) : e.isScanError = true :=
  doScanf_isScanError fmt (runes s) [] e h

theorem decodeLoop_isCorruptInput (src : List Nat) :
    ∀ (si : Nat) (dbuf out : List Nat) (e : Error),
      (decodeLoop src si dbuf out).2 = some e → e.isCorruptInput = true := by
  induction src with
  | nil =>
    intro si dbuf out e h
    unfold decodeLoop at h
    split at h
    · simp at h
    · simp only [Option.some.injEq] at h; subst h; rfl
    · simp at h
  | cons c src ih =>
    intro si dbuf out e h
    unfold decodeLoop at h
    split at h
    · split at h
      · exact ih _ _ _ e h
      · exact ih _ _ _ e h
    · split at h
      · exact ih _ _ _ e h
      · simp only [Option.some.injEq] at h; subst h; rfl

theorem DecodeString_isCorruptInput (s : List Nat) (e : Error)
    (h : (DecodeString s).2 = some e) : e.isCorruptInput = true :=
  decodeLoop_isCorruptInput s 0 [] [] e h

theorem length_eq_five {α : Type} (l : List α) (h : l.length = 5) :
    ∃ f1 f2 f3 f4 f5, l = [f1, f2, f3, f4, f5] := by
  match l, h with
  | [f1, f2, f3, f4, f5], _ => exact ⟨f1, f2, f3, f4, f5, rfl⟩

/-- The error of `decodeHash` on a string of five fields is `ErrInvalidArgonVersion`, an error
of `Sscanf` or an error of the base64 decoder. -/
theorem decodeHash_five_error (enc f1 f2 f3 f4 f5 : List Nat)
    (h : Split sep enc = [f1, f2, f3, f4, f5]) (e : Error)
    (he : (decodeHash enc).2.2.2 = some e) :
    e = Error.ErrInvalidArgonVersion ∨ e.isScanError = true ∨ e.isCorruptInput = true := by
  rw [decodeHash_five enc f1 f2 f3 f4 f5 h] at he
  split at he
  · next e1 hs =>
    simp only [Option.some.injEq] at he; subst he
    exact Or.inr (Or.inl (Sscanf_isScanError f2 fmtVersion e1 (by rw [hs])))
  · split at he
    · simp only [Option.some.injEq] at he; subst he
      exact Or.inl rfl
    · split at he
      · next e1 hs =>
        simp only [Option.some.injEq] at he; subst he
        exact Or.inr (Or.inl (Sscanf_isScanError f3 fmtParams e1 hs))
      · split at he
        · next e1 hs =>
          simp only [Option.some.injEq] at he; subst he
          exact Or.inr (Or.inr (DecodeString_isCorruptInput f4 e1 (by rw [hs])))
        · exact Or.inr (Or.inr (DecodeString_isCorruptInput f5 e he))

/-- The error of `ComparePasswordAndHash` is the error of `decodeHash`. -/
theorem ComparePasswordAndHash_error (IDKey : KDF) (h : Hasher) (password encHash : List Nat) :
    (ComparePasswordAndHash IDKey h password encHash).2 = (decodeHash encHash).2.2.2 := by
  unfold ComparePasswordAndHash
  split
  · next hd => rw [hd]
  · next hd => rw [hd]

/-! ## Lemmas: the lengths `decodeHash` returns -/

theorem Split_length_le (c : Nat) (s : List Nat) : ∀ f ∈ Split c s, f.length ≤ s.length := by
  induction s with
  | nil => intro f hf; simp [Split] at hf; simp [hf]
  | cons a s ih =>
    intro f hf
    unfold Split at hf
    split at hf
    · rcases List.mem_cons.1 hf with h | h
      · simp [h]
      · have := ih f h
        simp only [List.length_cons]; omega
    · split at hf
      · next hs => exact absurd hs (Split_ne_nil c s)
      · next g gs hs =>
        rcases List.mem_cons.1 hf with h | h
        · have := ih g (by rw [hs]; simp)
          simp only [h, List.length_cons]; omega
        · have := ih f (by rw [hs]; simp [h])
          simp only [List.length_cons]; omega

theorem length_quantumBytes_le (dbuf : List Nat) : (quantumBytes dbuf).length ≤ dbuf.length - 1 := by
  simp [quantumBytes]

theorem decodeLoop_length_le (src : List Nat) : ∀ (si : Nat) (dbuf out : List Nat),
    (decodeLoop src si dbuf out).1.length ≤ out.length + dbuf.length + src.length := by
  induction src with
  | nil =>
    intro si dbuf out
    unfold decodeLoop
    split
    · simp
    · simp
    · have := length_quantumBytes_le dbuf
      simp only [List.length_append, List.length_nil]; omega
  | cons c src ih =>
    intro si dbuf out
    unfold decodeLoop
    split
    · split
      · next h4 =>
        have h1 := ih (si + 1) [] (out ++ quantumBytes (dbuf ++ [decodeMap c]))
        have h2 := length_quantumBytes_le (dbuf ++ [decodeMap c])
        simp only [List.length_append, List.length_cons, List.length_nil] at h1 h2 ⊢
        omega
      · have h1 := ih (si + 1) (dbuf ++ [decodeMap c]) out
        simp only [List.length_append, List.length_cons, List.length_nil] at h1 ⊢
        omega
    · split
      · have h1 := ih (si + 1) dbuf out
        simp only [List.length_cons]; omega
      · simp only [List.length_cons]; omega

theorem DecodeString_length_le (s : List Nat) : (DecodeString s).1.length ≤ s.length := by
  have := decodeLoop_length_le s 0 [] []
  simpa [DecodeString] using this

/-- The key `decodeHash` returns is not longer than the string. -/
theorem decodeHash_key_length_le (enc : List Nat) :
    (decodeHash enc).2.2.1.length ≤ enc.length := by
  by_cases h5 : (Split sep enc).length = 5
  · obtain ⟨f1, f2, f3, f4, f5, hs⟩ := length_eq_five _ h5
    have hf5 : f5.length ≤ enc.length := Split_length_le sep enc f5 (by rw [hs]; simp)
    have hd := DecodeString_length_le f5
    rw [decodeHash_five enc f1 f2 f3 f4 f5 hs]
    split
    · simp
    · split
      · simp
      · split
        · simp
        · split
          · simp
          · simp only; omega
  · have hd : decodeHash enc =
        ({ Memory := 0, Iterations := 0, Parallelism := 0, SaltLength := 0, KeyLength := 0 },
          [], [], some Error.ErrInvalidHash) := by
      unfold decodeHash
      simp only [h5, ne_eq, not_false_eq_true, if_true]
    rw [hd]; simp

/-- When `decodeHash` succeeds, the `KeyLength` it returns is `uint32(len(hash))`. -/
theorem decodeHash_KeyLength (enc : List Nat) (hok : (decodeHash enc).2.2.2 = none) :
    (decodeHash enc).1.KeyLength = (decodeHash enc).2.2.1.length % 2 ^ 32 := by
  by_cases h5 : (Split sep enc).length = 5
  · obtain ⟨f1, f2, f3, f4, f5, hs⟩ := length_eq_five _ h5
    rw [decodeHash_five enc f1 f2 f3 f4 f5 hs] at hok ⊢
    split at hok
    · simp at hok
    · split at hok
      · simp at hok
      · split at hok
        · simp at hok
        · split at hok
          · simp at hok
          · next hne _ _ _ _ _ =>
            rw [if_neg hne]
  · have hd : decodeHash enc =
        ({ Memory := 0, Iterations := 0, Parallelism := 0, SaltLength := 0, KeyLength := 0 },
          [], [], some Error.ErrInvalidHash) := by
      unfold decodeHash
      simp only [h5, ne_eq, not_false_eq_true, if_true]
    rw [hd] at hok; simp at hok

/-- The salt `decodeHash` returns is not longer than the string. -/
theorem decodeHash_salt_length_le (enc : List Nat) :
    (decodeHash enc).2.1.length ≤ enc.length := by
  by_cases h5 : (Split sep enc).length = 5
  · obtain ⟨f1, f2, f3, f4, f5, hs⟩ := length_eq_five _ h5
    have hf4 : f4.length ≤ enc.length := Split_length_le sep enc f4 (by rw [hs]; simp)
    have hd := DecodeString_length_le f4
    rw [decodeHash_five enc f1 f2 f3 f4 f5 hs]
    split
    · simp
    · split
      · simp
      · split
        · simp
        · split
          · simp
          · next salt hsalt =>
            rw [hsalt] at hd
            simp only at hd ⊢; omega
  · have hd : decodeHash enc =
        ({ Memory := 0, Iterations := 0, Parallelism := 0, SaltLength := 0, KeyLength := 0 },
          [], [], some Error.ErrInvalidHash) := by
      unfold decodeHash
      simp only [h5, ne_eq, not_false_eq_true, if_true]
    rw [hd]; simp

/-- When `decodeHash` succeeds, the `SaltLength` it returns is `uint32(len(salt))`. -/
theorem decodeHash_SaltLength (enc : List Nat) (hok : (decodeHash enc).2.2.2 = none) :
    (decodeHash enc).1.SaltLength = (decodeHash enc).2.1.length % 2 ^ 32 := by
  by_cases h5 : (Split sep enc).length = 5
  · obtain ⟨f1, f2, f3, f4, f5, hs⟩ := length_eq_five _ h5
    rw [decodeHash_five enc f1 f2 f3 f4 f5 hs] at hok ⊢
    split at hok
    · simp at hok
    · split at hok
      · simp at hok
      · split at hok
        · simp at hok
        · split at hok
          · simp at hok
          · next hne _ _ _ _ _ =>
            rw [if_neg hne]
  · have hd : decodeHash enc =
        ({ Memory := 0, Iterations := 0, Parallelism := 0, SaltLength := 0, KeyLength := 0 },
          [], [], some Error.ErrInvalidHash) := by
      unfold decodeHash
      simp only [h5, ne_eq, not_false_eq_true, if_true]
    rw [hd] at hok; simp at hok

/-! ## Lemmas: the decoded key is a slice of bytes -/

theorem isBytes_append (a b : List Nat) (ha : isBytes a) (hb : isBytes b) : isBytes (a ++ b) := by
  intro c hc
  rcases List.mem_append.1 hc with h | h
  · exact ha c h
  · exact hb c h

theorem isBytes_quantumBytes (dbuf : List Nat) : isBytes (quantumBytes dbuf) := by
  intro c hc
  unfold quantumBytes at hc
  have hc2 := List.mem_of_mem_take hc
  simp only [List.mem_cons, List.mem_singleton, List.not_mem_nil, or_false] at hc2
  rcases hc2 with h | h | h <;> (rw [h]; exact Nat.mod_lt _ (by norm_num))

theorem isBytes_decodeLoop (src : List Nat) : ∀ (si : Nat) (dbuf out : List Nat),
    isBytes out → isBytes (decodeLoop src si dbuf out).1 := by
  induction src with
  | nil =>
    intro si dbuf out ho
    unfold decodeLoop
    split
    · exact ho
    · exact ho
    · exact isBytes_append _ _ ho (isBytes_quantumBytes dbuf)
  | cons c src ih =>
    intro si dbuf out ho
    unfold decodeLoop
    split
    · split
      · exact ih _ _ _ (isBytes_append _ _ ho (isBytes_quantumBytes _))
      · exact ih _ _ _ ho
    · split
      · exact ih _ _ _ ho
      · exact ho

theorem isBytes_DecodeString (s : List Nat) : isBytes (DecodeString s).1 :=
  isBytes_decodeLoop s 0 [] [] (fun _ h => absurd h (List.not_mem_nil _))

theorem isBytes_nil : isBytes [] := fun _ h => absurd h (List.not_mem_nil _)

/-- The key `decodeHash` returns is a slice of bytes. -/
theorem isBytes_decodeHash_key (enc : List Nat) : isBytes (decodeHash enc).2.2.1 := by
  by_cases h5 : (Split sep enc).length = 5
  · obtain ⟨f1, f2, f3, f4, f5, hs⟩ := length_eq_five _ h5
    rw [decodeHash_five enc f1 f2 f3 f4 f5 hs]
    split
    · exact isBytes_nil
    · split
      · exact isBytes_nil
      · split
        · exact isBytes_nil
        · split
          · exact isBytes_nil
          · exact isBytes_DecodeString f5
  · have hd : decodeHash enc =
        ({ Memory := 0, Iterations := 0, Parallelism := 0, SaltLength := 0, KeyLength := 0 },
          [], [], some Error.ErrInvalidHash) := by
      unfold decodeHash
      simp only [h5, ne_eq, not_false_eq_true, if_true]
    rw [hd]; exact isBytes_nil

/-- The salt `decodeHash` returns is a slice of bytes. -/
theorem isBytes_decodeHash_salt (enc : List Nat) : isBytes (decodeHash enc).2.1 := by
  by_cases h5 : (Split sep enc).length = 5
  · obtain ⟨f1, f2, f3, f4, f5, hs⟩ := length_eq_five _ h5
    have hb := isBytes_DecodeString f4
    rw [decodeHash_five enc f1 f2 f3 f4 f5 hs]
    split
    · exact isBytes_nil
    · split
      · exact isBytes_nil
      · split
        · exact isBytes_nil
        · split
          · exact isBytes_nil
          · next salt hsalt =>
            rw [hsalt] at hb
            exact hb
  · have hd : decodeHash enc =
        ({ Memory := 0, Iterations := 0, Parallelism := 0, SaltLength := 0, KeyLength := 0 },
          [], [], some Error.ErrInvalidHash) := by
      unfold decodeHash
      simp only [h5, ne_eq, not_false_eq_true, if_true]
    rw [hd]; exact isBytes_nil

/-- The result of `ComparePasswordAndHash` in terms of the result of `decodeHash`. -/
theorem ComparePasswordAndHash_eq (IDKey : KDF) (h : Hasher) (password encHash : List Nat) :
    ComparePasswordAndHash IDKey h password encHash =
      match (decodeHash encHash).2.2.2 with
      | some err => (false, some err)
      | none =>
        (ConstantTimeCompare (decodeHash encHash).2.2.1
          (IDKey password (decodeHash encHash).2.1 (decodeHash encHash).1.Iterations
            (decodeHash encHash).1.Memory (decodeHash encHash).1.Parallelism
            (decodeHash encHash).1.KeyLength) == 1, none) := by
  unfold ComparePasswordAndHash
  split
  · next hd => rw [hd]
  · next hd => rw [hd]

/-! ## Lemmas: a parameter that does not fit its operand, and fields of any content -/

/-- Scanning an unsigned operand fails with "unsigned integer overflow" on a number that
`%d` printed and that does not fit the operand. -/
theorem scanUint_fmtUint_overflow (bitSize u : Nat) (rest : List Nat) (h64 : u < 2 ^ 64)
    (hov : 2 ^ bitSize ≤ u) (hr : ∀ r ∈ rest.head?, ¬ (48 ≤ r ∧ r ≤ 57)) :
    scanUint bitSize (fmtUint u ++ rest) =
      (rest, 0, some (Error.unsignedIntegerOverflow (fmtUint u))) := by
  obtain ⟨hne, hd, hv⟩ := fmtUint_spec u
  have hsk := SkipSpace_digits (fmtUint u) rest hne hd
  have hsn := scanNumber_digits (fmtUint u) rest [] hne hd hr
  have hp := ParseUint_fmtUint u h64
  obtain ⟨c, ds, hcd⟩ := List.exists_cons_of_ne_nil hne
  rw [hcd] at hsk hsn hp
  rw [hcd]
  simp only [List.cons_append, List.nil_append] at hsk hsn ⊢
  simp only [scanUint, hsk, hsn, hp, if_pos hov]

/-- The format `"m=%d,t=%d,p=%d"` stores the first two parameters and fails on a third that
does not fit a `uint8`. -/
theorem Sscanf_fmtParams_overflow (m t p : Nat) (hm : m < 2 ^ 32) (ht : t < 2 ^ 32)
    (hp : 2 ^ 8 ≤ p) (hp64 : p < 2 ^ 64) :
    Sscanf (str "m=" ++ fmtUint m ++ str ",t=" ++ fmtUint t ++ str ",p=" ++ fmtUint p)
      fmtParams = ([(m : Int), (t : Int)], some (Error.unsignedIntegerOverflow (fmtUint p))) := by
  obtain ⟨hmne, hmd, _⟩ := fmtUint_spec m
  obtain ⟨htne, htd, _⟩ := fmtUint_spec t
  obtain ⟨hpne, hpd, _⟩ := fmtUint_spec p
  have hr : runes (str "m=" ++ fmtUint m ++ str ",t=" ++ fmtUint t ++ str ",p=" ++ fmtUint p)
      = 109 :: 61 :: (fmtUint m ++ 44 :: 116 :: 61 :: (fmtUint t ++ 44 :: 112 :: 61 ::
          (fmtUint p ++ []))) := by
    rw [runes_ascii]
    · simp [str_m, str_t, str_p]
    · intro b hb
      rw [str_m, str_t, str_p] at hb
      simp only [List.cons_append, List.nil_append, List.mem_cons, List.mem_append,
        List.append_assoc] at hb
      rcases hb with h | h | h | h | h | h | h | h | h | h | h
      · omega
      · omega
      · exact isDigits_lt _ hmd b h
      · omega
      · omega
      · omega
      · exact isDigits_lt _ htd b h
      · omega
      · omega
      · omega
      · exact isDigits_lt _ hpd b h
  have k1 := SkipSpace_digits (fmtUint m) (44 :: 116 :: 61 :: (fmtUint t ++ 44 :: 112 :: 61 ::
    (fmtUint p ++ []))) hmne hmd
  have s1 := scanUint_fmtUint 32 m (44 :: 116 :: 61 :: (fmtUint t ++ 44 :: 112 :: 61 ::
    (fmtUint p ++ []))) (by norm_num) hm (by simp)
  have k2 := SkipSpace_digits (fmtUint t) (44 :: 112 :: 61 :: (fmtUint p ++ [])) htne htd
  have s2 := scanUint_fmtUint 32 t (44 :: 112 :: 61 :: (fmtUint p ++ [])) (by norm_num) ht
    (by simp)
  have k3 := SkipSpace_digits (fmtUint p) [] hpne hpd
  have s3 := scanUint_fmtUint_overflow 8 p [] hp64 hp (by simp)
  rw [Sscanf, hr]
  simp only [fmtParams, doScanf, ne_eq, not_true_eq_false, if_false, k1, s1, k2, s2, k3, s3,
    List.nil_append, List.cons_append]

/-- A string with the fields of the shape `Hash` prints for the version and the parameters,
and any first, fourth and fifth field, splits into its five fields. -/
theorem Split_fields (tag : List Nat) (v : Int) (m t p : Nat) (f4 f5 : List Nat)
    (htag : sep ∉ tag) (h4 : sep ∉ f4) (h5 : sep ∉ f5) :
    Split sep (tag ++ [sep] ++ str "v=" ++ fmtInt v ++ [sep] ++
      str "m=" ++ fmtUint m ++ str ",t=" ++ fmtUint t ++ str ",p=" ++ fmtUint p ++ [sep] ++
      f4 ++ [sep] ++ f5) =
    [tag, str "v=" ++ fmtInt v,
      str "m=" ++ fmtUint m ++ str ",t=" ++ fmtUint t ++ str ",p=" ++ fmtUint p, f4, f5] := by
  have e : tag ++ [sep] ++ str "v=" ++ fmtInt v ++ [sep] ++
      str "m=" ++ fmtUint m ++ str ",t=" ++ fmtUint t ++ str ",p=" ++ fmtUint p ++ [sep] ++
      f4 ++ [sep] ++ f5 =
      tag ++ sep :: ((str "v=" ++ fmtInt v) ++ sep ::
        ((str "m=" ++ fmtUint m ++ str ",t=" ++ fmtUint t ++ str ",p=" ++ fmtUint p) ++ sep ::
          (f4 ++ sep :: f5))) := by
    simp only [List.append_assoc, List.singleton_append, List.cons_append, List.nil_append]
  rw [e]
  apply Split_five _ _ _ _ _ _ htag ?_ ?_ h4 h5
  · intro h
    rcases List.mem_append.1 h with h | h
    · rw [str_v] at h; simp [sep] at h
    · exact fmtInt_sep v h
  · intro h
    simp only [List.mem_append, str_m, str_t, str_p] at h
    rcases h with ((((h | h) | h) | h) | h) | h
    · simp [sep] at h
    · exact isDigits_sep _ (fmtUint_spec m).2.1 h
    · simp [sep] at h
    · exact isDigits_sep _ (fmtUint_spec t).2.1 h
    · simp [sep] at h
    · exact isDigits_sep _ (fmtUint_spec p).2.1 h

/-- The function `decodeHash` on a string with the version of the key-derivation function,
parameters that fit their types and any salt and key fields: the result is that of the base64
decoder on the two fields. -/
theorem decodeHash_fields (tag : List Nat) (m t p : Nat) (f4 f5 : List Nat)
    (htag : sep ∉ tag) (hm : m < 2 ^ 32) (ht : t < 2 ^ 32) (hp : p < 2 ^ 8)
    (h4 : sep ∉ f4) (h5 : sep ∉ f5) :
    decodeHash (tag ++ [sep] ++ str "v=" ++ fmtInt Version ++ [sep] ++
      str "m=" ++ fmtUint m ++ str ",t=" ++ fmtUint t ++ str ",p=" ++ fmtUint p ++ [sep] ++
      f4 ++ [sep] ++ f5) =
    match DecodeString f4 with
    | (_, some err) =>
      ({ Memory := m, Iterations := t, Parallelism := p, SaltLength := 0, KeyLength := 0 },
        [], [], some err)
    | (salt, none) =>
      ({ Memory := m, Iterations := t, Parallelism := p, SaltLength := salt.length % 2 ^ 32,
         KeyLength := (DecodeString f5).1.length % 2 ^ 32 },
        salt, (DecodeString f5).1, (DecodeString f5).2) := by
  have hv := Sscanf_fmtVersion Version (by decide) (by decide)
  have hpar := Sscanf_fmtParams m t p hm ht hp
  rw [decodeHash_five _ _ _ _ _ _ (Split_fields tag Version m t p f4 f5 htag h4 h5)]
  simp only [hv]
  simp only [hpar]
  simp

/-- The function `decodeHash` on a string whose third parameter does not fit a `uint8`. -/
theorem decodeHash_fields_overflow (tag : List Nat) (m t p : Nat) (f4 f5 : List Nat)
    (htag : sep ∉ tag) (hm : m < 2 ^ 32) (ht : t < 2 ^ 32) (hp : 2 ^ 8 ≤ p) (hp64 : p < 2 ^ 64)
    (h4 : sep ∉ f4) (h5 : sep ∉ f5) :
    decodeHash (tag ++ [sep] ++ str "v=" ++ fmtInt Version ++ [sep] ++
      str "m=" ++ fmtUint m ++ str ",t=" ++ fmtUint t ++ str ",p=" ++ fmtUint p ++ [sep] ++
      f4 ++ [sep] ++ f5) =
    ({ Memory := m, Iterations := t, Parallelism := 0, SaltLength := 0, KeyLength := 0 },
      [], [], some (Error.unsignedIntegerOverflow (fmtUint p))) := by
  have hv := Sscanf_fmtVersion Version (by decide) (by decide)
  have hpar := Sscanf_fmtParams_overflow m t p hm ht hp hp64
  rw [decodeHash_five _ _ _ _ _ _ (Split_fields tag Version m t p f4 f5 htag h4 h5)]
  simp only [hv]
  simp only [hpar]
  simp

/-- A string the base64 decoder accepts holds only characters of the alphabet, `\n` and
`\r`. -/
theorem decodeLoop_ok_mem (src : List Nat) : ∀ (si : Nat) (dbuf out : List Nat),
    (decodeLoop src si dbuf out).2 = none →
      ∀ c ∈ src, decodeMap c ≠ 0xff ∨ c = 10 ∨ c = 13 := by
  induction src with
  | nil => intro si dbuf out _ c hc; exact absurd hc (List.not_mem_nil _)
  | cons a src ih =>
    intro si dbuf out hok c hc
    unfold decodeLoop at hok
    split at hok
    · next ha =>
      rcases List.mem_cons.1 hc with h | h
      · rw [h]; exact Or.inl ha
      · split at hok
        · exact ih _ _ _ hok c h
        · exact ih _ _ _ hok c h
    · split at hok
      · next ha =>
        rcases List.mem_cons.1 hc with h | h
        · rw [h]; exact Or.inr ha
        · exact ih _ _ _ hok c h
      · simp at hok

theorem sep_not_mem_of_DecodeString (s : List Nat) (hok : (DecodeString s).2 = none) :
    sep ∉ s := by
  intro hs
  have := decodeLoop_ok_mem s 0 [] [] hok sep hs
  revert this
  decide

/-! ## Lemmas: what an accepted string holds -/

theorem Split_no_sep (c : Nat) (s : List Nat) : ∀ f ∈ Split c s, c ∉ f := by
  induction s with
  | nil => intro f hf; simp [Split] at hf; simp [hf]
  | cons a s ih =>
    intro f hf
    unfold Split at hf
    split at hf
    · rcases List.mem_cons.1 hf with h | h
      · simp [h]
      · exact ih f h
    · next hac =>
      split at hf
      · next hs => exact absurd hs (Split_ne_nil c s)
      · next g gs hs =>
        rcases List.mem_cons.1 hf with h | h
        · have hg := ih g (by rw [hs]; simp)
          rw [h]
          intro hm
          rcases List.mem_cons.1 hm with h2 | h2
          · exact hac h2.symm
          · exact hg h2
        · exact ih f (by rw [hs]; simp [h])

theorem scanUint_lt (bitSize : Nat) (inp rest : List Nat) (u : Nat)
    (h : scanUint bitSize inp = (rest, u, none)) : u < 2 ^ bitSize := by
  unfold scanUint at h
  split at h
  · simp at h
  · simp at h
  · split at h
    · simp at h
    · split at h
      · simp at h
      · split at h
        · simp at h
        · next hlt =>
          simp only [Prod.mk.injEq, and_true] at h
          rw [← h.2]
          exact Nat.not_le.1 hlt

/-- A literal of the format that is accepted is the next rune of the input. -/
theorem doScanf_lit_ok (c : Nat) (fmt : List FmtItem) (inp : List Nat) (vals : List Int)
    (h : (doScanf (FmtItem.lit c :: fmt) inp vals).2 = none) :
    ∃ rest, inp = c :: rest ∧
      doScanf (FmtItem.lit c :: fmt) inp vals = doScanf fmt rest vals := by
  cases inp with
  | nil => simp [doScanf] at h
  | cons r rest =>
    by_cases hc : c = r
    · subst hc
      exact ⟨rest, rfl, by simp [doScanf]⟩
    · simp [doScanf, hc] at h

/-- An unsigned operand that is accepted stores a value that fits it. -/
theorem doScanf_uint_ok (bitSize : Nat) (fmt : List FmtItem) (inp : List Nat) (vals : List Int)
    (h : (doScanf (FmtItem.d (Operand.uint bitSize) :: fmt) inp vals).2 = none) :
    ∃ (rest : List Nat) (u : Nat), u < 2 ^ bitSize ∧
      doScanf (FmtItem.d (Operand.uint bitSize) :: fmt) inp vals =
        doScanf fmt rest (vals ++ [(u : Int)]) := by
  simp only [doScanf] at h ⊢
  split at h
  · simp at h
  · next inp1 hs =>
    split at h
    · simp at h
    · next inp2 u hu =>
      exact ⟨inp2, u, scanUint_lt bitSize inp1 inp2 u hu, rfl⟩

/-- What the format `"m=%d,t=%d,p=%d"` stores when it is accepted: three values that fit a
`uint32`, a `uint32` and a `uint8`. -/
theorem doScanf_fmtParams_ok (inp : List Nat) (h : (doScanf fmtParams inp []).2 = none) :
    ∃ m t p : Nat, m < 2 ^ 32 ∧ t < 2 ^ 32 ∧ p < 2 ^ 8 ∧
      (doScanf fmtParams inp []).1 = [(m : Int), (t : Int), (p : Int)] ∧
      ∃ rest, inp = 109 :: 61 :: rest := by
  unfold fmtParams at h ⊢
  obtain ⟨r1, hi1, e1⟩ := doScanf_lit_ok _ _ _ _ h
  rw [e1] at h ⊢
  obtain ⟨r2, hi2, e2⟩ := doScanf_lit_ok _ _ _ _ h
  rw [e2] at h ⊢
  obtain ⟨r3, m, hm, e3⟩ := doScanf_uint_ok _ _ _ _ h
  rw [e3] at h ⊢
  obtain ⟨r4, _, e4⟩ := doScanf_lit_ok _ _ _ _ h
  rw [e4] at h ⊢
  obtain ⟨r5, _, e5⟩ := doScanf_lit_ok _ _ _ _ h
  rw [e5] at h ⊢
  obtain ⟨r6, _, e6⟩ := doScanf_lit_ok _ _ _ _ h
  rw [e6] at h ⊢
  obtain ⟨r7, t, ht, e7⟩ := doScanf_uint_ok _ _ _ _ h
  rw [e7] at h ⊢
  obtain ⟨r8, _, e8⟩ := doScanf_lit_ok _ _ _ _ h
  rw [e8] at h ⊢
  obtain ⟨r9, _, e9⟩ := doScanf_lit_ok _ _ _ _ h
  rw [e9] at h ⊢
  obtain ⟨r10, _, e10⟩ := doScanf_lit_ok _ _ _ _ h
  rw [e10] at h ⊢
  obtain ⟨r11, p, hp, e11⟩ := doScanf_uint_ok _ _ _ _ h
  rw [e11]
  refine ⟨m, t, p, hm, ht, hp, by simp [doScanf], r2, ?_⟩
  rw [hi1, hi2]

/-- What the format `"v=%d"` reads when it is accepted: the input starts with `v=`. -/
theorem doScanf_fmtVersion_ok (inp : List Nat) (h : (doScanf fmtVersion inp []).2 = none) :
    ∃ rest, inp = 118 :: 61 :: rest := by
  unfold fmtVersion at h
  obtain ⟨r1, hi1, e1⟩ := doScanf_lit_ok _ _ _ _ h
  rw [e1] at h
  obtain ⟨r2, hi2, _⟩ := doScanf_lit_ok _ _ _ _ h
  exact ⟨r2, by rw [hi1, hi2]⟩

/-- What `decodeHash` found in the five fields of a string it accepts. -/
theorem decodeHash_ok_fields (enc f1 f2 f3 f4 f5 : List Nat)
    (hs : Split sep enc = [f1, f2, f3, f4, f5]) (hok : (decodeHash enc).2.2.2 = none) :
    (Sscanf f2 fmtVersion).2 = none ∧ (Sscanf f2 fmtVersion).1.getD 0 0 = Version ∧
      (Sscanf f3 fmtParams).2 = none ∧ (DecodeString f4).2 = none ∧
      (DecodeString f5).2 = none ∧
      decodeHash enc =
        ({ Memory := ((Sscanf f3 fmtParams).1.getD 0 0).toNat,
           Iterations := ((Sscanf f3 fmtParams).1.getD 1 0).toNat,
           Parallelism := ((Sscanf f3 fmtParams).1.getD 2 0).toNat,
           SaltLength := (DecodeString f4).1.length % 2 ^ 32,
           KeyLength := (DecodeString f5).1.length % 2 ^ 32 },
          (DecodeString f4).1, (DecodeString f5).1, none) := by
  rw [decodeHash_five enc f1 f2 f3 f4 f5 hs] at hok ⊢
  split at hok
  · simp at hok
  · next scanned hv =>
    split at hok
    · simp at hok
    · next hne =>
      split at hok
      · simp at hok
      · next hpar =>
        split at hok
        · simp at hok
        · next salt hsalt =>
          simp only at hok
          rw [hv, hsalt]
          simp only [hpar, hok, if_neg hne, true_and]
          exact ⟨not_not.1 hne, trivial⟩

/-! ## Lemmas: the first bytes of a string from its first runes -/

theorem and_31 (x : Nat) : x &&& 0x1F = x % 32 := by
  have := Nat.and_pow_two_sub_one_eq_mod x 5
  simpa using this

theorem and_15 (x : Nat) : x &&& 0x0F = x % 16 := by
  have := Nat.and_pow_two_sub_one_eq_mod x 4
  simpa using this

theorem and_7 (x : Nat) : x &&& 0x07 = x % 8 := by
  have := Nat.and_pow_two_sub_one_eq_mod x 3
  simpa using this

theorem rune2_eq (p0 b1 : Nat) :
    (p0 &&& 0x1F) <<< 6 ||| (b1 &&& 0x3F) = p0 % 32 * 64 + b1 % 64 := by
  rw [and_31, and_63, Nat.shiftLeft_eq,
    or_eq_add_of_dvd (p0 % 32 * 2 ^ 6) (b1 % 64) 6 (by omega) (Dvd.intro_left _ rfl)]
  norm_num

theorem rune3_eq (p0 b1 b2 : Nat) :
    (p0 &&& 0x0F) <<< 12 ||| (b1 &&& 0x3F) <<< 6 ||| (b2 &&& 0x3F) =
      p0 % 16 * 4096 + b1 % 64 * 64 + b2 % 64 := by
  rw [and_15, and_63, and_63]
  simp only [Nat.shiftLeft_eq]
  rw [or_eq_add_of_dvd (p0 % 16 * 2 ^ 12) (b1 % 64 * 2 ^ 6) 12 (by omega)
    (Dvd.intro_left _ rfl)]
  rw [or_eq_add_of_dvd (p0 % 16 * 2 ^ 12 + b1 % 64 * 2 ^ 6) (b2 % 64) 6 (by omega)
    ⟨p0 % 16 * 2 ^ 6 + b1 % 64, by ring⟩]
  norm_num

theorem rune4_eq (p0 b1 b2 b3 : Nat) :
    (p0 &&& 0x07) <<< 18 ||| (b1 &&& 0x3F) <<< 12 ||| (b2 &&& 0x3F) <<< 6 ||| (b3 &&& 0x3F) =
      p0 % 8 * 262144 + b1 % 64 * 4096 + b2 % 64 * 64 + b3 % 64 := by
  rw [and_7, and_63, and_63, and_63]
  exact sextets_or _ _ _ _ (Nat.mod_lt _ (by norm_num)) (Nat.mod_lt _ (by norm_num))
    (Nat.mod_lt _ (by norm_num))

/-- A rune below 128 is read from one byte, which is the rune. -/
theorem DecodeRune_lt_128 (p0 : Nat) (tl : List Nat) (h : (DecodeRune (p0 :: tl)).1 < 128) :
    p0 < 128 := by
  by_contra h1
  have h1' : ¬ p0 < 0x80 := h1
  unfold DecodeRune at h
  simp only [h1', if_false] at h
  by_cases h2 : p0 < 0xC2 ∨ 0xF4 < p0
  · simp only [h2, if_true, RuneError] at h
    omega
  · simp only [h2, if_false] at h
    rw [rune2_eq, rune3_eq, rune4_eq] at h
    generalize tl.getD 0 0 = b1 at h
    generalize tl.getD 1 0 = b2 at h
    generalize tl.getD 2 0 = b3 at h
    generalize (p0 :: tl).length = n at h
    by_cases hA : p0 < 0xE0
    · have e0 : p0 ≠ 0xE0 := by omega
      have e1 : p0 ≠ 0xF0 := by omega
      have e2 : p0 ≠ 0xED := by omega
      have e3 : p0 ≠ 0xF4 := by omega
      simp only [hA, if_true, e0, e1, e2, e3, if_false, RuneError, Nat.le_refl] at h
      split_ifs at h <;> dsimp only at h <;> omega
    · by_cases hB : p0 < 0xF0
      · have e1 : p0 ≠ 0xF0 := by omega
        have e3 : p0 ≠ 0xF4 := by omega
        have l1 : ¬ (3 ≤ 2) := by omega
        simp only [hA, hB, if_true, e1, e3, if_false, RuneError, l1, Nat.le_refl] at h
        split_ifs at h <;> dsimp only at h <;> omega
      · have e0 : p0 ≠ 0xE0 := by omega
        have e2 : p0 ≠ 0xED := by omega
        have l1 : ¬ (4 ≤ 2) := by omega
        have l2 : ¬ (4 ≤ 3) := by omega
        simp only [hA, hB, e0, e2, if_false, RuneError, l1, l2] at h
        split_ifs at h <;> dsimp only at h <;> omega

theorem runes_cons_lt_128 (s : List Nat) (r : Nat) (rs : List Nat) (h : runes s = r :: rs)
    (hr : r < 128) : ∃ s2, s = r :: s2 ∧ runes s2 = rs := by
  cases s with
  | nil => simp [runes, runesLoop] at h
  | cons p0 tl =>
    simp only [runes, List.length_cons, runesLoop, List.cons.injEq] at h
    have hp : p0 < 128 := DecodeRune_lt_128 p0 tl (by rw [h.1]; exact hr)
    have hd : DecodeRune (p0 :: tl) = (p0, 1) := by simp [DecodeRune, hp]
    rw [hd] at h
    simp only [List.drop_succ_cons, List.drop_zero] at h
    exact ⟨tl, by rw [h.1], h.2⟩

/-- A string `decodeHash` accepts carries parameters that fit their types, its second field
starts with `v=` and its third field with `m=`. -/
theorem decodeHash_ok_wellTyped (enc f1 f2 f3 f4 f5 : List Nat)
    (hs : Split sep enc = [f1, f2, f3, f4, f5]) (hok : (decodeHash enc).2.2.2 = none) :
    (decodeHash enc).1.Memory < 2 ^ 32 ∧ (decodeHash enc).1.Iterations < 2 ^ 32 ∧
      (decodeHash enc).1.Parallelism < 2 ^ 8 ∧
      (∃ r2, f2 = 118 :: 61 :: r2) ∧ (∃ r3, f3 = 109 :: 61 :: r3) := by
  obtain ⟨hv, _, hpar, _, _, hd⟩ := decodeHash_ok_fields enc f1 f2 f3 f4 f5 hs hok
  obtain ⟨m, t, p, hm, ht, hp, hvals, rest3, hr3⟩ := doScanf_fmtParams_ok (runes f3) hpar
  obtain ⟨rest2, hr2⟩ := doScanf_fmtVersion_ok (runes f2) hv
  have hvals2 : (Sscanf f3 fmtParams).1 = [(m : Int), (t : Int), (p : Int)] := hvals
  rw [hd, hvals2]
  refine ⟨by simpa using hm, by simpa using ht, by simpa using hp, ?_, ?_⟩
  · obtain ⟨s2, e1, h2⟩ := runes_cons_lt_128 f2 118 _ hr2 (by norm_num)
    obtain ⟨s3, e2, _⟩ := runes_cons_lt_128 s2 61 _ h2 (by norm_num)
    exact ⟨s3, by rw [e1, e2]⟩
  · obtain ⟨s2, e1, h2⟩ := runes_cons_lt_128 f3 109 _ hr3 (by norm_num)
    obtain ⟨s3, e2, _⟩ := runes_cons_lt_128 s2 61 _ h2 (by norm_num)
    exact ⟨s3, by rw [e1, e2]⟩

/-- The error of `decodeHash` on a string of five fields: the first error met among the
scan of the version, the check of the version, the scan of the parameters, the base64 decoding
of the salt and that of the key. -/
theorem decodeHash_five_err (enc f1 f2 f3 f4 f5 : List Nat)
    (h : Split sep enc = [f1, f2, f3, f4, f5]) :
    (decodeHash enc).2.2.2 =
      match (Sscanf f2 fmtVersion).2 with
      | some e => some e
      | none =>
        if (Sscanf f2 fmtVersion).1.getD 0 0 ≠ Version then some Error.ErrInvalidArgonVersion
        else
          match (Sscanf f3 fmtParams).2 with
          | some e => some e
          | none =>
            match (DecodeString f4).2 with
            | some e => some e
            | none => (DecodeString f5).2 := by
  rw [decodeHash_five enc f1 f2 f3 f4 f5 h]
  cases hv : Sscanf f2 fmtVersion with
  | mk scanned err =>
    cases err with
    | some e => rfl
    | none =>
      simp only
      by_cases hver : scanned.getD 0 0 ≠ Version
      · simp only [if_pos hver]
      · simp only [if_neg hver]
        cases hp : (Sscanf f3 fmtParams).2 with
        | some e => rfl
        | none =>
          simp only
          cases hs : DecodeString f4 with
          | mk salt err4 =>
            cases err4 with
            | some e => rfl
            | none => rfl

/-! ## Lemmas: the syntax the scanner accepts -/

theorem isSpaces_nil : isSpaces [] := fun _ h => absurd h (List.not_mem_nil _)

theorem isSpaces_append (a b : List Nat) (ha : isSpaces a) (hb : isSpaces b) :
    isSpaces (a ++ b) := by
  intro r hr
  rcases List.mem_append.1 hr with h | h
  · exact ha r h
  · exact hb r h

theorem isSpace_13 : isSpace 13 = true := by decide

theorem isSpace_10 : isSpace 10 = true := by decide

/-- The method `SkipSpace` removes a run of spaces in front of a rune that is not a space. -/
theorem SkipSpace_spaces (sp : List Nat) (x : List Nat) (hsp : isSpaces sp)
    (hx : ∀ r ∈ x.head?, isSpace r = false) : SkipSpace (sp ++ x) = (x, none) := by
  induction sp with
  | nil =>
    cases x with
    | nil => rfl
    | cons r rest =>
      have hr : isSpace r = false := hx r (by simp)
      have h13 : r ≠ 13 := by
        intro e; rw [e, isSpace_13] at hr; exact absurd hr (by decide)
      have h10 : r ≠ 10 := by
        intro e; rw [e, isSpace_10] at hr; exact absurd hr (by decide)
      exact SkipSpace_of_not_space r rest h10 h13 hr
  | cons r sp ih =>
    have hr := hsp r (by simp)
    have ih2 := ih (fun q hq => hsp q (by simp [hq]))
    show SkipSpace (r :: (sp ++ x)) = (x, none)
    rw [SkipSpace]
    simp only [hr.1, hr.2, if_false, not_true_eq_false, ih2, ite_self]

/-- What the method `SkipSpace` removed when it returns no error: a run of spaces, in front of
a rune that is not a space or of the end of the input. -/
theorem SkipSpace_ok (inp : List Nat) : ∀ rest, SkipSpace inp = (rest, none) →
    ∃ sp, inp = sp ++ rest ∧ isSpaces sp ∧ ∀ r ∈ rest.head?, isSpace r = false := by
  induction inp with
  | nil =>
    intro rest h
    simp only [SkipSpace, Prod.mk.injEq, and_true] at h
    exact ⟨[], by simp [← h], isSpaces_nil, by simp [← h]⟩
  | cons r tl ih =>
    intro rest h
    unfold SkipSpace at h
    split at h
    · next hc =>
      obtain ⟨sp, e, hsp, hh⟩ := ih rest h
      refine ⟨r :: sp, by rw [e]; rfl, ?_, hh⟩
      intro q hq
      rcases List.mem_cons.1 hq with hq | hq
      · rw [hq, hc.1]; exact ⟨isSpace_13, by decide⟩
      · exact hsp q hq
    · split at h
      · simp at h
      · next h10 =>
        split at h
        · next hns =>
          simp only [Prod.mk.injEq, and_true] at h
          refine ⟨[], by simp [h], isSpaces_nil, ?_⟩
          rw [← h]
          intro q hq
          simp only [List.head?_cons, Option.mem_def, Option.some.injEq] at hq
          rw [← hq]
          simpa using hns
        · next hs =>
          obtain ⟨sp, e, hsp, hh⟩ := ih rest h
          refine ⟨r :: sp, by rw [e]; rfl, ?_, hh⟩
          intro q hq
          rcases List.mem_cons.1 hq with hq | hq
          · rw [hq]; exact ⟨by simpa using hs, h10⟩
          · exact hsp q hq

theorem acceptLoop_ok (inp : List Nat) : ∀ buf rest tok,
    acceptLoop decimalDigits inp buf = (rest, tok) →
      ∃ ds, inp = ds ++ rest ∧ isDigits ds ∧ tok = buf ++ ds ∧ noDigitNext rest := by
  induction inp with
  | nil =>
    intro buf rest tok h
    simp only [acceptLoop, Prod.mk.injEq] at h
    refine ⟨[], by simp [← h.1], fun _ hc => absurd hc (List.not_mem_nil _), by simp [← h.2], ?_⟩
    rw [← h.1]; intro r hr; simp at hr
  | cons r tl ih =>
    intro buf rest tok h
    unfold acceptLoop at h
    split at h
    · next hd =>
      obtain ⟨ds, e, hds, ht, hn⟩ := ih _ _ _ h
      refine ⟨r :: ds, by rw [e]; rfl, ?_, by rw [ht]; simp, hn⟩
      intro c hc
      rcases List.mem_cons.1 hc with hc | hc
      · rw [hc]; exact (mem_decimalDigits r).1 hd
      · exact hds c hc
    · next hd =>
      simp only [Prod.mk.injEq] at h
      refine ⟨[], by simp [h.1], fun _ hc => absurd hc (List.not_mem_nil _), by simp [h.2], ?_⟩
      rw [← h.1]
      intro q hq
      simp only [List.head?_cons, Option.mem_def, Option.some.injEq] at hq
      rw [← hq]
      exact fun hh => hd ((mem_decimalDigits r).2 hh)

/-- What the method `scanNumber` read when it returns no error: a non-empty run of digits up
to a rune that is not one. -/
theorem scanNumber_ok (inp buf rest tok : List Nat)
    (h : scanNumber inp buf = (rest, tok, none)) :
    ∃ ds, inp = ds ++ rest ∧ ds ≠ [] ∧ isDigits ds ∧ tok = buf ++ ds ∧ noDigitNext rest := by
  unfold scanNumber at h
  split at h
  · simp at h
  · next r tl =>
    split at h
    · next hd =>
      cases ha : acceptLoop decimalDigits tl (buf ++ [r]) with
      | mk inp1 tok1 =>
        rw [ha] at h
        simp only [Prod.mk.injEq, and_true] at h
        obtain ⟨ds, e, hds, ht, hn⟩ := acceptLoop_ok tl _ _ _ ha
        refine ⟨r :: ds, by rw [e, ← h.1]; rfl, by simp, ?_, by rw [← h.2, ht]; simp,
          by rw [← h.1]; exact hn⟩
        intro c hc
        rcases List.mem_cons.1 hc with hc | hc
        · rw [hc]; exact (mem_decimalDigits r).1 hd
        · exact hds c hc
    · simp at h

/-- The value `ParseUint` returns without error on a run of digits is the value of the run. -/
theorem parseUintLoop_ok (s0 : List Nat) (ds : List Nat) : ∀ n v, isDigits ds →
    parseUintLoop s0 ds n = (v, none) → v = digitsVal ds n := by
  induction ds with
  | nil =>
    intro n v _ h
    simp only [parseUintLoop, Prod.mk.injEq, and_true] at h
    simp [digitsVal, h]
  | cons c ds ih =>
    intro n v hd h
    have hc : 48 ≤ c ∧ c ≤ 57 := hd c (by simp)
    have hd2 : isDigits ds := fun x hx => hd x (by simp [hx])
    rw [parseUintLoop, if_pos hc] at h
    split at h
    · simp at h
    · next hcut =>
      simp only at h
      split at h
      · simp at h
      · next hlt =>
        have e1 : (n * 10 + (c - 48)) % 2 ^ 64 = n * 10 + (c - 48) := by
          norm_num at hcut hlt ⊢
          omega
        rw [e1] at h
        have := ih _ _ hd2 h
        rw [this]
        simp [digitsVal]

theorem ParseUint_ok (ds : List Nat) (v : Nat) (hd : isDigits ds)
    (h : ParseUint ds = (v, none)) : v = digitsVal ds 0 := by
  unfold ParseUint at h
  split at h
  · simp at h
  · exact parseUintLoop_ok ds ds 0 v hd h

/-- Scanning an unsigned operand on a run of digits whose value fits the operand. -/
theorem scanUint_digits (bitSize : Nat) (ds rest : List Nat) (hb : bitSize ≤ 64)
    (hne : ds ≠ []) (hd : isDigits ds) (hu : digitsVal ds 0 < 2 ^ bitSize)
    (hr : noDigitNext rest) :
    scanUint bitSize (ds ++ rest) = (rest, digitsVal ds 0, none) := by
  have h64 : digitsVal ds 0 < 2 ^ 64 :=
    lt_of_lt_of_le hu (Nat.pow_le_pow_right (by norm_num) hb)
  have hsk := SkipSpace_digits ds rest hne hd
  have hsn := scanNumber_digits ds rest [] hne hd hr
  have hp := ParseUint_digits ds hne hd h64
  obtain ⟨c, tl, hcd⟩ := List.exists_cons_of_ne_nil hne
  rw [hcd] at hsk hsn hp
  rw [hcd] at hu
  rw [hcd]
  simp only [List.cons_append, List.nil_append] at hsk hsn ⊢
  simp only [scanUint, hsk, hsn, hp, if_neg (Nat.not_le.2 hu)]

/-- What the method `scanUint` read when it returns no error. -/
theorem scanUint_ok (bitSize : Nat) (inp rest : List Nat) (u : Nat)
    (h : scanUint bitSize inp = (rest, u, none)) :
    numberThen inp u rest ∧ u < 2 ^ bitSize := by
  have hlt := scanUint_lt bitSize inp rest u h
  refine ⟨?_, hlt⟩
  unfold scanUint at h
  split at h
  · simp at h
  · simp at h
  · next r tl hsk =>
    obtain ⟨sp, e, hsp, _⟩ := SkipSpace_ok inp _ hsk
    split at h
    · simp at h
    · next inp3 tok hsn =>
      obtain ⟨ds, e2, hne, hds, ht, hn⟩ := scanNumber_ok _ _ _ _ hsn
      simp only [List.nil_append] at ht
      split at h
      · simp at h
      · next i hp =>
        split at h
        · simp at h
        · simp only [Prod.mk.injEq, and_true] at h
          rw [ht] at hp
          have hv := ParseUint_ok ds i hds hp
          refine ⟨sp, ds, ?_, hsp, hne, hds, ?_, ?_⟩
          · rw [e, e2, ← h.1, List.append_assoc]
          · rw [← h.2, hv]
          · rw [← h.1]; exact hn

/-- On a run of digits `ParseUint` returns no error or the largest `uint64`. -/
theorem parseUintLoop_cases (s0 ds : List Nat) : ∀ n, isDigits ds →
    (parseUintLoop s0 ds n).2 = none ∨ (parseUintLoop s0 ds n).1 = 2 ^ 64 - 1 := by
  induction ds with
  | nil => intro n _; left; rfl
  | cons c ds ih =>
    intro n hd
    have hc : 48 ≤ c ∧ c ≤ 57 := hd c (by simp)
    have hd2 : isDigits ds := fun x hx => hd x (by simp [hx])
    rw [parseUintLoop, if_pos hc]
    split
    · right; rfl
    · simp only
      split
      · right; rfl
      · exact ih _ hd2

theorem ParseUint_cases (ds : List Nat) (hne : ds ≠ []) (hd : isDigits ds) :
    ParseUint ds = (digitsVal ds 0, none) ∨ (ParseUint ds).1 = 2 ^ 64 - 1 := by
  rcases parseUintLoop_cases ds ds 0 hd with h | h
  · left
    have e : ParseUint ds = ((ParseUint ds).1, none) := by
      rw [ParseUint, if_neg hne, ← h]
    rw [e]
    rw [← ParseUint_ok ds _ hd e]
  · right
    rw [ParseUint, if_neg hne]
    exact h

theorem ParseInt_unfold (sg : List Nat) (c : Nat) (tl : List Nat) (hsg : sg = [] ∨ sg = [43])
    (hc : 48 ≤ c ∧ c ≤ 57) :
    ParseInt (sg ++ c :: tl) =
      match ParseUint (c :: tl) with
      | (_, some (Error.ErrSyntax _)) => (0, some (Error.ErrSyntax (sg ++ c :: tl)))
      | (un, _) =>
        if un ≥ 2 ^ 63 then (2 ^ 63 - 1, some (Error.ErrRange (sg ++ c :: tl)))
        else ((un : Int), none) := by
  have h43 : ¬ (c = 43) := by omega
  have h45 : ¬ (c = 45) := by omega
  rcases hsg with hs | hs
  · subst hs
    rw [ParseInt, if_neg (by simp)]
    simp only [List.nil_append, List.head?_cons, Option.some.injEq, h43, h45, or_self, if_false,
      not_false_eq_true, true_and, false_and]
  · subst hs
    rw [ParseInt, if_neg (by simp)]
    simp only [List.singleton_append, List.head?_cons, Option.some.injEq, true_or, if_true,
      List.tail_cons, Nat.reduceEqDiff, not_false_eq_true, true_and, false_and, if_false]

/-- The call `ParseInt` on a run of digits, with a `+` in front or no sign, that it accepts:
the value is that of the digits. -/
theorem ParseInt_ok (sg ds : List Nat) (i : Int) (hsg : sg = [] ∨ sg = [43]) (hne : ds ≠ [])
    (hd : isDigits ds) (h : ParseInt (sg ++ ds) = (i, none)) :
    i = (digitsVal ds 0 : Int) ∧ digitsVal ds 0 < 2 ^ 63 := by
  obtain ⟨c, tl, hcd⟩ := List.exists_cons_of_ne_nil hne
  subst hcd
  have hc : 48 ≤ c ∧ c ≤ 57 := hd c (by simp)
  rw [ParseInt_unfold sg c tl hsg hc] at h
  rcases ParseUint_cases (c :: tl) hne hd with hok | hbig
  · rw [hok] at h
    simp only at h
    split at h
    · simp at h
    · next hlt =>
      simp only [Prod.mk.injEq, and_true] at h
      exact ⟨h.symm, by omega⟩
  · cases hpu : ParseUint (c :: tl) with
    | mk un e =>
      rw [hpu] at hbig h
      simp only at hbig
      subst hbig
      split at h
      · simp at h
      · next un2 e2 _ heq =>
        simp only [Prod.mk.injEq] at heq
        obtain ⟨e1, _⟩ := heq
        subst e1
        rw [if_pos (by norm_num)] at h
        simp at h

/-- The call `ParseInt` accepts a run of digits of a value under 2^63, with a `+` in front or
no sign. -/
theorem ParseInt_digits (sg ds : List Nat) (hsg : sg = [] ∨ sg = [43]) (hne : ds ≠ [])
    (hd : isDigits ds) (hv : digitsVal ds 0 < 2 ^ 63) :
    ParseInt (sg ++ ds) = ((digitsVal ds 0 : Int), none) := by
  have hpu := ParseUint_digits ds hne hd (lt_trans hv (by norm_num))
  obtain ⟨c, tl, hcd⟩ := List.exists_cons_of_ne_nil hne
  subst hcd
  have hc : 48 ≤ c ∧ c ≤ 57 := hd c (by simp)
  have hge : ¬ (digitsVal (c :: tl) 0 ≥ 2 ^ 63) := by omega
  rw [ParseInt_unfold sg c tl hsg hc, hpu]
  simp only [hge, if_false]

/-- The call `ParseInt` on a token that starts with `-` gives no positive value. -/
theorem ParseInt_neg (ds : List Nat) (i : Int) (h : ParseInt (45 :: ds) = (i, none)) :
    i ≤ 0 := by
  rw [ParseInt, if_neg (by simp)] at h
  simp only [List.head?_cons, Option.some.injEq, Nat.reduceEqDiff, or_true, if_true,
    List.tail_cons, not_true_eq_false, false_and, if_false, true_and] at h
  split at h
  · simp at h
  · split at h
    · simp at h
    · simp only [Prod.mk.injEq, and_true] at h
      omega

/-- Scanning an `int` operand on a run of digits, with a `+` in front or no sign. -/
theorem scanInt_digits (sg ds rest : List Nat) (hsg : sg = [] ∨ sg = [43]) (hne : ds ≠ [])
    (hd : isDigits ds) (hv : digitsVal ds 0 < 2 ^ 63) (hr : noDigitNext rest) :
    scanInt 64 (sg ++ ds ++ rest) = (rest, (digitsVal ds 0 : Int), none) := by
  have hp := ParseInt_digits sg ds hsg hne hd hv
  have hov : ¬ ((digitsVal ds 0 : Int) < -(2 ^ (64 - 1)) ∨
      2 ^ (64 - 1) ≤ (digitsVal ds 0 : Int)) := by
    simp only [Nat.reduceSub]; omega
  rcases hsg with hs | hs
  · subst hs
    have hsk := SkipSpace_digits ds rest hne hd
    have hsn := scanNumber_digits ds rest [] hne hd hr
    obtain ⟨c, tl, hcd⟩ := List.exists_cons_of_ne_nil hne
    have hc : 48 ≤ c ∧ c ≤ 57 := hd c (by rw [hcd]; simp)
    have h43 : ¬ (c = 43 ∨ c = 45) := by omega
    rw [hcd] at hsk hsn hp hov ⊢
    simp only [List.cons_append, List.nil_append] at hsk hsn hp ⊢
    simp only [scanInt, hsk, if_neg h43, hsn, hp, if_neg hov]
  · subst hs
    have hsk : SkipSpace (43 :: (ds ++ rest)) = (43 :: (ds ++ rest), none) :=
      SkipSpace_of_not_space 43 _ (by omega) (by omega) (by decide)
    have hsn := scanNumber_digits ds rest [43] hne hd hr
    simp only [List.cons_append, List.nil_append, List.singleton_append] at hsn hp ⊢
    simp only [scanInt, hsk, true_or, if_true, hsn, hp, if_neg hov]

/-- What the method `scanInt` read when it returns a positive value. -/
theorem scanInt_ok (inp rest : List Nat) (i : Int) (h : scanInt 64 inp = (rest, i, none))
    (hi : 0 < i) :
    ∃ sp sg ds, inp = sp ++ sg ++ ds ++ rest ∧ isSpaces sp ∧ (sg = [] ∨ sg = [43]) ∧ ds ≠ [] ∧
      isDigits ds ∧ (digitsVal ds 0 : Int) = i ∧ noDigitNext rest := by
  unfold scanInt at h
  split at h
  · simp at h
  · simp at h
  · next r tl hsk =>
    obtain ⟨sp, e, hsp, _⟩ := SkipSpace_ok inp _ hsk
    by_cases h43 : r = 43
    · subst h43
      simp only [true_or, if_true] at h
      split at h
      · simp at h
      · next inp3 tok hsn =>
        obtain ⟨ds, e2, hne, hds, ht, hn⟩ := scanNumber_ok _ _ _ _ hsn
        split at h
        · simp at h
        · next i2 hp =>
          split at h
          · simp at h
          · simp only [Prod.mk.injEq, and_true] at h
            rw [ht] at hp
            have hv := ParseInt_ok [43] ds i2 (Or.inr rfl) hne hds hp
            refine ⟨sp, [43], ds, ?_, hsp, Or.inr rfl, hne, hds, ?_, ?_⟩
            · rw [e, e2, ← h.1]; simp
            · rw [← h.2, hv.1]
            · rw [← h.1]; exact hn
    · by_cases h45 : r = 45
      · subst h45
        simp only [or_true, if_true] at h
        split at h
        · simp at h
        · next inp3 tok hsn =>
          obtain ⟨ds, e2, hne, hds, ht, hn⟩ := scanNumber_ok _ _ _ _ hsn
          split at h
          · simp at h
          · next i2 hp =>
            split at h
            · simp at h
            · simp only [Prod.mk.injEq, and_true] at h
              rw [ht] at hp
              have hv := ParseInt_neg ds i2 hp
              omega
      · have hno : ¬ (r = 43 ∨ r = 45) := by omega
        simp only [hno, if_false] at h
        split at h
        · simp at h
        · next inp3 tok hsn =>
          obtain ⟨ds, e2, hne, hds, ht, hn⟩ := scanNumber_ok _ _ _ _ hsn
          split at h
          · simp at h
          · next i2 hp =>
            split at h
            · simp at h
            · simp only [Prod.mk.injEq, and_true] at h
              rw [ht] at hp
              have hv := ParseInt_ok [] ds i2 (Or.inl rfl) hne hds hp
              refine ⟨sp, [], ds, ?_, hsp, Or.inl rfl, hne, hds, ?_, ?_⟩
              · rw [e, e2, ← h.1]; simp
              · rw [← h.2, hv.1]
              · rw [← h.1]; exact hn

theorem head_digits_not_space (ds rest : List Nat) (hne : ds ≠ []) (hd : isDigits ds) :
    ∀ r ∈ (ds ++ rest).head?, isSpace r = false := by
  obtain ⟨c, tl, hcd⟩ := List.exists_cons_of_ne_nil hne
  subst hcd
  intro r hr
  simp only [List.cons_append, List.head?_cons, Option.mem_def, Option.some.injEq] at hr
  rw [← hr]
  exact isSpace_digit c (hd c (by simp))

/-- A verb `%d` with an unsigned operand accepts a number that fits the operand, stores its
value and goes on after it. -/
theorem doScanf_uint_number (bitSize : Nat) (fmt : List FmtItem) (inp rest : List Nat)
    (vals : List Int) (u : Nat) (hb : bitSize ≤ 64) (hn : numberThen inp u rest)
    (hu : u < 2 ^ bitSize) :
    doScanf (FmtItem.d (Operand.uint bitSize) :: fmt) inp vals =
      doScanf fmt rest (vals ++ [(u : Int)]) := by
  obtain ⟨sp, ds, e, hsp, hne, hd, hv, hr⟩ := hn
  subst hv
  have hsk : SkipSpace inp = (ds ++ rest, none) := by
    rw [e, List.append_assoc]
    exact SkipSpace_spaces sp _ hsp (head_digits_not_space ds rest hne hd)
  have hsc := scanUint_digits bitSize ds rest hb hne hd hu hr
  simp only [doScanf, hsk, hsc]

/-- A verb `%d` with an unsigned operand that is accepted has read a number that fits the
operand, stored its value and gone on after it. -/
theorem doScanf_uint_form (bitSize : Nat) (fmt : List FmtItem) (inp : List Nat)
    (vals : List Int)
    (h : (doScanf (FmtItem.d (Operand.uint bitSize) :: fmt) inp vals).2 = none) :
    ∃ (rest : List Nat) (u : Nat), numberThen inp u rest ∧ u < 2 ^ bitSize ∧
      doScanf (FmtItem.d (Operand.uint bitSize) :: fmt) inp vals =
        doScanf fmt rest (vals ++ [(u : Int)]) := by
  simp only [doScanf] at h ⊢
  split at h
  · simp at h
  · next inp1 hs =>
    obtain ⟨sp1, e1, hsp1, _⟩ := SkipSpace_ok inp _ hs
    split at h
    · simp at h
    · next inp2 u hu =>
      obtain ⟨⟨sp2, ds, e2, hsp2, hne, hd, hv, hr⟩, hlt⟩ := scanUint_ok bitSize inp1 inp2 u hu
      refine ⟨inp2, u, ⟨sp1 ++ sp2, ds, ?_, isSpaces_append _ _ hsp1 hsp2, hne, hd, hv, hr⟩,
        hlt, rfl⟩
      rw [e1, e2]; simp

theorem doScanf_lit_cons (c : Nat) (fmt : List FmtItem) (rest : List Nat) (vals : List Int) :
    doScanf (FmtItem.lit c :: fmt) (c :: rest) vals = doScanf fmt rest vals := by
  simp [doScanf]

/-- The format `"m=%d,t=%d,p=%d"` accepts a text of the syntax of a parameter field and
stores its three values. -/
theorem doScanf_fmtParams_accepts (rs : List Nat) (m t p : Nat) (h : paramsForm rs m t p) :
    doScanf fmtParams rs [] = ([(m : Int), (t : Int), (p : Int)], none) := by
  obtain ⟨a, b, c, rest, e, ha, hb, hc, hm, ht, hp⟩ := h
  subst e
  unfold fmtParams
  simp only [List.cons_append, List.nil_append] at ha hb ⊢
  rw [doScanf_lit_cons, doScanf_lit_cons,
    doScanf_uint_number 32 _ a _ _ m (by norm_num) ha hm,
    doScanf_lit_cons, doScanf_lit_cons, doScanf_lit_cons,
    doScanf_uint_number 32 _ b _ _ t (by norm_num) hb ht,
    doScanf_lit_cons, doScanf_lit_cons, doScanf_lit_cons,
    doScanf_uint_number 8 _ c _ _ p (by norm_num) hc hp]
  simp [doScanf]

/-- A text that the format `"m=%d,t=%d,p=%d"` accepts has the syntax of a parameter field,
with the three values that are stored. -/
theorem doScanf_fmtParams_form (rs : List Nat) (h : (doScanf fmtParams rs []).2 = none) :
    ∃ m t p : Nat, paramsForm rs m t p ∧
      doScanf fmtParams rs [] = ([(m : Int), (t : Int), (p : Int)], none) := by
  have h0 := h
  unfold fmtParams at h
  obtain ⟨r1, hi1, e1⟩ := doScanf_lit_ok _ _ _ _ h
  rw [e1] at h
  obtain ⟨r2, hi2, e2⟩ := doScanf_lit_ok _ _ _ _ h
  rw [e2] at h
  obtain ⟨r3, m, hnm, hm, e3⟩ := doScanf_uint_form _ _ _ _ h
  rw [e3] at h
  obtain ⟨r4, hi4, e4⟩ := doScanf_lit_ok _ _ _ _ h
  rw [e4] at h
  obtain ⟨r5, hi5, e5⟩ := doScanf_lit_ok _ _ _ _ h
  rw [e5] at h
  obtain ⟨r6, hi6, e6⟩ := doScanf_lit_ok _ _ _ _ h
  rw [e6] at h
  obtain ⟨r7, t, hnt, ht, e7⟩ := doScanf_uint_form _ _ _ _ h
  rw [e7] at h
  obtain ⟨r8, hi8, e8⟩ := doScanf_lit_ok _ _ _ _ h
  rw [e8] at h
  obtain ⟨r9, hi9, e9⟩ := doScanf_lit_ok _ _ _ _ h
  rw [e9] at h
  obtain ⟨r10, hi10, e10⟩ := doScanf_lit_ok _ _ _ _ h
  rw [e10] at h
  obtain ⟨r11, p, hnp, hp, e11⟩ := doScanf_uint_form _ _ _ _ h
  have hsyn : paramsForm rs m t p := by
    refine ⟨r2, r6, r10, r11, by rw [hi1, hi2]; rfl, ?_, ?_, hnp, hm, ht, hp⟩
    · rw [hi4, hi5, hi6] at hnm; exact hnm
    · rw [hi8, hi9, hi10] at hnt; exact hnt
  exact ⟨m, t, p, hsyn, doScanf_fmtParams_accepts rs m t p hsyn⟩

theorem head_version_not_space (sg ds rest : List Nat) (hsg : sg = [] ∨ sg = [43])
    (hne : ds ≠ []) (hd : isDigits ds) :
    ∀ r ∈ (sg ++ ds ++ rest).head?, isSpace r = false := by
  rcases hsg with hs | hs
  · subst hs
    exact head_digits_not_space ds rest hne hd
  · subst hs
    intro r hr
    simp only [List.singleton_append, List.cons_append, List.head?_cons, Option.mem_def,
      Option.some.injEq] at hr
    rw [← hr]
    decide

/-- The format `"v=%d"` accepts a text of the syntax of a version field and stores the
version. -/
theorem doScanf_fmtVersion_accepts (rs : List Nat) (h : versionForm rs) :
    doScanf fmtVersion rs [] = ([Version], none) := by
  obtain ⟨sp, sg, ds, rest, e, hsp, hsg, hne, hd, hv, hr⟩ := h
  have hlt : digitsVal ds 0 < 2 ^ 63 := by
    unfold Version at hv
    omega
  have hsk : SkipSpace (sp ++ (sg ++ ds ++ rest)) = (sg ++ ds ++ rest, none) :=
    SkipSpace_spaces sp _ hsp (head_version_not_space sg ds rest hsg hne hd)
  have hsk2 : SkipSpace (sg ++ ds ++ rest) = (sg ++ ds ++ rest, none) := by
    have := SkipSpace_spaces [] _ isSpaces_nil (head_version_not_space sg ds rest hsg hne hd)
    simpa using this
  have hsc := scanInt_digits sg ds rest hsg hne hd hlt hr
  have e2 : rs = 118 :: 61 :: (sp ++ (sg ++ ds ++ rest)) := by
    rw [e]; simp
  rw [e2]
  unfold fmtVersion
  rw [doScanf_lit_cons, doScanf_lit_cons]
  simp only [doScanf, hsk, hsc, hv, List.nil_append]

/-- A text that the format `"v=%d"` accepts with the version as its value has the syntax of a
version field. -/
theorem doScanf_fmtVersion_form (rs : List Nat) (h : (doScanf fmtVersion rs []).2 = none)
    (hv : (doScanf fmtVersion rs []).1.getD 0 0 = Version) : versionForm rs := by
  unfold fmtVersion at h hv
  obtain ⟨r1, hi1, e1⟩ := doScanf_lit_ok _ _ _ _ h
  rw [e1] at h hv
  obtain ⟨r2, hi2, e2⟩ := doScanf_lit_ok _ _ _ _ h
  rw [e2] at h hv
  simp only [doScanf] at h hv
  split at h
  · simp at h
  · next inp1 hs =>
    obtain ⟨sp1, es, hsp1, _⟩ := SkipSpace_ok r2 _ hs
    split at h
    · simp at h
    · next inp2 i hsc =>
      rw [hs] at hv
      simp only [hsc, List.nil_append, List.getD_cons_zero] at hv
      have hpos : 0 < i := by rw [hv]; decide
      obtain ⟨sp2, sg, ds, e3, hsp2, hsg, hne, hd, hval, hr⟩ := scanInt_ok inp1 inp2 i hsc hpos
      refine ⟨sp1 ++ sp2, sg, ds, inp2, ?_, isSpaces_append _ _ hsp1 hsp2, hsg, hne, hd, ?_, hr⟩
      · rw [hi1, hi2, es, e3]; simp
      · rw [hval, hv]

/-! ## Lemmas: fields without spaces, sign, leading zeros and trailing text -/

/-- Two runs of digits, each followed by a text that does not start with a digit, are equal
when the two texts are. -/
theorem digits_prefix_unique (a : List Nat) : ∀ (b x y : List Nat), isDigits a → isDigits b →
    noDigitNext x → noDigitNext y → a ++ x = b ++ y → a = b ∧ x = y := by
  induction a with
  | nil =>
    intro b x y _ hb hx _ e
    cases b with
    | nil => exact ⟨rfl, by simpa using e⟩
    | cons c b =>
      exfalso
      simp only [List.nil_append, List.cons_append] at e
      exact hx c (by rw [e]; simp) (hb c (by simp))
  | cons c a ih =>
    intro b x y ha hb hx hy e
    cases b with
    | nil =>
      exfalso
      simp only [List.nil_append, List.cons_append] at e
      exact hy c (by rw [← e]; simp) (ha c (by simp))
    | cons d b =>
      simp only [List.cons_append, List.cons.injEq] at e
      obtain ⟨h1, h2⟩ := ih b x y (fun q hq => ha q (by simp [hq]))
        (fun q hq => hb q (by simp [hq])) hx hy e.2
      exact ⟨by rw [e.1, h1], h2⟩

/-- A number at the start of a text that starts with a run of digits is that run. -/
theorem numberThen_digits (ds x rest : List Nat) (u : Nat) (hne : ds ≠ []) (hd : isDigits ds)
    (hx : noDigitNext x) (h : numberThen (ds ++ x) u rest) :
    u = digitsVal ds 0 ∧ rest = x := by
  obtain ⟨sp, ds2, e, hsp, _, hd2, hv, hr⟩ := h
  obtain ⟨c, tl, hcd⟩ := List.exists_cons_of_ne_nil hne
  have hc : 48 ≤ c ∧ c ≤ 57 := hd c (by rw [hcd]; simp)
  cases sp with
  | cons r sp =>
    exfalso
    rw [hcd] at e
    simp only [List.cons_append, List.cons.injEq] at e
    have := (hsp r (by simp)).1
    rw [← e.1, isSpace_digit c hc] at this
    exact absurd this (by decide)
  | nil =>
    simp only [List.nil_append] at e
    obtain ⟨h1, h2⟩ := digits_prefix_unique ds ds2 x rest hd hd2 hx hr e
    exact ⟨by rw [← hv, h1], h2.symm⟩

theorem digitsVal_ge (tl : List Nat) (n : Nat) (hne : tl ≠ []) : n * 10 ≤ digitsVal tl n := by
  obtain ⟨d, tl2, e⟩ := List.exists_cons_of_ne_nil hne
  subst e
  have h := le_digitsVal tl2 (n * 10 + (d - 48))
  have e2 : digitsVal (d :: tl2) n = digitsVal tl2 (n * 10 + (d - 48)) := rfl
  omega

/-- The digits `%d` prints for the value of a decimal numeral are the numeral. -/
theorem fmtIntegerLoop_digitsVal : ∀ (fuel u : Nat) (buf ds : List Nat), u < fuel →
    isDecimal ds → digitsVal ds 0 = u → fmtIntegerLoop fuel u buf = ds ++ buf := by
  intro fuel
  induction fuel with
  | zero => intro u buf ds h; omega
  | succ fuel ih =>
    intro u buf ds hfu hdec hv
    obtain ⟨hne, hd, h0⟩ := hdec
    rw [fmtIntegerLoop]
    by_cases hu : u ≥ 10
    · rw [if_pos hu]
      obtain ⟨init, c, e⟩ : ∃ init c, ds = init ++ [c] :=
        ⟨ds.dropLast, ds.getLast hne, (List.dropLast_append_getLast hne).symm⟩
      subst e
      have hc : 48 ≤ c ∧ c ≤ 57 := hd c (by simp)
      have hval : digitsVal (init ++ [c]) 0 = digitsVal init 0 * 10 + (c - 48) := by
        rw [digitsVal_append]; rfl
      rw [hval] at hv
      have hi : init ≠ [] := by
        intro e
        subst e
        have : digitsVal [] 0 = 0 := rfl
        omega
      have hdi : isDigits init := fun x hx => hd x (by simp [hx])
      have hdec2 : isDecimal init := by
        refine ⟨hi, hdi, ?_⟩
        intro h48
        exfalso
        cases init with
        | nil => exact hi rfl
        | cons a l =>
          have h1 : (a :: l ++ [c]).head? = some 48 := by simpa using h48
          have h2 := h0 h1
          simp at h2
      have e1 : digitsVal init 0 = u / 10 := by omega
      have e2 : 48 + (u - u / 10 * 10) = c := by omega
      rw [e2, ih (u / 10) (c :: buf) init (by omega) hdec2 e1]
      simp
    · rw [if_neg hu]
      cases ds with
      | nil => exact absurd rfl hne
      | cons c tl =>
        have hc := hd c (by simp)
        cases tl with
        | nil =>
          have e : digitsVal [c] 0 = 0 * 10 + (c - 48) := rfl
          have e2 : 48 + u = c := by omega
          rw [e2]; rfl
        | cons d tl2 =>
          exfalso
          have h48 : c ≠ 48 := by
            intro e
            subst e
            have := h0 rfl
            simp at this
          have h1 := digitsVal_ge (d :: tl2) (0 * 10 + (c - 48)) (by simp)
          have e : digitsVal (c :: d :: tl2) 0 = digitsVal (d :: tl2) (0 * 10 + (c - 48)) := rfl
          omega

theorem fmtUint_digitsVal (ds : List Nat) (h : isDecimal ds) :
    fmtUint (digitsVal ds 0) = ds := by
  rw [fmtUint, fmtIntegerLoop_digitsVal _ _ [] ds (by omega) h rfl]
  simp

/-- A version field `v=` and a run of digits that has the syntax of a version field: the
digits have the value of the version. -/
theorem versionForm_digits (ds : List Nat) (hne : ds ≠ []) (hd : isDigits ds)
    (h : versionForm (118 :: 61 :: ds)) : (digitsVal ds 0 : Int) = Version := by
  obtain ⟨sp, sg, ds2, rest, e, hsp, hsg, _, hd2, hv, hr⟩ := h
  obtain ⟨c, tl, hcd⟩ := List.exists_cons_of_ne_nil hne
  have hc : 48 ≤ c ∧ c ≤ 57 := hd c (by rw [hcd]; simp)
  simp only [List.cons_append, List.nil_append, List.cons.injEq, true_and,
    List.append_assoc] at e
  cases sp with
  | cons r sp =>
    exfalso
    rw [hcd] at e
    simp only [List.cons_append, List.cons.injEq] at e
    have := (hsp r (by simp)).1
    rw [← e.1, isSpace_digit c hc] at this
    exact absurd this (by decide)
  | nil =>
    simp only [List.nil_append] at e
    rcases hsg with hs | hs
    · subst hs
      simp only [List.nil_append] at e
      have e2 : ds ++ [] = ds2 ++ rest := by simpa using e
      obtain ⟨h1, _⟩ := digits_prefix_unique ds ds2 [] rest hd hd2
        (by intro r hr; simp at hr) hr e2
      rw [h1]; exact hv
    · exfalso
      subst hs
      rw [hcd] at e
      simp only [List.cons_append, List.nil_append, List.cons.injEq] at e
      omega

theorem noDigitNext_cons (r : Nat) (l : List Nat) (h : ¬ (48 ≤ r ∧ r ≤ 57)) :
    noDigitNext (r :: l) := by
  intro q hq
  simp only [List.head?_cons, Option.mem_def, Option.some.injEq] at hq
  rw [← hq]; exact h

theorem noDigitNext_nil : noDigitNext [] := by
  intro q hq
  simp at hq

/-- A parameter field made of `m=`, `,t=`, `,p=` and three runs of digits that has the syntax
of a parameter field: the three values are those of the digits. -/
theorem paramsForm_digits (dm dt dp : List Nat) (m t p : Nat) (hm : dm ≠ [] ∧ isDigits dm)
    (ht : dt ≠ [] ∧ isDigits dt) (hp : dp ≠ [] ∧ isDigits dp)
    (h : paramsForm (109 :: 61 :: (dm ++ 44 :: 116 :: 61 :: (dt ++ 44 :: 112 :: 61 :: dp)))
      m t p) :
    m = digitsVal dm 0 ∧ t = digitsVal dt 0 ∧ p = digitsVal dp 0 := by
  obtain ⟨a, b, c, rest, e, ha, hb, hc, _, _, _⟩ := h
  simp only [List.cons_append, List.nil_append, List.cons.injEq, true_and] at e ha hb
  rw [← e] at ha
  obtain ⟨h1, h2⟩ := numberThen_digits dm _ _ m hm.1 hm.2
    (noDigitNext_cons 44 _ (by omega)) ha
  simp only [List.cons.injEq, true_and] at h2
  rw [h2] at hb
  obtain ⟨h3, h4⟩ := numberThen_digits dt _ _ t ht.1 ht.2
    (noDigitNext_cons 44 _ (by omega)) hb
  simp only [List.cons.injEq, true_and] at h4
  have hc2 : numberThen (dp ++ []) p rest := by
    rw [List.append_nil, ← h4]; exact hc
  obtain ⟨h5, _⟩ := numberThen_digits dp [] rest p hp.1 hp.2 noDigitNext_nil hc2
  exact ⟨h1, h3, h5⟩

/-! ## Lemmas: the strings `decodeHash` accepts -/

/-- The function `decodeHash` accepts a string of five fields when, and only when, field 2 has
the syntax of a version field, field 3 that of a parameter field, and fields 4 and 5 are
accepted by the base64 decoder. -/
theorem decodeHash_accepts_iff (enc f1 f2 f3 f4 f5 : List Nat)
    (hs : Split sep enc = [f1, f2, f3, f4, f5]) :
    (decodeHash enc).2.2.2 = none ↔
      versionForm (runes f2) ∧ (∃ m t p, paramsForm (runes f3) m t p) ∧
        (DecodeString f4).2 = none ∧ (DecodeString f5).2 = none := by
  constructor
  · intro hok
    obtain ⟨hv, hver, hpar, h4, h5, _⟩ := decodeHash_ok_fields enc f1 f2 f3 f4 f5 hs hok
    obtain ⟨m, t, p, hform, _⟩ := doScanf_fmtParams_form (runes f3) hpar
    exact ⟨doScanf_fmtVersion_form (runes f2) hv hver, ⟨m, t, p, hform⟩, h4, h5⟩
  · rintro ⟨hv, ⟨m, t, p, hpar⟩, h4, h5⟩
    have e2 : Sscanf f2 fmtVersion = ([Version], none) := doScanf_fmtVersion_accepts _ hv
    have e3 : Sscanf f3 fmtParams = ([(m : Int), (t : Int), (p : Int)], none) :=
      doScanf_fmtParams_accepts _ m t p hpar
    rw [decodeHash_five_err enc f1 f2 f3 f4 f5 hs, e2, e3, h4, h5]
    simp

/-- The parameters `decodeHash` returns for a string it accepts are the three values of the
parameter field. -/
theorem decodeHash_accepts_values (enc f1 f2 f3 f4 f5 : List Nat) (m t p : Nat)
    (hs : Split sep enc = [f1, f2, f3, f4, f5]) (hok : (decodeHash enc).2.2.2 = none)
    (hpar : paramsForm (runes f3) m t p) :
    (decodeHash enc).1.Memory = m ∧ (decodeHash enc).1.Iterations = t ∧
      (decodeHash enc).1.Parallelism = p := by
  obtain ⟨_, _, _, _, _, hd⟩ := decodeHash_ok_fields enc f1 f2 f3 f4 f5 hs hok
  have e3 : Sscanf f3 fmtParams = ([(m : Int), (t : Int), (p : Int)], none) :=
    doScanf_fmtParams_accepts _ m t p hpar
  rw [hd, e3]
  simp

/-- A version field `v=` and a decimal numeral that `decodeHash` accepts is the field `Hash`
prints. -/
theorem decodeHash_strict_version (enc f1 f2 f3 f4 f5 ds : List Nat)
    (hs : Split sep enc = [f1, f2, f3, f4, f5]) (hok : (decodeHash enc).2.2.2 = none)
    (hf : f2 = str "v=" ++ ds) (hd : isDecimal ds) : f2 = str "v=" ++ fmtInt Version := by
  have hv := ((decodeHash_accepts_iff enc f1 f2 f3 f4 f5 hs).1 hok).1
  have hr : runes f2 = 118 :: 61 :: ds := by
    rw [hf, runes_ascii]
    · simp [str_v]
    · intro b hb
      rw [str_v] at hb
      simp only [List.cons_append, List.nil_append, List.mem_cons] at hb
      rcases hb with h | h | h
      · omega
      · omega
      · exact isDigits_lt _ hd.2.1 b h
  rw [hr] at hv
  have hval := versionForm_digits ds hd.1 hd.2.1 hv
  have e : digitsVal ds 0 = 19 := by
    unfold Version at hval
    omega
  have e2 : fmtInt Version = fmtUint 19 := by
    rw [fmtInt_nonneg Version (by decide)]; rfl
  rw [hf, e2, ← e, fmtUint_digitsVal ds hd]

/-- A parameter field made of `m=`, `,t=`, `,p=` and three decimal numerals that `decodeHash`
accepts is the field `Hash` prints for the parameters decoded. -/
theorem decodeHash_strict_params (enc f1 f2 f3 f4 f5 dm dt dp : List Nat)
    (hs : Split sep enc = [f1, f2, f3, f4, f5]) (hok : (decodeHash enc).2.2.2 = none)
    (hf : f3 = str "m=" ++ dm ++ str ",t=" ++ dt ++ str ",p=" ++ dp)
    (hm : isDecimal dm) (ht : isDecimal dt) (hp : isDecimal dp) :
    f3 = str "m=" ++ fmtUint (decodeHash enc).1.Memory ++
      str ",t=" ++ fmtUint (decodeHash enc).1.Iterations ++
      str ",p=" ++ fmtUint (decodeHash enc).1.Parallelism := by
  obtain ⟨m, t, p, hpar⟩ := ((decodeHash_accepts_iff enc f1 f2 f3 f4 f5 hs).1 hok).2.1
  obtain ⟨e1, e2, e3⟩ := decodeHash_accepts_values enc f1 f2 f3 f4 f5 m t p hs hok hpar
  have hr : runes f3 =
      109 :: 61 :: (dm ++ 44 :: 116 :: 61 :: (dt ++ 44 :: 112 :: 61 :: dp)) := by
    rw [hf, runes_ascii]
    · simp [str_m, str_t, str_p]
    · intro b hb
      rw [str_m, str_t, str_p] at hb
      simp only [List.cons_append, List.nil_append, List.mem_cons, List.mem_append,
        List.append_assoc] at hb
      rcases hb with h | h | h | h | h | h | h | h | h | h | h
      · omega
      · omega
      · exact isDigits_lt _ hm.2.1 b h
      · omega
      · omega
      · omega
      · exact isDigits_lt _ ht.2.1 b h
      · omega
      · omega
      · omega
      · exact isDigits_lt _ hp.2.1 b h
  rw [hr] at hpar
  obtain ⟨v1, v2, v3⟩ := paramsForm_digits dm dt dp m t p ⟨hm.1, hm.2.1⟩ ⟨ht.1, ht.2.1⟩
    ⟨hp.1, hp.2.1⟩ hpar
  rw [e1, e2, e3, v1, v2, v3, fmtUint_digitsVal dm hm, fmtUint_digitsVal dt ht,
    fmtUint_digitsVal dp hp]
  exact hf

/-! ## The properties of the specification -/

/-- C1. Round trip: for every parameter set (of values of the Go types), every password and
every salt the random source returns without error, `Hash` succeeds and
`ComparePasswordAndHash` on the password and the string `Hash` returned gives `(true, nil)`,
the key-derivation function being a function that returns `keyLen` bytes. -/
theorem C1_round_trip (IDKey : KDF) (Read : RandRead) (h : Hasher) (password : List Nat)
    (hk : IDKey.returnsKey) (hw : h.Params.wellTyped)
    (hr : (Read h.Params.SaltLength).2 = none) :
    (Hash IDKey Read h password).2 = none ∧
      ComparePasswordAndHash IDKey h password (Hash IDKey Read h password).1 = (true, none) := by
  refine ⟨by rw [Hash_ok IDKey Read h password hr], ?_⟩
  have hkl := (hk password (generateSalt Read h.Params.SaltLength).1 h.Params.Iterations
    h.Params.Memory h.Params.Parallelism h.Params.KeyLength)
  have hd := decodeHash_Hash IDKey Read h password hw hr hkl.2
  have hlen : h.Params.KeyLength % 2 ^ 32 = h.Params.KeyLength :=
    Nat.mod_eq_of_lt hw.2.2.2.2
  unfold ComparePasswordAndHash
  rw [hd]
  simp only [hkl.1, hlen, ConstantTimeCompare_self, beq_self_eq_true]

/-- C1 at the default parameters, the empty password and a random source that does not fail. -/
theorem C1_round_trip_witness :
    (exampleRead New.Params.SaltLength).2 = none ∧
      (Hash exampleKDF exampleRead New []).2 = none ∧
      ComparePasswordAndHash exampleKDF New [] (Hash exampleKDF exampleRead New []).1 =
        (true, none) :=
  ⟨rfl, C1_round_trip exampleKDF exampleRead New [] exampleKDF_returnsKey (by decide) rfl⟩


/-- C2. Negative: for two different passwords `P1` and `P2`, when the key-derivation function
gives different keys for them with the salt and the parameters of the hash (no collision),
`ComparePasswordAndHash` on `P2` and the string a successful `Hash` returned for `P1` gives
`(false, nil)`. -/
theorem C2_negative (IDKey : KDF) (Read : RandRead) (h : Hasher) (P1 P2 : List Nat)
    (hk : IDKey.returnsKey) (hw : h.Params.wellTyped)
    (hr : (Read h.Params.SaltLength).2 = none) (_hne : P1 ≠ P2)
    (hcoll : IDKey P1 (generateSalt Read h.Params.SaltLength).1 h.Params.Iterations
        h.Params.Memory h.Params.Parallelism h.Params.KeyLength ≠
      IDKey P2 (generateSalt Read h.Params.SaltLength).1 h.Params.Iterations
        h.Params.Memory h.Params.Parallelism h.Params.KeyLength) :
    (Hash IDKey Read h P1).2 = none ∧
      ComparePasswordAndHash IDKey h P2 (Hash IDKey Read h P1).1 = (false, none) := by
  refine ⟨by rw [Hash_ok IDKey Read h P1 hr], ?_⟩
  have hk1 := (hk P1 (generateSalt Read h.Params.SaltLength).1 h.Params.Iterations
    h.Params.Memory h.Params.Parallelism h.Params.KeyLength)
  have hk2 := (hk P2 (generateSalt Read h.Params.SaltLength).1 h.Params.Iterations
    h.Params.Memory h.Params.Parallelism h.Params.KeyLength)
  have hd := decodeHash_Hash IDKey Read h P1 hw hr hk1.2
  have hlen : h.Params.KeyLength % 2 ^ 32 = h.Params.KeyLength :=
    Nat.mod_eq_of_lt hw.2.2.2.2
  have hc : ConstantTimeCompare
      (IDKey P1 (generateSalt Read h.Params.SaltLength).1 h.Params.Iterations
        h.Params.Memory h.Params.Parallelism h.Params.KeyLength)
      (IDKey P2 (generateSalt Read h.Params.SaltLength).1 h.Params.Iterations
        h.Params.Memory h.Params.Parallelism h.Params.KeyLength) ≠ 1 :=
    fun e => hcoll ((ConstantTimeCompare_eq_one_iff _ _ hk1.2 hk2.2).1 e)
  unfold ComparePasswordAndHash
  rw [hd]
  simp only [hk1.1, hlen]
  simpa using hc

/-- C2 at the default parameters and the two passwords of `TestHash`. -/
theorem C2_negative_witness :
    str "testpass" ≠ str "not-testpass" ∧
      (Hash exampleKDF exampleRead New (str "testpass")).2 = none ∧
      ComparePasswordAndHash exampleKDF New (str "not-testpass")
        (Hash exampleKDF exampleRead New (str "testpass")).1 = (false, none) :=
  ⟨by decide, C2_negative exampleKDF exampleRead New (str "testpass") (str "not-testpass")
    exampleKDF_returnsKey (by decide) rfl (by decide) (by decide)⟩

/-- C3. Field count: for every string that does not split on `&` into exactly 5 fields,
`decodeHash` returns the zero parameters, no salt, no key and `ErrInvalidHash`, and
`ComparePasswordAndHash` returns `(false, ErrInvalidHash)` for any candidate password. -/
theorem C3_field_count (IDKey : KDF) (h : Hasher) (password encHash : List Nat)
    (hn : (Split sep encHash).length ≠ 5) :
    decodeHash encHash =
        ({ Memory := 0, Iterations := 0, Parallelism := 0, SaltLength := 0, KeyLength := 0 },
          [], [], some Error.ErrInvalidHash) ∧
      ComparePasswordAndHash IDKey h password encHash = (false, some Error.ErrInvalidHash) := by
  have hd : decodeHash encHash =
      ({ Memory := 0, Iterations := 0, Parallelism := 0, SaltLength := 0, KeyLength := 0 },
        [], [], some Error.ErrInvalidHash) := by
    unfold decodeHash
    simp only [hn, ne_eq, not_false_eq_true, if_true]
  refine ⟨hd, ?_⟩
  unfold ComparePasswordAndHash
  rw [hd]

/-- C3 at the string of `TestHasherWithInvalidHash`, which has four fields. -/
theorem C3_field_count_witness :
    (Split sep (str ("argon2&m=65536,t=3,p=2&BZS21nYXiQ6mQ732+f3FtA&" ++
        "sgIRBy9MNL6Cdp/+o2qJKaZ7e2TRiejpifO3+MZ3IjE"))).length = 4 ∧
      ComparePasswordAndHash exampleKDF New (str "testpass")
        (str ("argon2&m=65536,t=3,p=2&BZS21nYXiQ6mQ732+f3FtA&" ++
          "sgIRBy9MNL6Cdp/+o2qJKaZ7e2TRiejpifO3+MZ3IjE")) =
        (false, some Error.ErrInvalidHash) :=
  ⟨by decide, (C3_field_count exampleKDF New (str "testpass")
    (str ("argon2&m=65536,t=3,p=2&BZS21nYXiQ6mQ732+f3FtA&" ++
      "sgIRBy9MNL6Cdp/+o2qJKaZ7e2TRiejpifO3+MZ3IjE")) (by decide)).2⟩

/-- C4. Version rejection: for every string of five fields whose version field is `v=<n>`,
`n` being an `int` in decimal and different from the version 19 of the key-derivation
function, `decodeHash` returns `ErrInvalidArgonVersion` and `ComparePasswordAndHash` returns
`(false, ErrInvalidArgonVersion)`, whatever the other four fields are; this error is not
`ErrInvalidHash`. -/
theorem C4_version_rejection (IDKey : KDF) (h : Hasher) (password : List Nat)
    (tag f3 f4 f5 : List Nat) (n : Int) (hlo : -(2 ^ 63) ≤ n) (hhi : n < 2 ^ 63)
    (hn : n ≠ Version) (htag : sep ∉ tag) (h3 : sep ∉ f3) (h4 : sep ∉ f4) (h5 : sep ∉ f5) :
    Version = 19 ∧
      decodeHash (tag ++ [sep] ++ (str "v=" ++ fmtInt n) ++ [sep] ++ f3 ++ [sep] ++ f4 ++
          [sep] ++ f5) =
        ({ Memory := 0, Iterations := 0, Parallelism := 0, SaltLength := 0, KeyLength := 0 },
          [], [], some Error.ErrInvalidArgonVersion) ∧
      ComparePasswordAndHash IDKey h password
          (tag ++ [sep] ++ (str "v=" ++ fmtInt n) ++ [sep] ++ f3 ++ [sep] ++ f4 ++ [sep] ++ f5) =
        (false, some Error.ErrInvalidArgonVersion) ∧
      Error.ErrInvalidArgonVersion ≠ Error.ErrInvalidHash := by
  have h2 : sep ∉ str "v=" ++ fmtInt n := by
    intro hm
    rcases List.mem_append.1 hm with hm | hm
    · rw [str_v] at hm; simp [sep] at hm
    · exact fmtInt_sep n hm
  have e : tag ++ [sep] ++ (str "v=" ++ fmtInt n) ++ [sep] ++ f3 ++ [sep] ++ f4 ++ [sep] ++ f5 =
      tag ++ sep :: ((str "v=" ++ fmtInt n) ++ sep :: (f3 ++ sep :: (f4 ++ sep :: f5))) := by
    simp only [List.append_assoc, List.singleton_append, List.cons_append, List.nil_append]
  have hs := Split_five sep tag (str "v=" ++ fmtInt n) f3 f4 f5 htag h2 h3 h4 h5
  have hd : decodeHash (tag ++ [sep] ++ (str "v=" ++ fmtInt n) ++ [sep] ++ f3 ++ [sep] ++ f4 ++
        [sep] ++ f5) =
      ({ Memory := 0, Iterations := 0, Parallelism := 0, SaltLength := 0, KeyLength := 0 },
        [], [], some Error.ErrInvalidArgonVersion) := by
    rw [e, decodeHash_five _ _ _ _ _ _ hs, Sscanf_fmtVersion n hlo hhi]
    simp only [List.getD_cons_zero, ne_eq, hn, not_false_eq_true, if_true]
  refine ⟨rfl, hd, ?_, by decide⟩
  unfold ComparePasswordAndHash
  rw [hd]

/-- C4 at the string of `TestHasherWithInvalidVersion`, whose version field is `v=21`. -/
theorem C4_version_rejection_witness :
    str "argon2" ++ [sep] ++ (str "v=" ++ fmtInt 21) ++ [sep] ++ str "m=65536,t=3,p=2" ++ [sep] ++
        str "BZS21nYXiQ6mQ732+f3FtA" ++ [sep] ++
        str "sgIRBy9MNL6Cdp/+o2qJKaZ7e2TRiejpifO3+MZ3IjE" =
      str ("argon2&v=21&m=65536,t=3,p=2&BZS21nYXiQ6mQ732+f3FtA&" ++
        "sgIRBy9MNL6Cdp/+o2qJKaZ7e2TRiejpifO3+MZ3IjE") ∧
      ComparePasswordAndHash exampleKDF New (str "testpass")
          (str "argon2" ++ [sep] ++ (str "v=" ++ fmtInt 21) ++ [sep] ++ str "m=65536,t=3,p=2" ++
            [sep] ++ str "BZS21nYXiQ6mQ732+f3FtA" ++ [sep] ++
            str "sgIRBy9MNL6Cdp/+o2qJKaZ7e2TRiejpifO3+MZ3IjE") =
        (false, some Error.ErrInvalidArgonVersion) :=
  ⟨by decide, (C4_version_rejection exampleKDF New (str "testpass") (str "argon2")
    (str "m=65536,t=3,p=2") (str "BZS21nYXiQ6mQ732+f3FtA")
    (str "sgIRBy9MNL6Cdp/+o2qJKaZ7e2TRiejpifO3+MZ3IjE") 21 (by decide) (by decide) (by decide)
    (by decide) (by decide) (by decide) (by decide)).2.2.1⟩

/-- C5, as stated, fails: on strings of five fields with an unparseable version sub-field, an
unparseable parameter sub-field, invalid base64 in the salt field or invalid base64 in the key
field, `decodeHash` and `ComparePasswordAndHash` return the error of `fmt.Sscanf` or of the
base64 decoder, which is not `ErrInvalidHash`. -/
theorem C5_counterexample :
    (decodeHash (str "argon2&v=x&m=65536,t=3,p=2&BZS2&sgIR")).2.2.2 =
        some Error.expectedInteger ∧
      (decodeHash (str "argon2&v=19&m=65536,t=3&BZS2&sgIR")).2.2.2 =
        some Error.ErrUnexpectedEOF ∧
      (decodeHash (str "argon2&v=19&m=65536,t=3,p=2&BZS2=&sgIR")).2.2.2 =
        some (Error.CorruptInputError 4) ∧
      (decodeHash (str "argon2&v=19&m=65536,t=3,p=2&BZS2&sgI*")).2.2.2 =
        some (Error.CorruptInputError 3) ∧
      ComparePasswordAndHash exampleKDF New (str "testpass")
          (str "argon2&v=x&m=65536,t=3,p=2&BZS2&sgIR") =
        (false, some Error.expectedInteger) ∧
      Error.expectedInteger ≠ Error.ErrInvalidHash ∧
      Error.ErrUnexpectedEOF ≠ Error.ErrInvalidHash ∧
      Error.CorruptInputError 4 ≠ Error.ErrInvalidHash ∧
      Error.CorruptInputError 3 ≠ Error.ErrInvalidHash := by
  decide

/-- C5, amended: `decodeHash` returns `ErrInvalidHash` exactly when the string does not split
into 5 fields, and `ComparePasswordAndHash` returns the error of `decodeHash`. On a string of 5
fields the error returned is, unchanged, the error `fmt.Sscanf` gave for the version
sub-field when it gave one; otherwise `ErrInvalidArgonVersion` when the version read is not
19; otherwise the error `fmt.Sscanf` gave for the parameter sub-field when it gave one;
otherwise the error the base64 decoder gave for the salt when it gave one; otherwise the error
the base64 decoder gave for the key. Such an error is an error of the scanner or a
`CorruptInputError`, never `ErrInvalidHash`. -/
theorem C5_error_kinds (IDKey : KDF) (h : Hasher) (password encHash : List Nat) :
    ((decodeHash encHash).2.2.2 = some Error.ErrInvalidHash ↔
        (Split sep encHash).length ≠ 5) ∧
      (ComparePasswordAndHash IDKey h password encHash).2 = (decodeHash encHash).2.2.2 ∧
      ((Split sep encHash).length = 5 → ∀ e, (decodeHash encHash).2.2.2 = some e →
        e = Error.ErrInvalidArgonVersion ∨ e.isScanError = true ∨ e.isCorruptInput = true) ∧
      (∀ f1 f2 f3 f4 f5, Split sep encHash = [f1, f2, f3, f4, f5] →
        (decodeHash encHash).2.2.2 =
          match (Sscanf f2 fmtVersion).2 with
          | some e => some e
          | none =>
            if (Sscanf f2 fmtVersion).1.getD 0 0 ≠ Version then
              some Error.ErrInvalidArgonVersion
            else
              match (Sscanf f3 fmtParams).2 with
              | some e => some e
              | none =>
                match (DecodeString f4).2 with
                | some e => some e
                | none => (DecodeString f5).2) := by
  have key : (Split sep encHash).length = 5 → ∀ e, (decodeHash encHash).2.2.2 = some e →
      e = Error.ErrInvalidArgonVersion ∨ e.isScanError = true ∨ e.isCorruptInput = true := by
    intro h5 e he
    obtain ⟨f1, f2, f3, f4, f5, hs⟩ := length_eq_five _ h5
    exact decodeHash_five_error encHash f1 f2 f3 f4 f5 hs e he
  refine ⟨⟨?_, ?_⟩, ComparePasswordAndHash_error IDKey h password encHash, key, ?_⟩
  · intro he h5
    rcases key h5 _ he with h1 | h1 | h1
    · exact absurd h1 (by decide)
    · exact absurd h1 (by decide)
    · exact absurd h1 (by decide)
  · intro hn
    have hd : decodeHash encHash =
        ({ Memory := 0, Iterations := 0, Parallelism := 0, SaltLength := 0, KeyLength := 0 },
          [], [], some Error.ErrInvalidHash) := by
      unfold decodeHash
      simp only [hn, ne_eq, not_false_eq_true, if_true]
    rw [hd]
  · intro f1 f2 f3 f4 f5 hs
    exact decodeHash_five_err encHash f1 f2 f3 f4 f5 hs

/-- C5 (amended) at a string of five fields whose salt field ends with a padding character:
the error returned is the one the base64 decoder gives for that field. -/
theorem C5_error_kinds_witness :
    (Split sep (str "argon2&v=19&m=65536,t=3,p=2&BZS2=&sgIR")).length = 5 ∧
      (decodeHash (str "argon2&v=19&m=65536,t=3,p=2&BZS2=&sgIR")).2.2.2 =
        (DecodeString (str "BZS2=")).2 ∧
      (DecodeString (str "BZS2=")).2 = some (Error.CorruptInputError 4) ∧
      (Error.CorruptInputError 4 = Error.ErrInvalidArgonVersion ∨
        (Error.CorruptInputError 4).isScanError = true ∨
        (Error.CorruptInputError 4).isCorruptInput = true) :=
  ⟨by decide,
    ((C5_error_kinds exampleKDF New (str "testpass")
      (str "argon2&v=19&m=65536,t=3,p=2&BZS2=&sgIR")).2.2.2 (str "argon2") (str "v=19")
      (str "m=65536,t=3,p=2") (str "BZS2=") (str "sgIR") (by decide)).trans (by decide),
    by decide,
    (C5_error_kinds exampleKDF New (str "testpass")
      (str "argon2&v=19&m=65536,t=3,p=2&BZS2=&sgIR")).2.2.1 (by decide) _ (by decide)⟩

/-- C6. Parsing recovers the parameters: for every parameter set (of values of the Go types)
and password, `decodeHash` on the string of a successful `Hash` returns no error, the
`Memory`, `Iterations` and `Parallelism` of the `Hasher` that produced it, the salt that
`Hash` generated and the key that `Hash` derived (a slice of bytes). -/
theorem C6_decode_recovers (IDKey : KDF) (Read : RandRead) (h : Hasher) (password : List Nat)
    (hw : h.Params.wellTyped) (hr : (Read h.Params.SaltLength).2 = none)
    (hk : isBytes (IDKey password (generateSalt Read h.Params.SaltLength).1
      h.Params.Iterations h.Params.Memory h.Params.Parallelism h.Params.KeyLength)) :
    (Hash IDKey Read h password).2 = none ∧
      (decodeHash (Hash IDKey Read h password).1).2.2.2 = none ∧
      (decodeHash (Hash IDKey Read h password).1).1.Memory = h.Params.Memory ∧
      (decodeHash (Hash IDKey Read h password).1).1.Iterations = h.Params.Iterations ∧
      (decodeHash (Hash IDKey Read h password).1).1.Parallelism = h.Params.Parallelism ∧
      (decodeHash (Hash IDKey Read h password).1).2.1 =
        (generateSalt Read h.Params.SaltLength).1 ∧
      (decodeHash (Hash IDKey Read h password).1).2.2.1 =
        IDKey password (generateSalt Read h.Params.SaltLength).1 h.Params.Iterations
          h.Params.Memory h.Params.Parallelism h.Params.KeyLength := by
  refine ⟨by rw [Hash_ok IDKey Read h password hr], ?_⟩
  rw [decodeHash_Hash IDKey Read h password hw hr hk]
  exact ⟨rfl, rfl, rfl, rfl, rfl, rfl⟩

/-- C6 at the default parameters and the password `testpass`. -/
theorem C6_decode_recovers_witness :
    (decodeHash (Hash exampleKDF exampleRead New (str "testpass")).1).2.2.2 = none ∧
      (decodeHash (Hash exampleKDF exampleRead New (str "testpass")).1).1.Memory = 65536 ∧
      (decodeHash (Hash exampleKDF exampleRead New (str "testpass")).1).1.Iterations = 3 ∧
      (decodeHash (Hash exampleKDF exampleRead New (str "testpass")).1).1.Parallelism = 2 :=
  have w := C6_decode_recovers exampleKDF exampleRead New (str "testpass") (by decide) rfl
    (by decide)
  ⟨w.2.1, w.2.2.1, w.2.2.2.1, w.2.2.2.2.1⟩

/-- C7. Output format: the string of a successful `Hash` splits on `&` into exactly five
fields, in order the literal `argon2`, `v=19`, `m=<Memory>,t=<Iterations>,p=<Parallelism>`
with the three numbers in decimal digits, the unpadded base64 of the salt and the unpadded
base64 of the derived key, both over the standard alphabet; no field contains `&`. -/
theorem C7_output_format (IDKey : KDF) (Read : RandRead) (h : Hasher) (password : List Nat)
    (hr : (Read h.Params.SaltLength).2 = none) :
    Split sep (Hash IDKey Read h password).1 =
        [str "argon2", str "v=19",
          str "m=" ++ fmtUint h.Params.Memory ++ str ",t=" ++ fmtUint h.Params.Iterations ++
            str ",p=" ++ fmtUint h.Params.Parallelism,
          EncodeToString (generateSalt Read h.Params.SaltLength).1,
          EncodeToString (IDKey password (generateSalt Read h.Params.SaltLength).1
            h.Params.Iterations h.Params.Memory h.Params.Parallelism h.Params.KeyLength)] ∧
      (∀ f ∈ Split sep (Hash IDKey Read h password).1, sep ∉ f) ∧
      (isDigits (fmtUint h.Params.Memory) ∧
        digitsVal (fmtUint h.Params.Memory) 0 = h.Params.Memory) ∧
      (isDigits (fmtUint h.Params.Iterations) ∧
        digitsVal (fmtUint h.Params.Iterations) 0 = h.Params.Iterations) ∧
      (isDigits (fmtUint h.Params.Parallelism) ∧
        digitsVal (fmtUint h.Params.Parallelism) 0 = h.Params.Parallelism) ∧
      (∀ c ∈ EncodeToString (generateSalt Read h.Params.SaltLength).1, c ∈ encodeStd) ∧
      (∀ c ∈ EncodeToString (IDKey password (generateSalt Read h.Params.SaltLength).1
        h.Params.Iterations h.Params.Memory h.Params.Parallelism h.Params.KeyLength),
        c ∈ encodeStd) := by
  have hv : str "v=" ++ fmtInt Version = str "v=19" := by decide
  have hs : Split sep (Hash IDKey Read h password).1 =
      [str "argon2", str "v=19",
        str "m=" ++ fmtUint h.Params.Memory ++ str ",t=" ++ fmtUint h.Params.Iterations ++
          str ",p=" ++ fmtUint h.Params.Parallelism,
        EncodeToString (generateSalt Read h.Params.SaltLength).1,
        EncodeToString (IDKey password (generateSalt Read h.Params.SaltLength).1
          h.Params.Iterations h.Params.Memory h.Params.Parallelism h.Params.KeyLength)] := by
    rw [Hash_ok IDKey Read h password hr, Split_encoded _ _ _ _ _ _ _ sep_not_mem_argon2, hv]
  refine ⟨hs, ?_, ⟨(fmtUint_spec _).2.1, (fmtUint_spec _).2.2⟩,
    ⟨(fmtUint_spec _).2.1, (fmtUint_spec _).2.2⟩, ⟨(fmtUint_spec _).2.1, (fmtUint_spec _).2.2⟩,
    EncodeToString_mem _, EncodeToString_mem _⟩
  rw [hs]
  intro f hf
  simp only [List.mem_cons, List.mem_singleton, List.not_mem_nil, or_false] at hf
  rcases hf with rfl | rfl | rfl | rfl | rfl
  · exact sep_not_mem_argon2
  · decide
  · intro hm
    simp only [List.mem_append, str_m, str_t, str_p] at hm
    rcases hm with ((((hm | hm) | hm) | hm) | hm) | hm
    · simp [sep] at hm
    · exact isDigits_sep _ (fmtUint_spec _).2.1 hm
    · simp [sep] at hm
    · exact isDigits_sep _ (fmtUint_spec _).2.1 hm
    · simp [sep] at hm
    · exact isDigits_sep _ (fmtUint_spec _).2.1 hm
  · exact sep_not_mem_EncodeToString _
  · exact sep_not_mem_EncodeToString _

/-- C7 at the default parameters and the password `testpass`, with the whole string printed. -/
theorem C7_output_format_witness :
    (Hash exampleKDF exampleRead New (str "testpass")).1 =
        str ("argon2&v=19&m=65536,t=3,p=2&BSpPdJm+4wgtUnecweYLMA&" ++
          "CAkKCwwNDg8QERITFBUWFxgZGhscHR4fICEiIyQlJic") ∧
      Split sep (Hash exampleKDF exampleRead New (str "testpass")).1 =
        [str "argon2", str "v=19",
          str "m=" ++ fmtUint 65536 ++ str ",t=" ++ fmtUint 3 ++ str ",p=" ++ fmtUint 2,
          EncodeToString (generateSalt exampleRead 16).1,
          EncodeToString (exampleKDF (str "testpass") (generateSalt exampleRead 16).1
            3 65536 2 32)] :=
  ⟨by decide, (C7_output_format exampleKDF exampleRead New (str "testpass") rfl).1⟩

/-- C8, as stated, fails: the first field of the string `Hash` returns for the password
`testpass` with the default parameters is `argon2`, not the `hasher` of the format written in
the comment of `Hash`. -/
theorem C8_counterexample :
    (Hash exampleKDF exampleRead New (str "testpass")).2 = none ∧
      (Split sep (Hash exampleKDF exampleRead New (str "testpass")).1).head? =
        some (str "argon2") ∧
      (Split sep (Hash exampleKDF exampleRead New (str "testpass")).1).head? ≠
        some (str "hasher") := by
  decide

/-- C8, amended: the string a successful `Hash` returns has the form
`argon2&v=version&m=memory,t=iterations,p=parallelism&salt&passwordHash`: it splits on `&`
into five fields of which the first is the literal `argon2` (and not `hasher`), the second
`v=` and the version, the third the three parameters, the fourth the salt and the fifth the
key, both in base64. -/
theorem C8_first_field (IDKey : KDF) (Read : RandRead) (h : Hasher) (password : List Nat)
    (hr : (Read h.Params.SaltLength).2 = none) :
    (Split sep (Hash IDKey Read h password).1).head? = some (str "argon2") ∧
      str "argon2" ≠ str "hasher" ∧
      Split sep (Hash IDKey Read h password).1 =
        [str "argon2", str "v=" ++ fmtInt Version,
          str "m=" ++ fmtUint h.Params.Memory ++ str ",t=" ++ fmtUint h.Params.Iterations ++
            str ",p=" ++ fmtUint h.Params.Parallelism,
          EncodeToString (generateSalt Read h.Params.SaltLength).1,
          EncodeToString (IDKey password (generateSalt Read h.Params.SaltLength).1
            h.Params.Iterations h.Params.Memory h.Params.Parallelism h.Params.KeyLength)] := by
  have hs := Split_encoded (str "argon2") Version h.Params.Memory h.Params.Iterations
    h.Params.Parallelism (generateSalt Read h.Params.SaltLength).1
    (IDKey password (generateSalt Read h.Params.SaltLength).1
      h.Params.Iterations h.Params.Memory h.Params.Parallelism h.Params.KeyLength)
    sep_not_mem_argon2
  rw [Hash_ok IDKey Read h password hr, hs]
  exact ⟨rfl, by decide, rfl⟩

/-- C8 (amended) at the default parameters and the password `testpass`. -/
theorem C8_first_field_witness :
    (Split sep (Hash exampleKDF exampleRead New (str "testpass")).1).head? =
        some (str "argon2") ∧
      (Split sep (Hash exampleKDF exampleRead New (str "testpass")).1).length = 5 :=
  have w := C8_first_field exampleKDF exampleRead New (str "testpass") rfl
  ⟨w.1, by rw [w.2.2]; rfl⟩

/-- C9. Verification uses the stored parameters only: two Hashers with any parameter sets
return the same boolean and the same error on the same password and string; the result is the
error of `decodeHash`, or the comparison of the decoded key with the key the key-derivation
function gives for the password, the decoded salt, the decoded `Iterations`, `Memory` and
`Parallelism`, and the key length `uint32(len(key))`, which is the length of the decoded key
for a string shorter than 2^32 bytes. -/
theorem C9_stored_parameters (IDKey : KDF) (h1 h2 : Hasher) (password encHash : List Nat) :
    ComparePasswordAndHash IDKey h1 password encHash =
        ComparePasswordAndHash IDKey h2 password encHash ∧
      ComparePasswordAndHash IDKey h1 password encHash =
        (match (decodeHash encHash).2.2.2 with
          | some err => (false, some err)
          | none =>
            (ConstantTimeCompare (decodeHash encHash).2.2.1
              (IDKey password (decodeHash encHash).2.1 (decodeHash encHash).1.Iterations
                (decodeHash encHash).1.Memory (decodeHash encHash).1.Parallelism
                ((decodeHash encHash).2.2.1.length % 2 ^ 32)) == 1, none)) ∧
      (encHash.length < 2 ^ 32 →
        (decodeHash encHash).2.2.1.length % 2 ^ 32 = (decodeHash encHash).2.2.1.length) := by
  refine ⟨rfl, ?_, ?_⟩
  · cases hd : (decodeHash encHash).2.2.2 with
    | some err =>
      unfold ComparePasswordAndHash
      split
      · next e hdd => rw [hdd] at hd; simp only [Option.some.injEq] at hd; rw [hd]
      · next hdd => rw [hdd] at hd; simp at hd
    | none =>
      have hk := decodeHash_KeyLength encHash hd
      unfold ComparePasswordAndHash
      split
      · next e hdd => rw [hdd] at hd; simp at hd
      · next params salt hash hdd =>
        rw [hdd] at hk
        simp only at hk
        simp only [hk, hdd]
  · intro hl
    exact Nat.mod_eq_of_lt (lt_of_le_of_lt (decodeHash_key_length_le encHash) hl)

/-- C9 at the default Hasher, a Hasher with other parameters and a short string. -/
theorem C9_stored_parameters_witness :
    ComparePasswordAndHash exampleKDF New (str "testpass")
        (str "argon2&v=19&m=1,t=1,p=1&BZS2&CAkK") =
      ComparePasswordAndHash exampleKDF
        (NewWithParams { Memory := 8, Iterations := 1, Parallelism := 1, SaltLength := 4,
                         KeyLength := 64 })
        (str "testpass") (str "argon2&v=19&m=1,t=1,p=1&BZS2&CAkK") ∧
      (decodeHash (str "argon2&v=19&m=1,t=1,p=1&BZS2&CAkK")).2.2.1.length % 2 ^ 32 =
        (decodeHash (str "argon2&v=19&m=1,t=1,p=1&BZS2&CAkK")).2.2.1.length :=
  have w := C9_stored_parameters exampleKDF New
    (NewWithParams { Memory := 8, Iterations := 1, Parallelism := 1, SaltLength := 4,
                     KeyLength := 64 })
    (str "testpass") (str "argon2&v=19&m=1,t=1,p=1&BZS2&CAkK")
  ⟨w.1, w.2.2 (by decide)⟩

/-- C10. Default parameters: `New()` is `NewWithParams` applied to Memory = 65536,
Iterations = 3, Parallelism = 2, SaltLength = 16, KeyLength = 32, its parameter set is exactly
that one, and `NewWithParams` stores any parameter set unchanged. -/
theorem C10_defaults :
    New.Params = { Memory := 65536, Iterations := 3, Parallelism := 2, SaltLength := 16,
                   KeyLength := 32 } ∧
      New = NewWithParams { Memory := 65536, Iterations := 3, Parallelism := 2,
                            SaltLength := 16, KeyLength := 32 } ∧
      ∀ p : Params, (NewWithParams p).Params = p :=
  ⟨rfl, rfl, fun _ => rfl⟩

/-- C11. Decoded lengths come from the data: for every string `decodeHash` accepts, the
`SaltLength` returned is `uint32(len(salt))` and the `KeyLength` returned is
`uint32(len(key))`, the numbers of bytes of the decoded salt and key for a string shorter than
2^32 bytes; the salt `generateSalt` returns has exactly `SaltLength` bytes, and decoding the
string of a successful `Hash` gives the `SaltLength` of the Hasher that produced it. -/
theorem C11_decoded_lengths (IDKey : KDF) (Read : RandRead) (h : Hasher)
    (password encHash : List Nat) :
    ((decodeHash encHash).2.2.2 = none →
        (decodeHash encHash).1.SaltLength = (decodeHash encHash).2.1.length % 2 ^ 32 ∧
        (decodeHash encHash).1.KeyLength = (decodeHash encHash).2.2.1.length % 2 ^ 32 ∧
        (encHash.length < 2 ^ 32 →
          (decodeHash encHash).1.SaltLength = (decodeHash encHash).2.1.length ∧
          (decodeHash encHash).1.KeyLength = (decodeHash encHash).2.2.1.length)) ∧
      (generateSalt Read h.Params.SaltLength).1.length = h.Params.SaltLength ∧
      (h.Params.wellTyped → (Read h.Params.SaltLength).2 = none →
        isBytes (IDKey password (generateSalt Read h.Params.SaltLength).1
          h.Params.Iterations h.Params.Memory h.Params.Parallelism h.Params.KeyLength) →
        (decodeHash (Hash IDKey Read h password).1).2.2.2 = none ∧
        (decodeHash (Hash IDKey Read h password).1).1.SaltLength = h.Params.SaltLength) := by
  refine ⟨?_, length_generateSalt Read _, ?_⟩
  · intro hok
    have hs := decodeHash_SaltLength encHash hok
    have hk := decodeHash_KeyLength encHash hok
    refine ⟨hs, hk, ?_⟩
    intro hl
    rw [hs, hk]
    exact ⟨Nat.mod_eq_of_lt (lt_of_le_of_lt (decodeHash_salt_length_le encHash) hl),
      Nat.mod_eq_of_lt (lt_of_le_of_lt (decodeHash_key_length_le encHash) hl)⟩
  · intro hw hr hk
    rw [decodeHash_Hash IDKey Read h password hw hr hk]
    refine ⟨rfl, ?_⟩
    simp only [length_generateSalt]
    exact Nat.mod_eq_of_lt hw.2.2.2.1

/-- C11 at a string whose salt has 3 bytes and whose key has 6, and at the default Hasher. -/
theorem C11_decoded_lengths_witness :
    (decodeHash (str "argon2&v=19&m=65536,t=3,p=2&BZS2&sgIRBy9M")).1.SaltLength = 3 ∧
      (decodeHash (str "argon2&v=19&m=65536,t=3,p=2&BZS2&sgIRBy9M")).2.1.length = 3 ∧
      (decodeHash (str "argon2&v=19&m=65536,t=3,p=2&BZS2&sgIRBy9M")).1.KeyLength = 6 ∧
      (decodeHash (str "argon2&v=19&m=65536,t=3,p=2&BZS2&sgIRBy9M")).2.2.1.length = 6 ∧
      (decodeHash (Hash exampleKDF exampleRead New (str "testpass")).1).1.SaltLength = 16 :=
  have w := C11_decoded_lengths exampleKDF exampleRead New (str "testpass")
    (str "argon2&v=19&m=65536,t=3,p=2&BZS2&sgIRBy9M")
  have w1 := (w.1 (by decide)).2.2 (by decide)
  ⟨by rw [w1.1]; decide, by decide, by rw [w1.2]; decide, by decide,
    (w.2.2 (by decide) rfl (by decide)).2⟩

/-- C12. Failure of `Hash`: `Hash` returns an error exactly when the random source returns one
while the salt is generated; then the error is that of the random source and the string is
empty; otherwise `Hash` returns no error and a string that is not empty. The key-derivation
step is a function call and has no error to return. -/
theorem C12_hash_failure (IDKey : KDF) (Read : RandRead) (h : Hasher) (password : List Nat) :
    ((Hash IDKey Read h password).2 ≠ none ↔ (generateSalt Read h.Params.SaltLength).2 ≠ none) ∧
      (generateSalt Read h.Params.SaltLength).2 = (Read h.Params.SaltLength).2 ∧
      (∀ e, (Read h.Params.SaltLength).2 = some e →
        Hash IDKey Read h password = ([], some e)) ∧
      ((Read h.Params.SaltLength).2 = none →
        (Hash IDKey Read h password).2 = none ∧ (Hash IDKey Read h password).1 ≠ []) := by
  have hfail : ∀ e, (Read h.Params.SaltLength).2 = some e →
      Hash IDKey Read h password = ([], some e) := by
    intro e he
    have hg : generateSalt Read h.Params.SaltLength =
        ((generateSalt Read h.Params.SaltLength).1, some e) := by
      simp [generateSalt, he]
    rw [Hash, hg]
  have hok : (Read h.Params.SaltLength).2 = none →
      (Hash IDKey Read h password).2 = none ∧ (Hash IDKey Read h password).1 ≠ [] := by
    intro hr
    rw [Hash_ok IDKey Read h password hr, str_argon2]
    exact ⟨rfl, by simp⟩
  refine ⟨?_, rfl, hfail, hok⟩
  have hg : (generateSalt Read h.Params.SaltLength).2 = (Read h.Params.SaltLength).2 := rfl
  rw [hg]
  cases hr : (Read h.Params.SaltLength).2 with
  | none => simp [(hok hr).1]
  | some e => simp [hfail e hr]

/-- C12 at a random source that fails and at one that does not. -/
theorem C12_hash_failure_witness :
    Hash exampleKDF (fun _ => (fun _ => 0, some (Error.entropy 1))) New (str "testpass") =
        ([], some (Error.entropy 1)) ∧
      (Hash exampleKDF exampleRead New (str "testpass")).2 = none ∧
      (Hash exampleKDF exampleRead New (str "testpass")).1 ≠ [] :=
  ⟨(C12_hash_failure exampleKDF (fun _ => (fun _ => 0, some (Error.entropy 1))) New
      (str "testpass")).2.2.1 (Error.entropy 1) rfl,
    (C12_hash_failure exampleKDF exampleRead New (str "testpass")).2.2.2 rfl⟩

/-- C13. Decode failures are propagated unchanged: `ComparePasswordAndHash` returns the error
of `decodeHash` on the string, so it returns an error exactly when `decodeHash` does; with an
error the boolean is `false` and the result is the same for every key-derivation function
(it is not called). -/
theorem C13_decode_failures (IDKey IDKey2 : KDF) (h : Hasher) (password encHash : List Nat) :
    (ComparePasswordAndHash IDKey h password encHash).2 = (decodeHash encHash).2.2.2 ∧
      ((ComparePasswordAndHash IDKey h password encHash).2 ≠ none ↔
        (decodeHash encHash).2.2.2 ≠ none) ∧
      (∀ e, (decodeHash encHash).2.2.2 = some e →
        ComparePasswordAndHash IDKey h password encHash = (false, some e) ∧
        ComparePasswordAndHash IDKey2 h password encHash = (false, some e)) := by
  have he := ComparePasswordAndHash_error IDKey h password encHash
  refine ⟨he, by rw [he], ?_⟩
  intro e hd
  rw [ComparePasswordAndHash_eq IDKey, ComparePasswordAndHash_eq IDKey2, hd]
  exact ⟨rfl, rfl⟩

/-- C13 at a string whose salt field is not base64: the error of the decoder comes back. -/
theorem C13_decode_failures_witness :
    ComparePasswordAndHash exampleKDF New (str "testpass")
        (str "argon2&v=19&m=65536,t=3,p=2&BZS2=&sgIR") =
      (false, some (Error.CorruptInputError 4)) :=
  ((C13_decode_failures exampleKDF exampleKDF New (str "testpass")
    (str "argon2&v=19&m=65536,t=3,p=2&BZS2=&sgIR")).2.2 (Error.CorruptInputError 4)
    (by decide)).1

/-- C14. Must variants: `MustHash` returns the string of `Hash` when `Hash` returns no error
and panics with the error of `Hash` otherwise; `MustComparePasswordAndHash` returns the
boolean of `ComparePasswordAndHash` when it returns no error and panics with its error
otherwise. Each panics exactly when the operation it wraps returns an error. -/
theorem C14_must_variants (IDKey : KDF) (Read : RandRead) (h : Hasher)
    (password encHash : List Nat) :
    (MustHash IDKey Read h password =
        match (Hash IDKey Read h password).2 with
        | none => Except.ok (Hash IDKey Read h password).1
        | some err => Except.error err) ∧
      ((∃ err, MustHash IDKey Read h password = Except.error err) ↔
        (Hash IDKey Read h password).2 ≠ none) ∧
      (MustComparePasswordAndHash IDKey h password encHash =
        match (ComparePasswordAndHash IDKey h password encHash).2 with
        | none => Except.ok (ComparePasswordAndHash IDKey h password encHash).1
        | some err => Except.error err) ∧
      ((∃ err, MustComparePasswordAndHash IDKey h password encHash = Except.error err) ↔
        (ComparePasswordAndHash IDKey h password encHash).2 ≠ none) := by
  have e1 : MustHash IDKey Read h password =
      match (Hash IDKey Read h password).2 with
      | none => Except.ok (Hash IDKey Read h password).1
      | some err => Except.error err := by
    unfold MustHash
    split
    · next hh => rw [hh]
    · next hh => rw [hh]
  have e2 : MustComparePasswordAndHash IDKey h password encHash =
      match (ComparePasswordAndHash IDKey h password encHash).2 with
      | none => Except.ok (ComparePasswordAndHash IDKey h password encHash).1
      | some err => Except.error err := by
    unfold MustComparePasswordAndHash
    split
    · next hh => rw [hh]
    · next hh => rw [hh]
  refine ⟨e1, ?_, e2, ?_⟩
  · rw [e1]
    cases (Hash IDKey Read h password).2 with
    | none => simp
    | some err => simp
  · rw [e2]
    cases (ComparePasswordAndHash IDKey h password encHash).2 with
    | none => simp
    | some err => simp

/-- C16. Exact match result: when `decodeHash` accepts the string, `ComparePasswordAndHash`
returns no error and returns `true` exactly when the key the key-derivation function gives
for the password, the decoded salt, `Iterations`, `Memory`, `Parallelism` and the key length
`uint32(len(key))` is the decoded key: same length and the same byte at every index. The key
length is the length of the decoded key for a string shorter than 2^32 bytes. -/
theorem C16_exact_match (IDKey : KDF) (h : Hasher) (password encHash : List Nat)
    (hok : (decodeHash encHash).2.2.2 = none)
    (hbytes : isBytes (IDKey password (decodeHash encHash).2.1
      (decodeHash encHash).1.Iterations (decodeHash encHash).1.Memory
      (decodeHash encHash).1.Parallelism ((decodeHash encHash).2.2.1.length % 2 ^ 32))) :
    (ComparePasswordAndHash IDKey h password encHash).2 = none ∧
      ((ComparePasswordAndHash IDKey h password encHash).1 = true ↔
        IDKey password (decodeHash encHash).2.1 (decodeHash encHash).1.Iterations
          (decodeHash encHash).1.Memory (decodeHash encHash).1.Parallelism
          ((decodeHash encHash).2.2.1.length % 2 ^ 32) = (decodeHash encHash).2.2.1) ∧
      ((ComparePasswordAndHash IDKey h password encHash).1 = true ↔
        (IDKey password (decodeHash encHash).2.1 (decodeHash encHash).1.Iterations
          (decodeHash encHash).1.Memory (decodeHash encHash).1.Parallelism
          ((decodeHash encHash).2.2.1.length % 2 ^ 32)).length =
            (decodeHash encHash).2.2.1.length ∧
        ∀ i : Nat, (IDKey password (decodeHash encHash).2.1 (decodeHash encHash).1.Iterations
          (decodeHash encHash).1.Memory (decodeHash encHash).1.Parallelism
          ((decodeHash encHash).2.2.1.length % 2 ^ 32))[i]? = (decodeHash encHash).2.2.1[i]?) ∧
      (encHash.length < 2 ^ 32 →
        (decodeHash encHash).2.2.1.length % 2 ^ 32 = (decodeHash encHash).2.2.1.length) := by
  have hk := decodeHash_KeyLength encHash hok
  have hc := ConstantTimeCompare_eq_one_iff (decodeHash encHash).2.2.1 _
    (isBytes_decodeHash_key encHash) hbytes
  have hiff : (ComparePasswordAndHash IDKey h password encHash).1 = true ↔
      IDKey password (decodeHash encHash).2.1 (decodeHash encHash).1.Iterations
        (decodeHash encHash).1.Memory (decodeHash encHash).1.Parallelism
        ((decodeHash encHash).2.2.1.length % 2 ^ 32) = (decodeHash encHash).2.2.1 := by
    rw [ComparePasswordAndHash_eq, hok, hk]
    simp only [beq_iff_eq]
    rw [hc]
    exact eq_comm
  refine ⟨?_, hiff, ?_, ?_⟩
  · rw [ComparePasswordAndHash_error, hok]
  · rw [hiff]
    constructor
    · intro e
      rw [e]
      exact ⟨rfl, fun _ => rfl⟩
    · rintro ⟨_, hi⟩
      exact List.ext_getElem? hi
  · intro hl
    exact Nat.mod_eq_of_lt (lt_of_le_of_lt (decodeHash_key_length_le encHash) hl)

/-- C16 at a string whose key is the one `exampleKDF` gives for a password of 8 bytes: a
password of 8 bytes matches. -/
theorem C16_exact_match_witness :
    (ComparePasswordAndHash exampleKDF New (str "testpass")
        (str "argon2&v=19&m=65536,t=3,p=2&BZS2&CAkK")).1 = true ↔
      exampleKDF (str "testpass") (decodeHash (str "argon2&v=19&m=65536,t=3,p=2&BZS2&CAkK")).2.1
        (decodeHash (str "argon2&v=19&m=65536,t=3,p=2&BZS2&CAkK")).1.Iterations
        (decodeHash (str "argon2&v=19&m=65536,t=3,p=2&BZS2&CAkK")).1.Memory
        (decodeHash (str "argon2&v=19&m=65536,t=3,p=2&BZS2&CAkK")).1.Parallelism
        ((decodeHash (str "argon2&v=19&m=65536,t=3,p=2&BZS2&CAkK")).2.2.1.length % 2 ^ 32) =
      (decodeHash (str "argon2&v=19&m=65536,t=3,p=2&BZS2&CAkK")).2.2.1 :=
  (C16_exact_match exampleKDF New (str "testpass")
    (str "argon2&v=19&m=65536,t=3,p=2&BZS2&CAkK") (by decide) (by decide)).2.1

/-- C17, as stated, fails: 256 is a decimal `uint32` value, and the string with the parameter
field `m=65536,t=3,p=256`, the version 19 and base64 salt and key fields is rejected with the
scanner's error "unsigned integer overflow", `Parallelism` being a `uint8`. -/
theorem C17_counterexample :
    (256 : Nat) < 2 ^ 32 ∧
      str "argon2" ++ [sep] ++ str "v=" ++ fmtInt Version ++ [sep] ++
          str "m=" ++ fmtUint 65536 ++ str ",t=" ++ fmtUint 3 ++ str ",p=" ++ fmtUint 256 ++
          [sep] ++ str "BZS2" ++ [sep] ++ str "sgIR" =
        str "argon2&v=19&m=65536,t=3,p=256&BZS2&sgIR" ∧
      (DecodeString (str "BZS2")).2 = none ∧
      (DecodeString (str "sgIR")).2 = none ∧
      decodeHash (str "argon2&v=19&m=65536,t=3,p=256&BZS2&sgIR") =
        ({ Memory := 65536, Iterations := 3, Parallelism := 0, SaltLength := 0,
           KeyLength := 0 }, [], [], some (Error.unsignedIntegerOverflow (str "256"))) := by
  decide

/-- C17, amended: for every `m` and `t` that are decimal `uint32` values and every `p` that
is a decimal `uint8` value (0 to 255), a string of five fields with the version 19, the
parameter field `m=<m>,t=<t>,p=<p>` and salt and key fields that the base64 decoder accepts is
decoded without error, and the decoded `Memory`, `Iterations` and `Parallelism` are `m`, `t`
and `p`; for `p` from 256 up to the largest `uint32` the string is rejected with the error
"unsigned integer overflow" of the scanner. -/
theorem C17_parameter_range (tag : List Nat) (m t p : Nat) (f4 f5 : List Nat)
    (htag : sep ∉ tag) (hm : m < 2 ^ 32) (ht : t < 2 ^ 32) (hp : p < 2 ^ 32)
    (h4 : (DecodeString f4).2 = none) (h5 : (DecodeString f5).2 = none) :
    (p < 2 ^ 8 →
        decodeHash (tag ++ [sep] ++ str "v=" ++ fmtInt Version ++ [sep] ++
          str "m=" ++ fmtUint m ++ str ",t=" ++ fmtUint t ++ str ",p=" ++ fmtUint p ++ [sep] ++
          f4 ++ [sep] ++ f5) =
        ({ Memory := m, Iterations := t, Parallelism := p,
           SaltLength := (DecodeString f4).1.length % 2 ^ 32,
           KeyLength := (DecodeString f5).1.length % 2 ^ 32 },
          (DecodeString f4).1, (DecodeString f5).1, none)) ∧
      (2 ^ 8 ≤ p →
        decodeHash (tag ++ [sep] ++ str "v=" ++ fmtInt Version ++ [sep] ++
          str "m=" ++ fmtUint m ++ str ",t=" ++ fmtUint t ++ str ",p=" ++ fmtUint p ++ [sep] ++
          f4 ++ [sep] ++ f5) =
        ({ Memory := m, Iterations := t, Parallelism := 0, SaltLength := 0, KeyLength := 0 },
          [], [], some (Error.unsignedIntegerOverflow (fmtUint p)))) := by
  have s4 := sep_not_mem_of_DecodeString f4 h4
  have s5 := sep_not_mem_of_DecodeString f5 h5
  constructor
  · intro hp8
    rw [decodeHash_fields tag m t p f4 f5 htag hm ht hp8 s4 s5]
    have e4 : DecodeString f4 = ((DecodeString f4).1, none) := by rw [← h4]
    rw [e4, h5]
  · intro hp8
    exact decodeHash_fields_overflow tag m t p f4 f5 htag hm ht hp8
      (lt_of_lt_of_le hp (by norm_num)) s4 s5

/-- C17 (amended) at the parameters of the default Hasher with `p = 255`. -/
theorem C17_parameter_range_witness :
    decodeHash (str "argon2" ++ [sep] ++ str "v=" ++ fmtInt Version ++ [sep] ++
        str "m=" ++ fmtUint 65536 ++ str ",t=" ++ fmtUint 3 ++ str ",p=" ++ fmtUint 255 ++
        [sep] ++ str "BZS2" ++ [sep] ++ str "sgIR") =
      ({ Memory := 65536, Iterations := 3, Parallelism := 255,
         SaltLength := (DecodeString (str "BZS2")).1.length % 2 ^ 32,
         KeyLength := (DecodeString (str "sgIR")).1.length % 2 ^ 32 },
        (DecodeString (str "BZS2")).1, (DecodeString (str "sgIR")).1, none) :=
  (C17_parameter_range (str "argon2") 65536 3 255 (str "BZS2") (str "sgIR") (by decide)
    (by decide) (by decide) (by decide) (by decide) (by decide)).1 (by decide)

/-- C18, as stated, fails: `decodeHash` accepts a string whose version field has a space, a
sign, a leading zero and trailing characters, whose parameter field has a space, a leading
zero and trailing characters, and whose salt field has a newline; re-serialising what was
decoded does not give back fields 2, 3 and 4. -/
theorem C18_counterexample :
    Split sep (str "argon2&v= +019zz&m= 07,t=3,p=2!!&BZ\nS2&sgIR") =
        [str "argon2", str "v= +019zz", str "m= 07,t=3,p=2!!", str "BZ\nS2", str "sgIR"] ∧
      decodeHash (str "argon2&v= +019zz&m= 07,t=3,p=2!!&BZ\nS2&sgIR") =
        ({ Memory := 7, Iterations := 3, Parallelism := 2, SaltLength := 3, KeyLength := 3 },
          [5, 148, 182], [178, 2, 17], none) ∧
      str "v= +019zz" ≠ str "v=" ++ fmtInt Version ∧
      str "m= 07,t=3,p=2!!" ≠
        str "m=" ++ fmtUint 7 ++ str ",t=" ++ fmtUint 3 ++ str ",p=" ++ fmtUint 2 ∧
      str "BZ\nS2" ≠ EncodeToString [5, 148, 182] ∧
      str "sgIR" = EncodeToString [178, 2, 17] := by
  decide

/-- C18, amended: a string of five fields is accepted by `decodeHash` when, and only when,
its field 2 is `v=`, then spaces (none, one or more, no newline), an optional `+` and a run of
decimal digits of value 19, its field 3 is `m=`, a number, `,t=`, a number, `,p=` and a
number, in this order, a number being spaces and a run of decimal digits, the first two
numbers under 2^32 and the third under 2^8, either field going on with any text that does not
start with a digit, and its fields 4 and 5 are accepted by the base64 decoder; any other
field 2 or field 3 is rejected. In a string that is accepted, the parameters decoded are the
three numbers of field 3 and fit their types, field 2 starts with the bytes `v=` and field 3
with the bytes `m=`; the string printed again from the first field, the version 19, the
decoded parameters, the decoded salt and the decoded key is accepted with the same
parameters, salt and key; a field 2 that is `v=` and a decimal numeral without a leading zero
is the field printed again, and so is a field 3 that is `m=`, `,t=`, `,p=` and three such
numerals. -/
theorem C18_accepted_fields (enc f1 f2 f3 f4 f5 : List Nat)
    (hs : Split sep enc = [f1, f2, f3, f4, f5]) :
    ((decodeHash enc).2.2.2 = none ↔
        versionForm (runes f2) ∧ (∃ m t p, paramsForm (runes f3) m t p) ∧
          (DecodeString f4).2 = none ∧ (DecodeString f5).2 = none) ∧
      (∀ m t p, (decodeHash enc).2.2.2 = none → paramsForm (runes f3) m t p →
        (decodeHash enc).1.Memory = m ∧ (decodeHash enc).1.Iterations = t ∧
          (decodeHash enc).1.Parallelism = p) ∧
      ((decodeHash enc).2.2.2 = none →
        (∃ r2, f2 = str "v=" ++ r2) ∧ (∃ r3, f3 = str "m=" ++ r3) ∧
        (decodeHash enc).1.wellTyped ∧
        decodeHash (f1 ++ [sep] ++ str "v=" ++ fmtInt Version ++ [sep] ++
            str "m=" ++ fmtUint (decodeHash enc).1.Memory ++
            str ",t=" ++ fmtUint (decodeHash enc).1.Iterations ++
            str ",p=" ++ fmtUint (decodeHash enc).1.Parallelism ++ [sep] ++
            EncodeToString (decodeHash enc).2.1 ++ [sep] ++
            EncodeToString (decodeHash enc).2.2.1) = decodeHash enc ∧
        (∀ ds, f2 = str "v=" ++ ds → isDecimal ds → f2 = str "v=" ++ fmtInt Version) ∧
        (∀ dm dt dp, f3 = str "m=" ++ dm ++ str ",t=" ++ dt ++ str ",p=" ++ dp →
          isDecimal dm → isDecimal dt → isDecimal dp →
          f3 = str "m=" ++ fmtUint (decodeHash enc).1.Memory ++
            str ",t=" ++ fmtUint (decodeHash enc).1.Iterations ++
            str ",p=" ++ fmtUint (decodeHash enc).1.Parallelism)) := by
  refine ⟨decodeHash_accepts_iff enc f1 f2 f3 f4 f5 hs,
    fun m t p hok hpar => decodeHash_accepts_values enc f1 f2 f3 f4 f5 m t p hs hok hpar, ?_⟩
  intro hok
  obtain ⟨hm, ht, hp, ⟨r2, h2⟩, ⟨r3, h3⟩⟩ := decodeHash_ok_wellTyped enc f1 f2 f3 f4 f5 hs hok
  have hsl := decodeHash_SaltLength enc hok
  have hkl := decodeHash_KeyLength enc hok
  have h1 : sep ∉ f1 := Split_no_sep sep enc f1 (by rw [hs]; simp)
  refine ⟨⟨r2, by rw [h2, str_v]; rfl⟩, ⟨r3, by rw [h3, str_m]; rfl⟩, ?_, ?_,
    fun ds hf hd => decodeHash_strict_version enc f1 f2 f3 f4 f5 ds hs hok hf hd,
    fun dm dt dp hf hdm hdt hdp =>
      decodeHash_strict_params enc f1 f2 f3 f4 f5 dm dt dp hs hok hf hdm hdt hdp⟩
  · refine ⟨hm, ht, hp, ?_, ?_⟩
    · rw [hsl]; exact Nat.mod_lt _ (by norm_num)
    · rw [hkl]; exact Nat.mod_lt _ (by norm_num)
  · rw [decodeHash_encoded f1 _ _ _ _ _ h1 hm ht hp (isBytes_decodeHash_salt enc)
      (isBytes_decodeHash_key enc), ← hsl, ← hkl, ← hok]

/-- C18 (amended) at a string that is accepted and is not in the form `Hash` prints, at a
string whose parameter field has `,p=` before `,t=` and at a string whose parameter field is
`m=7` alone, both of which are rejected. -/
theorem C18_accepted_fields_witness :
    (versionForm (runes (str "v= +019zz")) ∧
        (∃ m t p, paramsForm (runes (str "m= 07,t=3,p=2!!")) m t p) ∧
        (DecodeString (str "BZS2")).2 = none ∧ (DecodeString (str "sgIR")).2 = none) ∧
      (decodeHash (str "argon2&v=19&m=7,p=2,t=3&BZS2&sgIR")).2.2.2 =
        some Error.inputDoesNotMatchFormat ∧
      ¬ (versionForm (runes (str "v=19")) ∧
        (∃ m t p, paramsForm (runes (str "m=7,p=2,t=3")) m t p) ∧
        (DecodeString (str "BZS2")).2 = none ∧ (DecodeString (str "sgIR")).2 = none) ∧
      (decodeHash (str "argon2&v=19&m=7&BZS2&sgIR")).2.2.2 = some Error.ErrUnexpectedEOF ∧
      ¬ (versionForm (runes (str "v=19")) ∧
        (∃ m t p, paramsForm (runes (str "m=7")) m t p) ∧
        (DecodeString (str "BZS2")).2 = none ∧ (DecodeString (str "sgIR")).2 = none) :=
  ⟨(C18_accepted_fields (str "argon2&v= +019zz&m= 07,t=3,p=2!!&BZS2&sgIR") (str "argon2")
      (str "v= +019zz") (str "m= 07,t=3,p=2!!") (str "BZS2") (str "sgIR") (by decide)).1.1
      (by decide),
    by decide,
    fun h => absurd
      ((C18_accepted_fields (str "argon2&v=19&m=7,p=2,t=3&BZS2&sgIR") (str "argon2")
        (str "v=19") (str "m=7,p=2,t=3") (str "BZS2") (str "sgIR") (by decide)).1.2 h)
      (by decide),
    by decide,
    fun h => absurd
      ((C18_accepted_fields (str "argon2&v=19&m=7&BZS2&sgIR") (str "argon2")
        (str "v=19") (str "m=7") (str "BZS2") (str "sgIR") (by decide)).1.2 h)
      (by decide)⟩

/-- C19. Zero lengths are not rejected: for every `m`, `t` and `p` that fit the parameters,
`decodeHash` on `argon2&v=19&m=<m>,t=<t>,p=<p>&&` returns no error, an empty salt, an empty
key, `SaltLength = 0` and `KeyLength = 0`, and `ComparePasswordAndHash` compares the empty key
with what the key-derivation function gives for key length 0, so that it returns `true` for
every password when that is the empty key. -/
theorem C19_zero_lengths (IDKey : KDF) (h : Hasher) (password : List Nat) (m t p : Nat)
    (hm : m < 2 ^ 32) (ht : t < 2 ^ 32) (hp : p < 2 ^ 8) :
    decodeHash (str "argon2&v=19&m=" ++ fmtUint m ++ str ",t=" ++ fmtUint t ++ str ",p=" ++
        fmtUint p ++ str "&&") =
      ({ Memory := m, Iterations := t, Parallelism := p, SaltLength := 0, KeyLength := 0 },
        [], [], none) ∧
      ComparePasswordAndHash IDKey h password
          (str "argon2&v=19&m=" ++ fmtUint m ++ str ",t=" ++ fmtUint t ++ str ",p=" ++
            fmtUint p ++ str "&&") =
        (ConstantTimeCompare [] (IDKey password [] t m p 0) == 1, none) ∧
      (IDKey password [] t m p 0 = [] →
        ComparePasswordAndHash IDKey h password
            (str "argon2&v=19&m=" ++ fmtUint m ++ str ",t=" ++ fmtUint t ++ str ",p=" ++
              fmtUint p ++ str "&&") = (true, none)) := by
  have e1 : str "argon2&v=19&m=" =
      str "argon2" ++ [sep] ++ str "v=" ++ fmtInt Version ++ [sep] ++ str "m=" := by decide
  have e2 : str "&&" = [sep] ++ [] ++ [sep] ++ [] := by decide
  have e : str "argon2&v=19&m=" ++ fmtUint m ++ str ",t=" ++ fmtUint t ++ str ",p=" ++
      fmtUint p ++ str "&&" =
      str "argon2" ++ [sep] ++ str "v=" ++ fmtInt Version ++ [sep] ++
        str "m=" ++ fmtUint m ++ str ",t=" ++ fmtUint t ++ str ",p=" ++ fmtUint p ++ [sep] ++
        [] ++ [sep] ++ [] := by
    rw [e1, e2]
    simp only [List.append_assoc]
  have hd : decodeHash (str "argon2&v=19&m=" ++ fmtUint m ++ str ",t=" ++ fmtUint t ++
      str ",p=" ++ fmtUint p ++ str "&&") =
      ({ Memory := m, Iterations := t, Parallelism := p, SaltLength := 0, KeyLength := 0 },
        [], [], none) := by
    rw [e, decodeHash_fields (str "argon2") m t p [] [] sep_not_mem_argon2 hm ht hp
      (List.not_mem_nil _) (List.not_mem_nil _)]
    rfl
  have hc : ComparePasswordAndHash IDKey h password
      (str "argon2&v=19&m=" ++ fmtUint m ++ str ",t=" ++ fmtUint t ++ str ",p=" ++
        fmtUint p ++ str "&&") =
      (ConstantTimeCompare [] (IDKey password [] t m p 0) == 1, none) := by
    rw [ComparePasswordAndHash_eq, hd]
  refine ⟨hd, hc, ?_⟩
  intro hk
  rw [hc, hk]
  rfl

/-- C19 at the parameters of the default Hasher: any password is accepted. -/
theorem C19_zero_lengths_witness :
    str "argon2&v=19&m=" ++ fmtUint 65536 ++ str ",t=" ++ fmtUint 3 ++ str ",p=" ++
        fmtUint 2 ++ str "&&" = str "argon2&v=19&m=65536,t=3,p=2&&" ∧
      ComparePasswordAndHash exampleKDF New (str "any password")
          (str "argon2&v=19&m=" ++ fmtUint 65536 ++ str ",t=" ++ fmtUint 3 ++ str ",p=" ++
            fmtUint 2 ++ str "&&") = (true, none) :=
  ⟨by decide, (C19_zero_lengths exampleKDF New (str "any password") 65536 3 2 (by decide)
    (by decide) (by decide)).2.2 (by decide)⟩

/-- C20. The algorithm tag is not checked on decode: replacing the first field of a string by
any text without `&` leaves the result of `decodeHash` (parameters, salt, key and error) and
of `ComparePasswordAndHash` unchanged. -/
theorem C20_tag_unchecked (IDKey : KDF) (h : Hasher) (password : List Nat)
    (tag x rest : List Nat) (htag : sep ∉ tag) (hx : sep ∉ x) :
    decodeHash (x ++ [sep] ++ rest) = decodeHash (tag ++ [sep] ++ rest) ∧
      ComparePasswordAndHash IDKey h password (x ++ [sep] ++ rest) =
        ComparePasswordAndHash IDKey h password (tag ++ [sep] ++ rest) := by
  have e1 : x ++ [sep] ++ rest = x ++ sep :: rest := by simp
  have e2 : tag ++ [sep] ++ rest = tag ++ sep :: rest := by simp
  have s1 : Split sep (x ++ sep :: rest) = x :: Split sep rest := Split_append_sep sep x rest hx
  have s2 : Split sep (tag ++ sep :: rest) = tag :: Split sep rest :=
    Split_append_sep sep tag rest htag
  have hd : decodeHash (x ++ [sep] ++ rest) = decodeHash (tag ++ [sep] ++ rest) := by
    rw [e1, e2]
    by_cases h4 : (Split sep rest).length = 4
    · have h5 : (tag :: Split sep rest).length = 5 := by simp [h4]
      obtain ⟨f1, f2, f3, f4, f5, hs⟩ := length_eq_five _ h5
      injection hs with hf1 hrest
      rw [decodeHash_five _ x f2 f3 f4 f5 (by rw [s1, hrest]),
        decodeHash_five _ tag f2 f3 f4 f5 (by rw [s2, hrest])]
    · have n1 : (Split sep (x ++ sep :: rest)).length ≠ 5 := by
        rw [s1]; simp only [List.length_cons]; omega
      have n2 : (Split sep (tag ++ sep :: rest)).length ≠ 5 := by
        rw [s2]; simp only [List.length_cons]; omega
      unfold decodeHash
      simp only [n1, n2, ne_eq, not_false_eq_true, if_true]
  refine ⟨hd, ?_⟩
  rw [ComparePasswordAndHash_eq, ComparePasswordAndHash_eq, hd]

/-- C20 at the tag `hasher` in place of `argon2`: the string is accepted all the same. -/
theorem C20_tag_unchecked_witness :
    str "hasher" ++ [sep] ++ str "v=19&m=65536,t=3,p=2&BZS2&CAkK" =
        str "hasher&v=19&m=65536,t=3,p=2&BZS2&CAkK" ∧
      decodeHash (str "hasher" ++ [sep] ++ str "v=19&m=65536,t=3,p=2&BZS2&CAkK") =
        decodeHash (str "argon2" ++ [sep] ++ str "v=19&m=65536,t=3,p=2&BZS2&CAkK") ∧
      (decodeHash (str "argon2" ++ [sep] ++ str "v=19&m=65536,t=3,p=2&BZS2&CAkK")).2.2.2 = none :=
  ⟨by decide, (C20_tag_unchecked exampleKDF New (str "testpass") (str "argon2") (str "hasher")
    (str "v=19&m=65536,t=3,p=2&BZS2&CAkK") (by decide) (by decide)).1, by decide⟩
end hasher
